import Mathlib

/-!
# acfunlive `danmu_db.go`: a shallow embedding and its verified properties

Go strings are modelled as lists of Unicode code points (`Str`), i.e. the
development covers valid UTF-8 text.  Splitting, prefix tests and trimming on
ASCII delimiters agree on bytes and on code points for such text.

Go's `int` is taken to be 64 bits wide.  `float64` values are modelled by
their exact rational value together with the IEEE-754 binary64
round-to-nearest-even rounding function (`F64.ofRat`); the sign of zero is
not represented.
-/

set_option autoImplicit false

namespace Danmu

/-- A Go string, as its sequence of code points. -/
abbrev Str := List Char

deriving instance DecidableEq for Except

/-! ## Library functions used by the source -/

/-- Go `unicode.IsSpace`. -/
def isSpace (c : Char) : Bool :=
  c = '\t' || c = '\n' || c.toNat = 0x0B || c.toNat = 0x0C || c = '\r' || c = ' '
    || c.toNat = 0x85 || c.toNat = 0xA0 || c.toNat = 0x1680
    || (0x2000 ≤ c.toNat && c.toNat ≤ 0x200A)
    || c.toNat = 0x2028 || c.toNat = 0x2029 || c.toNat = 0x202F
    || c.toNat = 0x205F || c.toNat = 0x3000

/-- Remove trailing characters satisfying `p`. -/
def dropWhileEnd (p : Char → Bool) (s : Str) : Str :=
  (s.reverse.dropWhile p).reverse

/-- Go `strings.TrimSpace`. -/
def trimSpace (s : Str) : Str :=
  dropWhileEnd isSpace (s.dropWhile isSpace)

/-- Go `strings.HasPrefix`. -/
def hasPrefix (s pre : Str) : Bool :=
  pre.isPrefixOf s

/-- Go `strings.Split(s, sep)` for a one-character separator. -/
def split (sep : Char) : Str → List Str
  | [] => [[]]
  | c :: cs =>
    if c = sep then [] :: split sep cs
    else
      match split sep cs with
      | [] => [[c]]
      | p :: ps => (c :: p) :: ps

/-- Go `strings.SplitN(s, sep, n)` for a one-character separator and `n ≥ 0`:
at most `n` pieces, the last one holding the unsplit remainder. -/
def splitN (sep : Char) : Nat → Str → List Str
  | 0, _ => []
  | 1, s => [s]
  | _ + 2, [] => [[]]
  | n + 2, c :: cs =>
    if c = sep then [] :: splitN sep (n + 1) cs
    else
      match splitN sep (n + 2) cs with
      | [] => [[c]]
      | p :: ps => (c :: p) :: ps

/-- ASCII decimal digit test. -/
def isDigit (c : Char) : Bool :=
  48 ≤ c.toNat && c.toNat ≤ 57

/-- Numeric value of an ASCII digit. -/
def digitVal (c : Char) : Nat :=
  c.toNat - 48

/-- Value of a digit string read in base 10. -/
def natOfDigits (ds : Str) : Nat :=
  ds.foldl (fun n c => n * 10 + digitVal c) 0

/-- Outcome of Go `strconv.ParseUint(s, 10, 64)`. -/
inductive UintRes where
  | syntaxErr : UintRes
  | rangeErr : UintRes
  | val : Nat → UintRes
deriving DecidableEq, Repr

/-- The digit loop of `strconv.ParseUint` in base 10 with a 64-bit
accumulator: a non-digit is a syntax error, an overflow is reported as soon
as it is met (before the remaining characters are looked at). -/
def parseUintLoop : Nat → Str → UintRes
  | n, [] => .val n
  | n, c :: cs =>
    if isDigit c then
      if n ≥ 1844674407370955162 then .rangeErr
      else if n * 10 + digitVal c > 18446744073709551615 then .rangeErr
      else parseUintLoop (n * 10 + digitVal c) cs
    else .syntaxErr

/-- Go `strconv.ParseUint(s, 10, 64)`. -/
def parseUint (s : Str) : UintRes :=
  if s = [] then .syntaxErr else parseUintLoop 0 s

/-- The value returned by Go `strconv.ParseInt(s, 10, 64)` when the error
result is discarded: `0` on a syntax error, the saturated bound on a range
error.  `strconv.Atoi` returns the same value on a 64-bit platform. -/
def parseInt (s : Str) : Int :=
  match s with
  | [] => 0
  | c :: cs =>
    let neg := decide (c = '-')
    let body := if c = '+' ∨ c = '-' then cs else s
    match parseUint body with
    | .syntaxErr => 0
    | .rangeErr => if neg then -9223372036854775808 else 9223372036854775807
    | .val un =>
      if !neg && un ≥ 9223372036854775808 then 9223372036854775807
      else if neg && un > 9223372036854775808 then -9223372036854775808
      else if neg then -(un : Int) else (un : Int)

/-- Wrap an integer to the two's complement range of a 64-bit Go `int`. -/
def wrap64 (x : Int) : Int :=
  (x + 9223372036854775808) % 18446744073709551616 - 9223372036854775808

/-! ## The `float64` model -/

/-- A `float64` value: a finite value (its exact rational value), an
infinity (`true` for the negative one) or a NaN. -/
inductive F64 where
  | fin : ℚ → F64
  | inf : Bool → F64
  | nan : F64
deriving DecidableEq

/-- Round the quotient `num / den` to the nearest natural number, ties to
even. -/
def roundHalfEven (num den : Nat) : Nat :=
  let q := num / den
  let r := num % den
  if 2 * r < den then q
  else if den < 2 * r then q + 1
  else if q % 2 = 0 then q else q + 1

/-- The fraction `(p / d) / 2 ^ u` as a numerator and a denominator. -/
def scalePow2 (p d : Nat) (u : Int) : Nat × Nat :=
  if 0 ≤ u then (p, d * 2 ^ u.toNat) else (p * 2 ^ (-u).toNat, d)

/-- Binary logarithm by repeated halving, with a recursion bound. -/
def log2Fuel : Nat → Nat → Nat
  | 0, _ => 0
  | fuel + 1, n => if n < 2 then 0 else log2Fuel fuel (n / 2) + 1

/-- The binary logarithm `⌊log₂ n⌋` of a positive natural number. -/
def log2 (n : Nat) : Nat :=
  log2Fuel n n

/-- The binary exponent `⌊log₂ (p / d)⌋` of a positive fraction. -/
def floorLog2 (p d : Nat) : Int :=
  let e : Int := (log2 p : Int) - (log2 d : Int)
  let s := scalePow2 p d e
  if s.2 ≤ s.1 then e else e - 1

/-- The exponent of the unit in the last place of the binary64 format at a
positive fraction `p / d` (53-bit significand, minimum exponent `-1022`). -/
def ulpExp (p d : Nat) : Int :=
  max (floorLog2 p d) (-1022) - 52

/-- The binary64 significand of the positive fraction `p / d`, rounded to
nearest, ties to even, as a multiple of `2 ^ ulpExp p d`. -/
def roundSig (p d : Nat) : Nat :=
  let s := scalePow2 p d (ulpExp p d)
  roundHalfEven s.1 s.2

/-- IEEE-754 binary64 rounding of an exact rational, round to nearest, ties
to even, overflowing to an infinity. -/
def F64.ofRat (q : ℚ) : F64 :=
  if q = 0 then .fin 0
  else
    let p := q.num.natAbs
    let d := q.den
    let v : ℚ := (roundSig p d : ℚ) * (2 : ℚ) ^ ulpExp p d
    if (2 : ℚ) ^ (1024 : Nat) ≤ v then .inf (decide (q < 0))
    else .fin (if q < 0 then -v else v)

/-- Go conversion `float64(i)` of an integer. -/
def F64.ofInt (i : Int) : F64 :=
  F64.ofRat (i : ℚ)

/-- Go `float64` addition. -/
def F64.add : F64 → F64 → F64
  | .fin a, .fin b => F64.ofRat (a + b)
  | .fin _, .inf s => .inf s
  | .inf s, .fin _ => .inf s
  | .inf s, .inf t => if s = t then .inf s else .nan
  | _, _ => .nan

/-- Go `float64` multiplication. -/
def F64.mul : F64 → F64 → F64
  | .fin a, .fin b => F64.ofRat (a * b)
  | .fin a, .inf s => if a = 0 then .nan else .inf (decide (a < 0) != s)
  | .inf s, .fin b => if b = 0 then .nan else .inf (s != decide (b < 0))
  | .inf s, .inf t => .inf (s != t)
  | _, _ => .nan

/-- A plain decimal literal `digits[.digits]` with at least one digit: its
digits read as one integer, and the number of digits after the point. -/
def plainDecimal (s : Str) : Option (Nat × Nat) :=
  let ip := s.takeWhile isDigit
  match s.dropWhile isDigit with
  | [] => if ip = [] then none else some (natOfDigits ip, 0)
  | c :: fp =>
    if c = '.' ∧ fp.all isDigit ∧ (ip ≠ [] ∨ fp ≠ []) then
      some (natOfDigits (ip ++ fp), fp.length)
    else none

/-- The value returned by Go `strconv.ParseFloat(s, 64)` when the error
result is discarded.  On a plain decimal literal it is the nearest binary64
value (an infinity when out of range).  What the library returns on every
other string (signed, exponent and hexadecimal forms, `Inf`/`NaN` spellings,
underscores, and `0` on a syntax error) is the parameter `ext`. -/
def parseFloat (ext : Str → F64) (s : Str) : F64 :=
  match plainDecimal s with
  | some (n, k) => F64.ofRat ((n : ℚ) / (10 : ℚ) ^ k)
  | none => ext s

/-! ## `timeToSeconds` -/

/-- Source `timeToSeconds`: `"H:MM:SS.cc"` or `"MM:SS.cc"` to seconds.  The
only error is a number of colon-separated parts other than 2 or 3; the
errors of the three numeric conversions are discarded. -/
def timeToSeconds (ext : Str → F64) (timeStr : Str) : Except Str F64 :=
  match split ':' timeStr with
  | [p0, p1] =>
    let hour := parseInt "0".toList
    let min := parseInt p0
    let sec := parseFloat ext p1
    .ok (F64.add (F64.ofInt (wrap64 (wrap64 (hour * 3600) + wrap64 (min * 60)))) sec)
  | [p0, p1, p2] =>
    let hour := parseInt p0
    let min := parseInt p1
    let sec := parseFloat ext p2
    .ok (F64.add (F64.ofInt (wrap64 (wrap64 (hour * 3600) + wrap64 (min * 60)))) sec)
  | _ => .error ("invalid time format: ".toList ++ timeStr)

/-! ## Well-formed timestamps (specification side) -/

/-- A non-empty string of ASCII decimal digits. -/
def isDigits (s : Str) : Bool :=
  !s.isEmpty && s.all isDigit

/-- A timestamp of the shape `H:MM:SS.cc` or `MM:SS.cc`, by components: an
optional hour, the minute, the whole seconds, an optional fraction. -/
structure Stamp where
  hour : Option Str
  minute : Str
  secInt : Str
  secFrac : Option Str

/-- Every component present is a non-empty digit string. -/
def Stamp.wf (t : Stamp) : Bool :=
  (match t.hour with
    | none => true
    | some h => isDigits h)
  && isDigits t.minute && isDigits t.secInt
  && (match t.secFrac with
    | none => true
    | some f => isDigits f)

/-- The seconds component as written. -/
def Stamp.secText (t : Stamp) : Str :=
  match t.secFrac with
  | none => t.secInt
  | some f => t.secInt ++ '.' :: f

/-- The timestamp as written. -/
def Stamp.render (t : Stamp) : Str :=
  match t.hour with
  | none => t.minute ++ ':' :: t.secText
  | some h => h ++ ':' :: (t.minute ++ ':' :: t.secText)

/-- The hour count, `0` when the hour component is absent. -/
def Stamp.hours (t : Stamp) : Nat :=
  match t.hour with
  | none => 0
  | some h => natOfDigits h

/-- The minute count. -/
def Stamp.minutes (t : Stamp) : Nat :=
  natOfDigits t.minute

/-- The exact decimal value of the seconds component. -/
def Stamp.seconds (t : Stamp) : ℚ :=
  match t.secFrac with
  | none => (natOfDigits t.secInt : ℚ)
  | some f => (natOfDigits t.secInt : ℚ) + (natOfDigits f : ℚ) / (10 : ℚ) ^ f.length

/-- The exact value `hours*3600 + minutes*60 + seconds`. -/
def Stamp.value (t : Stamp) : ℚ :=
  (t.hours : ℚ) * 3600 + (t.minutes : ℚ) * 60 + t.seconds

/-- The library's `ParseFloat` value on a string it rejects (`0`). -/
def extZero : Str → F64 :=
  fun _ => .fin 0

/-! ## `extractPlainText`, `parseUserInfo`, `parseASSEvents` -/

/-- The text after the first `}` of a string, if there is one. -/
def afterClose : Str → Option Str
  | [] => none
  | c :: cs => if c = '}' then some cs else afterClose cs

/-- One pass over a string for `ReplaceAllString` with the expression
`\{\\[^}]*}` and an empty replacement.  The first component is the string
with every match removed (matches are found left to right and do not
overlap: a match starts at a `{` directly followed by a backslash and ends at
the first `}` after it); the second is the same for the text after the first
`}`, if there is one. -/
def stripScan : Str → Str × Option Str
  | [] => ([], none)
  | c :: cs =>
    let r := stripScan cs
    (if c = '{' ∧ cs.head? = some '\\' then r.2.getD (c :: r.1) else c :: r.1,
      if c = '}' then some r.1 else r.2)

/-- Go `regexp.MustCompile("\{\\[^}]*}").ReplaceAllString(raw, "")`. -/
def removeTags (raw : Str) : Str :=
  (stripScan raw).1

/-- Source `extractPlainText`: remove the ASS override tags `{\...}`, then
trim white space. -/
def extractPlainText (raw : Str) : Str :=
  trimSpace (removeTags raw)

/-- The class `\s` of Go regular expressions: `[\t\n\f\r ]`. -/
def isReSpace (c : Char) : Bool :=
  c = '\t' || c = '\n' || c.toNat = 0x0C || c = '\r' || c = ' '

/-- Match of `\s*\((\d+)\)$` against a whole string: the digits captured. -/
def matchUserTail (s : Str) : Option Str :=
  match s.dropWhile isReSpace with
  | [] => none
  | c :: rest =>
    if c = '(' ∧ rest.takeWhile isDigit ≠ [] ∧ rest.dropWhile isDigit = [')'] then
      some (rest.takeWhile isDigit)
    else none

/-- Match of `(.+?)\s*\((\d+)\)$` where the characters `acc` (in reverse)
are already taken by the lazy group: the group is extended one character at a
time, never over a line feed, until the rest matches (an empty rest never
does). -/
def matchUserFrom (acc : Str) : Str → Option (Str × Str)
  | [] => none
  | c :: cs =>
    match matchUserTail (c :: cs) with
    | some ds => some (acc.reverse, ds)
    | none => if c = '\n' then none else matchUserFrom (c :: acc) cs

/-- Submatches 1 and 2 of the expression `^(.+?)\s*\((\d+)\)$` on a string,
`none` when it does not match. -/
def matchUser : Str → Option (Str × Str)
  | [] => none
  | c :: cs => if c = '\n' then none else matchUserFrom [c] cs

/-- Source `parseUserInfo`: `"name (123456)"` to the name and the uid. -/
def parseUserInfo (rawUser : Str) : Str × Int :=
  match matchUser (trimSpace rawUser) with
  | some (g1, g2) => (trimSpace g1, parseInt g2)
  | none => (trimSpace rawUser, 0)

/-- Source `DanmuItem`: one parsed chat message. -/
structure DanmuItem where
  StartTime : F64
  Username : Str
  UID : Int
  Content : Str
deriving DecidableEq

/-- The body of the scanning loop of source `parseASSEvents`, over the lines
delivered by the scanner; `inEvents` is the loop's flag.  Reaching a line
that begins with `[` inside the event section ends the loop. -/
def parseLoop (ext : Str → F64) : Bool → List Str → List DanmuItem
  | _, [] => []
  | inEvents, raw :: rest =>
    let line := trimSpace raw
    if line = "[Events]".toList then parseLoop ext true rest
    else if !inEvents then parseLoop ext inEvents rest
    else if hasPrefix line "[".toList then []
    else if hasPrefix line "Dialogue:".toList then
      let parts := splitN ',' 10 line
      if parts.length < 10 then parseLoop ext inEvents rest
      else
        match timeToSeconds ext (parts.getD 1 []) with
        | .error _ => parseLoop ext inEvents rest
        | .ok startSec =>
          { StartTime := startSec
            Username := (parseUserInfo (parts.getD 4 [])).1
            UID := (parseUserInfo (parts.getD 4 [])).2
            Content := extractPlainText (parts.getD 9 []) } :: parseLoop ext inEvents rest
    else parseLoop ext inEvents rest

/-- Source `parseASSEvents`, as a function of the file's lines. -/
def parseASSEvents (ext : Str → F64) (lines : List Str) : List DanmuItem :=
  parseLoop ext false lines

/-- Every `{` of the string is directly followed by a backslash, i.e. braces
occur only as the opening of an override tag. -/
def bracesOpenTags : Str → Bool
  | [] => true
  | c :: cs => (c != '{' || cs.head? == some '\\') && bracesOpenTags cs

/-! ## Event lines (specification side) -/

/-- The text after the `n`-th occurrence of the separator. -/
def afterNth (sep : Char) : Nat → Str → Str
  | 0, s => s
  | _ + 1, [] => []
  | n + 1, c :: cs => if c = sep then afterNth sep n cs else afterNth sep (n + 1) cs

/-- The record a trimmed line stands for: the line starts with `Dialogue:`,
splits on `,` into at least 10 fields, and its field 1 is accepted by
`timeToSeconds`; the content is everything after the 9th comma. -/
def lineRecord (ext : Str → F64) (line : Str) : Option DanmuItem :=
  if hasPrefix line "Dialogue:".toList ∧ 10 ≤ (split ',' line).length then
    match timeToSeconds ext ((split ',' line).getD 1 []) with
    | .ok startSec =>
      some
        { StartTime := startSec
          Username := (parseUserInfo ((split ',' line).getD 4 [])).1
          UID := (parseUserInfo ((split ',' line).getD 4 [])).2
          Content := extractPlainText (afterNth ',' 9 line) }
    | .error _ => none
  else none

/-- The line is not the `[Events]` header. -/
def notHeader (l : Str) : Bool :=
  decide (l ≠ "[Events]".toList)

/-- The trimmed lines after the first `[Events]` header. -/
def afterHeader (lines : List Str) : List Str :=
  ((lines.map trimSpace).dropWhile notHeader).drop 1

/-- The line does not begin with `[`. -/
def beforeBracket (l : Str) : Bool :=
  !hasPrefix l "[".toList

/-- The event section as the specification words it: the trimmed lines after
the `[Events]` header and before the next line beginning with `[`. -/
def eventLines (lines : List Str) : List Str :=
  (afterHeader lines).takeWhile beforeBracket

/-- The list the specification describes: one record per qualifying line of
the event section, in file order. -/
def specEvents (ext : Str → F64) (lines : List Str) : List DanmuItem :=
  (eventLines lines).filterMap (lineRecord ext)

/-- The line does not end the scan of the event section: it is a repeated
`[Events]` header or does not begin with `[`. -/
def inSection (l : Str) : Bool :=
  decide (l = "[Events]".toList) || !hasPrefix l "[".toList

/-- The event section as the source scans it: the trimmed lines after the
first `[Events]` header and before the next line that begins with `[` and is
not itself an `[Events]` header. -/
def sectionLines (lines : List Str) : List Str :=
  (afterHeader lines).takeWhile inSection

/-- A `Dialogue:` line whose start-time field (index 1 of the split into at
most 10 fields) does not have 2 or 3 colon-separated components. -/
def badStartLine (raw : Str) : Bool :=
  hasPrefix (trimSpace raw) "Dialogue:".toList
    && decide (((splitN ',' 10 (trimSpace raw)).getD 1 []).count ':' ≠ 1)
    && decide (((splitN ',' 10 (trimSpace raw)).getD 1 []).count ':' ≠ 2)

/-! ## Time values -/

/-- The `time.Location` a time value is presented in. -/
inductive Loc where
  | utc : Loc
  | shanghai : Loc
  | localZone : Loc
deriving DecidableEq

/-- A Go `time.Time`: the instant, in nanoseconds since the Unix epoch, and
the location it is presented in. -/
structure Time where
  nanos : Int
  loc : Loc
deriving DecidableEq

/-- Go `t.Add(d)` for a duration of `d` nanoseconds. -/
def Time.add (t : Time) (d : Int) : Time :=
  { t with nanos := t.nanos + d }

/-- Go `t.In(loc)`: the same instant presented in another location. -/
def Time.inLoc (t : Time) (l : Loc) : Time :=
  { t with loc := l }

/-- Go conversion of a `float64` to `int64` (as in `time.Duration(x)`):
truncation toward zero.  The result for a NaN, an infinity or a value out
of the `int64` range depends on the platform and is the parameter `undef`. -/
def toInt64 (undef : F64 → Int) (x : F64) : Int :=
  match x with
  | .fin q =>
    let t : Int :=
      if q < 0 then -((q.num.natAbs / q.den : Nat) : Int)
      else ((q.num.natAbs / q.den : Nat) : Int)
    if -9223372036854775808 ≤ t ∧ t < 9223372036854775808 then t else undef x
  | _ => undef x

/-- Source expression `time.Duration(d.StartTime * float64(time.Second))`. -/
def secondsToNanos (undef : F64 → Int) (startTime : F64) : Int :=
  toInt64 undef (F64.mul startTime (.fin 1000000000))

/-- Gregorian leap year. -/
def isLeap (y : Int) : Bool :=
  y % 4 = 0 && (y % 100 != 0 || y % 400 = 0)

/-- Number of days of a month. -/
def daysIn (m : Nat) (y : Int) : Nat :=
  if m = 2 then (if isLeap y then 29 else 28)
  else if m = 4 ∨ m = 6 ∨ m = 9 ∨ m = 11 then 30 else 31

/-- Days from 1970-01-01 to the civil date `y-m-d` (proleptic Gregorian). -/
def daysFromCivil (y : Int) (m d : Nat) : Int :=
  let y1 : Int := if m ≤ 2 then y - 1 else y
  let era : Int := y1 / 400
  let yoe : Int := y1 - era * 400
  let mp : Int := if m > 2 then (m : Int) - 3 else (m : Int) + 9
  let doy : Int := (153 * mp + 2) / 5 + (d : Int) - 1
  let doe : Int := yoe * 365 + yoe / 4 - yoe / 100 + doy
  era * 146097 + doe - 719468

/-- The civil date (year, month, day) of a day count from 1970-01-01. -/
def civilFromDays (z : Int) : Int × Nat × Nat :=
  let z1 : Int := z + 719468
  let era : Int := z1 / 146097
  let doe : Int := z1 - era * 146097
  let yoe : Int := (doe - doe / 1460 + doe / 36524 - doe / 146096) / 365
  let doy : Int := doe - (365 * yoe + yoe / 4 - yoe / 100)
  let mp : Int := (5 * doy + 2) / 153
  let d : Int := doy - (153 * mp + 2) / 5 + 1
  let m : Int := if mp < 10 then mp + 3 else mp - 9
  let y : Int := yoe + era * 400 + (if m ≤ 2 then 1 else 0)
  (y, m.toNat, d.toNat)

/-- A natural number in decimal, left-padded with zeros to a width. -/
def padNat (width n : Nat) : Str :=
  List.replicate (width - (Nat.toDigits 10 n).length) '0' ++ Nat.toDigits 10 n

/-- Go `t.UTC().Format("2006-01-02 15:04:05")`. -/
def formatUTC (t : Time) : Str :=
  let secs : Int := t.nanos / 1000000000
  let sod : Nat := (secs % 86400).toNat
  let ymd := civilFromDays (secs / 86400)
  (if ymd.1 < 0 then '-' :: padNat 4 ymd.1.natAbs else padNat 4 ymd.1.toNat)
    ++ '-' :: padNat 2 ymd.2.1 ++ '-' :: padNat 2 ymd.2.2
    ++ ' ' :: padNat 2 (sod / 3600) ++ ':' :: padNat 2 (sod / 60 % 60)
    ++ ':' :: padNat 2 (sod % 60)

/-- The fields of a written timestamp `YYYY-MM-DD HH:MM:SS[.fff]`. -/
structure Civil where
  year : Nat
  month : Nat
  day : Nat
  hour : Nat
  minute : Nat
  second : Nat
  milli : Nat
deriving DecidableEq

/-- The fields of a string of the exact shape `YYYY-MM-DD HH:MM:SS` or
`YYYY-MM-DD HH:MM:SS.fff` (all positions decimal digits). -/
def civilShape : Str → Option Civil
  | y1 :: y2 :: y3 :: y4 :: c1 :: m1 :: m2 :: c2 :: d1 :: d2 :: c3 :: h1 :: h2 :: c4 ::
      n1 :: n2 :: c5 :: s1 :: s2 :: frac =>
    if c1 = '-' ∧ c2 = '-' ∧ c3 = ' ' ∧ c4 = ':' ∧ c5 = ':'
        ∧ [y1, y2, y3, y4, m1, m2, d1, d2, h1, h2, n1, n2, s1, s2].all isDigit then
      match frac with
      | [] =>
        some ⟨natOfDigits [y1, y2, y3, y4], natOfDigits [m1, m2], natOfDigits [d1, d2],
          natOfDigits [h1, h2], natOfDigits [n1, n2], natOfDigits [s1, s2], 0⟩
      | [p, f1, f2, f3] =>
        if p = '.' ∧ [f1, f2, f3].all isDigit then
          some ⟨natOfDigits [y1, y2, y3, y4], natOfDigits [m1, m2], natOfDigits [d1, d2],
            natOfDigits [h1, h2], natOfDigits [n1, n2], natOfDigits [s1, s2],
            natOfDigits [f1, f2, f3]⟩
        else none
      | _ => none
    else none
  | _ => none

/-- The range checks of `time.Parse`: month, day of the month, hour, minute
and second. -/
def Civil.valid (c : Civil) : Bool :=
  decide (1 ≤ c.month) && decide (c.month ≤ 12) && decide (1 ≤ c.day)
    && decide (c.day ≤ daysIn c.month c.year)
    && decide (c.hour < 24) && decide (c.minute < 60) && decide (c.second < 60)

/-- The instant of the civil fields read as UTC, in nanoseconds since the
Unix epoch. -/
def Civil.utcNanos (c : Civil) : Int :=
  ((daysFromCivil c.year c.month c.day * 86400 + (c.hour : Int) * 3600
      + (c.minute : Int) * 60 + (c.second : Int)) * 1000000000)
    + (c.milli : Int) * 1000000

/-- The instant at which the clocks of the fixed zone UTC+8 (Asia/Shanghai)
show the civil fields: 8 hours before the same fields read as UTC. -/
def Civil.shanghaiNanos (c : Civil) : Int :=
  c.utcNanos - 8 * 3600 * 1000000000

/-- The first success of `time.Parse(layout, timeStr)` over the layouts
`"2006-01-02 15:04:05.000"` and `"2006-01-02 15:04:05"`, as an instant:
`time.Parse` reads a string without a zone as UTC.  On the exact shapes
`YYYY-MM-DD HH:MM:SS[.fff]` the result is decided by the range checks; what
the library returns on every other string is the parameter `ext`. -/
def parseLiveStart (ext : Str → Option Int) (timeStr : Str) : Option Int :=
  match civilShape timeStr with
  | some c => if c.valid then some c.utcNanos else none
  | none => ext timeStr

/-- The scanning loop of source `extractLiveStartTimeFromASS`. -/
def scanLiveStart (ext : Str → Option Int) : List Str → Except Str Time
  | [] => .error "未找到 LiveStartTime 注释".toList
  | line :: rest =>
    if hasPrefix line "; LiveStartTime:".toList then
      if (splitN ':' 2 line).length < 2 then scanLiveStart ext rest
      else
        match parseLiveStart ext (trimSpace ((splitN ':' 2 line).getD 1 [])) with
        | some n => .ok (Time.inLoc ⟨n, .utc⟩ .shanghai)
        | none =>
          .error ("无法解析 LiveStartTime: ".toList
            ++ trimSpace ((splitN ':' 2 line).getD 1 []))
    else scanLiveStart ext rest

/-- Source `extractLiveStartTimeFromASS`, as a function of the file's lines:
only the first 50 lines are scanned. -/
def extractLiveStartTimeFromASS (ext : Str → Option Int) (lines : List Str) :
    Except Str Time :=
  scanLiveStart ext (lines.take 50)

/-- Match of `;\s*LiveID:\s*(\S+)` starting at the head of a string: the
captured identifier. -/
def liveIDAt (s : Str) : Option Str :=
  match s with
  | [] => none
  | c :: t =>
    if c = ';' ∧ hasPrefix (t.dropWhile isReSpace) "LiveID:".toList
        ∧ (((t.dropWhile isReSpace).drop 7).dropWhile isReSpace).takeWhile
            (fun x => !isReSpace x) ≠ [] then
      some ((((t.dropWhile isReSpace).drop 7).dropWhile isReSpace).takeWhile
        (fun x => !isReSpace x))
    else none

/-- Submatch 1 of the leftmost match of `;\s*LiveID:\s*(\S+)` in a string. -/
def findLiveID : Str → Option Str
  | [] => none
  | c :: cs =>
    match liveIDAt (c :: cs) with
    | some id => some id
    | none => findLiveID cs

/-- The scanning loop of source `extractLiveID`; the empty string stands for
"not found". -/
def scanLiveID : Bool → List Str → Str
  | _, [] => []
  | inScript, raw :: rest =>
    if trimSpace raw = "[Script Info]".toList then scanLiveID true rest
    else if inScript && hasPrefix (trimSpace raw) "[".toList then []
    else if inScript && hasPrefix (trimSpace raw) "; LiveID:".toList then
      match findLiveID (trimSpace raw) with
      | some id => id
      | none => scanLiveID inScript rest
    else scanLiveID inScript rest

/-- Source `extractLiveID`, as a function of the file's lines. -/
def extractLiveID (lines : List Str) : Str :=
  scanLiveID false lines

/-! ## The persisted tables and the two writers -/

/-- A row of the MySQL table `user`. -/
structure UserRow where
  uid : Int
  name : Option Str
  fNames : Option Str
deriving DecidableEq

/-- A row of the MySQL table `userOld`: one interval of the name history. -/
structure UserOldRow where
  uid : Int
  oldName : Str
  startDate : Time
  endDate : Option Time
deriving DecidableEq

/-- A row of the table `danmaku`; `τ` is the stored form of the send time. -/
structure DanmakuRow (τ : Type) where
  liveId : Str
  startTime : F64
  sendTime : τ
  uid : Int
  content : Str
deriving DecidableEq

/-- The tables of the MySQL database the source reads and writes. -/
structure MySQLDB where
  live : List (Str × Time)
  user : List UserRow
  userOld : List UserOldRow
  danmaku : List (DanmakuRow Time)
deriving DecidableEq

/-- The tables of the SQLite database the source reads and writes. -/
structure SQLiteDB where
  acfunlive : List (Str × Int)
  streamer : List (Int × Str)
  danmaku : List (DanmakuRow Str)
deriving DecidableEq

/-- The assignment `userMap[uid] = name` on a map kept as a list of
entries with distinct keys. -/
def userMapSet (m : List (Int × Str)) (uid : Int) (name : Str) : List (Int × Str) :=
  if m.any (fun e => decide (e.1 = uid)) then
    m.map (fun e => if e.1 = uid then (uid, name) else e)
  else m ++ [(uid, name)]

/-- The first loop of both writers: the map from uid to user name over the
records with `UID != 0` (a later record overwrites an earlier one). -/
def buildUserMap (danmakuList : List DanmuItem) : List (Int × Str) :=
  danmakuList.foldl
    (fun m d => if d.UID ≠ 0 then userMapSet m d.UID d.Username else m) []

/-- The value written to `fNames` on a name change: the former name, put
before the former names already stored when there are any. -/
def newFNames (row : UserRow) : Str :=
  match row.fNames with
  | some f => if f ≠ [] then row.name.getD [] ++ ',' :: f else row.name.getD []
  | none => row.name.getD []

/-- Effect of `UPDATE user SET name = ?, fNames = ? WHERE uid = ?` on a row. -/
def renameRow (uid : Int) (name fNames : Str) (r : UserRow) : UserRow :=
  if r.uid = uid then { r with name := some name, fNames := some fNames } else r

/-- Effect of `UPDATE userOld SET endDate = ? WHERE uid = ? AND oldName = ?
AND endDate IS NULL` on a row. -/
def closeRow (now : Time) (uid : Int) (existing : Str) (r : UserOldRow) : UserOldRow :=
  if r.uid = uid ∧ r.oldName = existing ∧ r.endDate = none then
    { r with endDate := some now }
  else r

/-- One iteration of the user loop of `insertDanmuToMySQL` for the entry
`(uid, name)`, every statement succeeding: an unknown uid is inserted into
`user` with an open `userOld` interval; a known uid with another name has its
name and former names updated, its open interval of the old name closed and
a new open interval inserted; a known uid with the same name is left alone. -/
def reconcileUser (now : Time) (db : MySQLDB) (uid : Int) (name : Str) : MySQLDB :=
  match db.user.find? (fun r => decide (r.uid = uid)) with
  | none =>
    { db with
      user := db.user ++ [⟨uid, some name, none⟩]
      userOld := db.userOld ++ [⟨uid, name, now, none⟩] }
  | some row =>
    if row.name.getD [] ≠ name then
      { db with
        user := db.user.map (renameRow uid name (newFNames row))
        userOld := db.userOld.map (closeRow now uid (row.name.getD []))
          ++ [⟨uid, name, now, none⟩] }
    else db

/-- The row inserted by `insertDanmuToMySQL` for a record. -/
def mysqlRow (undef : F64 → Int) (liveID : Str) (baseTime : Time) (d : DanmuItem) :
    DanmakuRow Time :=
  ⟨liveID, d.StartTime, baseTime.add (secondsToNanos undef d.StartTime), d.UID, d.Content⟩

/-- The row inserted by `insertDanmuToSQLite` for a record. -/
def sqliteRow (undef : F64 → Int) (liveID : Str) (baseTime : Time) (d : DanmuItem) :
    DanmakuRow Str :=
  ⟨liveID, d.StartTime, formatUTC (baseTime.add (secondsToNanos undef d.StartTime)), d.UID,
    d.Content⟩

/-- The insert loop of both writers: records with `UID == 0` are skipped,
every other record appends its row to the table. -/
def insertRows {τ : Type} (mk : DanmuItem → DanmakuRow τ) :
    List (DanmakuRow τ) → List DanmuItem → List (DanmakuRow τ)
  | table, [] => table
  | table, d :: rest =>
    if d.UID = 0 then insertRows mk table rest
    else insertRows mk (table ++ [mk d]) rest

/-- Source `insertDanmuToMySQL` as a state transformer, every statement and
the commit succeeding.  `order` is the order in which the iteration over the
Go map visits its entries, `now` the value of `time.Now()`. -/
def insertDanmuToMySQL (undef : F64 → Int) (order : List (Int × Str) → List (Int × Str))
    (now : Time) (db : MySQLDB) (liveID : Str) (danmakuList : List DanmuItem)
    (baseTime : Time) : MySQLDB :=
  let db1 := (order (buildUserMap danmakuList)).foldl
    (fun st e => reconcileUser now st e.1 e.2) db
  { db1 with
    danmaku := insertRows (mysqlRow undef liveID baseTime)
      (db1.danmaku.filter (fun r => decide (r.liveId ≠ liveID))) danmakuList }

/-- One iteration of the streamer loop of `insertDanmuToSQLite`. -/
def reconcileStreamer (db : SQLiteDB) (uid : Int) (name : Str) : SQLiteDB :=
  match db.streamer.find? (fun r => decide (r.1 = uid)) with
  | none => { db with streamer := db.streamer ++ [(uid, name)] }
  | some row =>
    if row.2 ≠ name then
      { db with streamer := db.streamer.map (fun r => if r.1 = uid then (r.1, name) else r) }
    else db

/-- Source `insertDanmuToSQLite` as a state transformer, every statement and
the commit succeeding (the two `CREATE TABLE IF NOT EXISTS` statements leave
the tables as they are). -/
def insertDanmuToSQLite (undef : F64 → Int) (order : List (Int × Str) → List (Int × Str))
    (db : SQLiteDB) (liveID : Str) (danmakuList : List DanmuItem)
    (baseTime : Time) : SQLiteDB :=
  let db1 := (order (buildUserMap danmakuList)).foldl
    (fun st e => reconcileStreamer st e.1 e.2) db
  { db1 with
    danmaku := insertRows (sqliteRow undef liveID baseTime)
      (db1.danmaku.filter (fun r => decide (r.liveId ≠ liveID))) danmakuList }

/-- The empty MySQL database. -/
def MySQLDB.empty : MySQLDB :=
  ⟨[], [], [], []⟩

/-- The empty SQLite database. -/
def SQLiteDB.empty : SQLiteDB :=
  ⟨[], [], []⟩

/-- The states of the MySQL database reachable from the empty one by writes
of `insertDanmuToMySQL`, with any record lists and any iteration orders. -/
inductive Reachable : MySQLDB → Prop where
  | empty : Reachable MySQLDB.empty
  | write (undef : F64 → Int) (order : List (Int × Str) → List (Int × Str)) (now : Time)
      (db : MySQLDB) (liveID : Str) (danmakuList : List DanmuItem) (baseTime : Time) :
      Reachable db → (∀ m, (order m).Perm m) →
      Reachable (insertDanmuToMySQL undef order now db liveID danmakuList baseTime)

/-- The registry's current name of a uid: `SELECT name FROM user WHERE uid = ?`. -/
def currentName (db : MySQLDB) (uid : Int) : Option Str :=
  (db.user.find? (fun r => decide (r.uid = uid))).map (fun r => r.name.getD [])

/-- The open history intervals of a uid: the `userOld` rows of the uid with
`endDate IS NULL`. -/
def openIntervals (db : MySQLDB) (uid : Int) : List UserOldRow :=
  db.userOld.filter (fun r => decide (r.endDate = none) && decide (r.uid = uid))

/-- Source `getLiveStartTime`: the start time of the recording in the table
`live` (MySQL) or, from a millisecond timestamp of the table `acfunlive`,
presented in Asia/Shanghai (SQLite). -/
def getLiveStartTime (my : MySQLDB) (lite : SQLiteDB) (dbType liveID : Str) :
    Except Str Time :=
  if dbType = "mysql".toList then
    match my.live.find? (fun r => decide (r.1 = liveID)) with
    | some r => .ok r.2
    | none => .error "sql: no rows in result set".toList
  else if dbType = "sqlite".toList then
    match lite.acfunlive.find? (fun r => decide (r.1 = liveID)) with
    | some r => .ok (Time.inLoc ⟨wrap64 (r.2 * 1000000), .utc⟩ .shanghai)
    | none => .error "sql: no rows in result set".toList
  else .error ("unsupported db type: ".toList ++ dbType)

/-- The base-time resolution of source `SaveDanmuToDB`: the store's value
when the lookup succeeds, else the value read from the file, else none. -/
def resolveBaseTime (store file : Except Str Time) : Option Time :=
  match store with
  | .ok t => some t
  | .error _ =>
    match file with
    | .ok t => some t
    | .error _ => none

/-- The final switch of source `SaveDanmuToDB`: the writer of the configured
backend is run on its database. -/
def runWriter (undef : F64 → Int) (order : List (Int × Str) → List (Int × Str))
    (now : Time) (dbType : Str) (my : MySQLDB) (lite : SQLiteDB) (liveID : Str)
    (danmakuList : List DanmuItem) (baseTime : Time) : MySQLDB × SQLiteDB :=
  if dbType = "mysql".toList then
    (insertDanmuToMySQL undef order now my liveID danmakuList baseTime, lite)
  else if dbType = "sqlite".toList then
    (my, insertDanmuToSQLite undef order lite liveID danmakuList baseTime)
  else (my, lite)

/-- Source `SaveDanmuToDB` as a transformer of the two databases the
configuration may point to.  `dbType` is `config.Database.Type`, `openFails`
tells whether `sql.Open` fails, `lines` are the lines of the file. -/
def SaveDanmuToDB (fext : Str → F64) (text : Str → Option Int) (undef : F64 → Int)
    (order : List (Int × Str) → List (Int × Str)) (now : Time)
    (dbType : Str) (openFails : Bool) (lines : List Str)
    (my : MySQLDB) (lite : SQLiteDB) : MySQLDB × SQLiteDB :=
  if dbType = [] then (my, lite)
  else if extractLiveID lines = [] then (my, lite)
  else if parseASSEvents fext lines = [] then (my, lite)
  else if dbType ≠ "sqlite".toList ∧ dbType ≠ "mysql".toList then (my, lite)
  else if openFails then (my, lite)
  else
    match resolveBaseTime (getLiveStartTime my lite dbType (extractLiveID lines))
        (extractLiveStartTimeFromASS text lines) with
    | none => (my, lite)
    | some baseTime =>
      runWriter undef order now dbType my lite (extractLiveID lines)
        (parseASSEvents fext lines) baseTime

/-! ## The registry seen from one uid -/

/-- The `user` row found for a uid. -/
def userOf (db : MySQLDB) (uid : Int) : Option UserRow :=
  db.user.find? (fun r => decide (r.uid = uid))

/-- The `userOld` rows of a uid. -/
def histOf (db : MySQLDB) (uid : Int) : List UserOldRow :=
  db.userOld.filter (fun r => decide (r.uid = uid))

/-- The effect of `reconcileUser` for `(uid, name)` on the rows of that uid. -/
def reconcileView (now : Time) (uid : Int) (name : Str)
    (v : Option UserRow × List UserOldRow) : Option UserRow × List UserOldRow :=
  match v.1 with
  | none => (some ⟨uid, some name, none⟩, v.2 ++ [⟨uid, name, now, none⟩])
  | some row =>
    if row.name.getD [] ≠ name then
      (some (renameRow uid name (newFNames row) row),
        v.2.map (closeRow now uid (row.name.getD [])) ++ [⟨uid, name, now, none⟩])
    else v

/-- The registry invariant on the rows of one uid: without a `user` row there
is no open interval; with one there is exactly one open interval, and it
carries the current name. -/
def ViewOk (uid : Int) (v : Option UserRow × List UserOldRow) : Prop :=
  (∀ r ∈ v.2, r.uid = uid) ∧
    match v.1 with
    | none => v.2.filter (fun r => decide (r.endDate = none)) = []
    | some row =>
      row.uid = uid ∧
        ∃ r, v.2.filter (fun r => decide (r.endDate = none)) = [r]
          ∧ r.oldName = row.name.getD []

/-- The `streamer` rows of a uid. -/
def streamerOf (db : SQLiteDB) (uid : Int) : List (Int × Str) :=
  db.streamer.filter (fun r => decide (r.1 = uid))

/-- The effect of `reconcileStreamer` for `(uid, name)` on the rows of that
uid. -/
def reconcileStreamerView (uid : Int) (name : Str) (v : List (Int × Str)) :
    List (Int × Str) :=
  match v with
  | [] => [(uid, name)]
  | row :: _ => if row.2 ≠ name then v.map (fun r => (r.1, name)) else v

/-- The records give `uid` the name `n`: the last record of the list with
that UID carries the user name `n`. -/
def GivesName (l : List DanmuItem) (uid : Int) (n : Str) : Prop :=
  ∃ pre d post, l = pre ++ d :: post ∧ d.UID = uid ∧ d.Username = n
    ∧ ∀ x ∈ post, x.UID ≠ uid

/-! ## Facts about the library functions -/

theorem split_ne_nil (sep : Char) (s : Str) : split sep s ≠ [] := by
  induction s with
  | nil => simp [split]
  | cons c cs ih =>
    unfold split
    split_ifs
    · simp
    · cases h : split sep cs with
      | nil => exact absurd h ih
      | cons p ps => simp

theorem split_cons_ne (sep c : Char) (cs : Str) (h : c ≠ sep) :
    split sep (c :: cs) = (c :: (split sep cs).headI) :: (split sep cs).tail := by
  have hne := split_ne_nil sep cs
  conv_lhs => unfold split
  rw [if_neg h]
  cases hs : split sep cs with
  | nil => exact absurd hs hne
  | cons p ps => simp

theorem split_length (sep : Char) (s : Str) :
    (split sep s).length = s.count sep + 1 := by
  induction s with
  | nil => simp [split]
  | cons c cs ih =>
    by_cases h : c = sep
    · subst h
      simp [split, ih]
    · rw [split_cons_ne sep c cs h]
      have hne := split_ne_nil sep cs
      have hc : List.count sep (c :: cs) = List.count sep cs := by
        rw [List.count_cons]
        simp [h]
      rw [hc, ← ih]
      cases hs : split sep cs with
      | nil => exact absurd hs hne
      | cons p ps => simp

theorem split_no_sep (sep : Char) (a : Str) (h : sep ∉ a) : split sep a = [a] := by
  induction a with
  | nil => simp [split]
  | cons c cs ih =>
    have hc : c ≠ sep := fun e => h (by simp [e])
    have hcs : sep ∉ cs := fun e => h (List.mem_cons_of_mem _ e)
    rw [split_cons_ne sep c cs hc, ih hcs]
    simp

theorem split_append_sep (sep : Char) (a b : Str) (h : sep ∉ a) :
    split sep (a ++ sep :: b) = a :: split sep b := by
  induction a with
  | nil => simp [split]
  | cons c cs ih =>
    have hc : c ≠ sep := fun e => h (by simp [e])
    have hcs : sep ∉ cs := fun e => h (List.mem_cons_of_mem _ e)
    rw [List.cons_append, split_cons_ne sep c _ hc, ih hcs]
    simp

theorem isDigits_iff (s : Str) :
    isDigits s = true ↔ s ≠ [] ∧ ∀ c ∈ s, isDigit c = true := by
  cases s with
  | nil => simp [isDigits]
  | cons c cs => simp [isDigits]

theorem isDigit_ne_of (c d : Char) (hc : isDigit c = true) (hd : isDigit d = false) :
    c ≠ d := by
  intro h
  rw [h, hd] at hc
  exact Bool.noConfusion hc

theorem foldl_digits_eq (ds : Str) (n : Nat) :
    ds.foldl (fun n c => n * 10 + digitVal c) n = n * 10 ^ ds.length + natOfDigits ds := by
  induction ds generalizing n with
  | nil => simp [natOfDigits]
  | cons c cs ih =>
    simp only [List.foldl_cons, natOfDigits, List.length_cons]
    rw [ih (n * 10 + digitVal c), ih (0 * 10 + digitVal c)]
    simp only [natOfDigits]
    ring

theorem natOfDigits_append (a b : Str) :
    natOfDigits (a ++ b) = natOfDigits a * 10 ^ b.length + natOfDigits b := by
  unfold natOfDigits
  rw [List.foldl_append, foldl_digits_eq]
  rfl

theorem parseUintLoop_digits (ds : Str) (n : Nat)
    (hd : ∀ c ∈ ds, isDigit c = true)
    (hb : n * 10 ^ ds.length + natOfDigits ds ≤ 18446744073709551615) :
    parseUintLoop n ds = .val (n * 10 ^ ds.length + natOfDigits ds) := by
  induction ds generalizing n with
  | nil => simp [parseUintLoop, natOfDigits]
  | cons c cs ih =>
    have hc : isDigit c = true := hd c (by simp)
    have hcs : ∀ x ∈ cs, isDigit x = true := fun x hx => hd x (List.mem_cons_of_mem _ hx)
    have key : n * 10 ^ (c :: cs).length + natOfDigits (c :: cs)
        = (n * 10 + digitVal c) * 10 ^ cs.length + natOfDigits cs := by
      have h1 := foldl_digits_eq (c :: cs) n
      have h2 := foldl_digits_eq cs (n * 10 + digitVal c)
      rw [List.foldl_cons] at h1
      omega
    rw [key] at hb ⊢
    have hpos : 1 ≤ 10 ^ cs.length := Nat.one_le_pow _ _ (by norm_num)
    have hle : n * 10 + digitVal c ≤ (n * 10 + digitVal c) * 10 ^ cs.length :=
      Nat.le_mul_of_pos_right _ hpos
    unfold parseUintLoop
    rw [if_pos hc, if_neg (by omega), if_neg (by omega)]
    exact ih _ hcs hb

theorem parseInt_digits (ds : Str) (hd : isDigits ds = true)
    (hb : natOfDigits ds < 9223372036854775808) :
    parseInt ds = (natOfDigits ds : Int) := by
  obtain ⟨hne, hall⟩ := (isDigits_iff ds).1 hd
  cases ds with
  | nil => exact absurd rfl hne
  | cons c cs =>
    have hc : isDigit c = true := hall c (by simp)
    have h1 : c ≠ '+' := isDigit_ne_of c '+' hc (by decide)
    have h2 : c ≠ '-' := isDigit_ne_of c '-' hc (by decide)
    have hp : parseUint (c :: cs) = .val (natOfDigits (c :: cs)) := by
      unfold parseUint
      rw [if_neg (by simp)]
      have := parseUintLoop_digits (c :: cs) 0 hall (by omega)
      simpa using this
    unfold parseInt
    simp only [h1, h2, or_self, if_false, decide_False, hp]
    simp only [Bool.not_false, Bool.true_and, Bool.false_and, decide_eq_true_eq]
    rw [if_neg (by omega)]
    simp

theorem takeWhile_digits_append (ip rest : Str) (c : Char)
    (hd : ∀ x ∈ ip, isDigit x = true) (hc : isDigit c = false) :
    (ip ++ c :: rest).takeWhile isDigit = ip
      ∧ (ip ++ c :: rest).dropWhile isDigit = c :: rest := by
  induction ip with
  | nil => simp [List.takeWhile, List.dropWhile, hc]
  | cons a as ih =>
    have ha : isDigit a = true := hd a (by simp)
    have has : ∀ x ∈ as, isDigit x = true := fun x hx => hd x (List.mem_cons_of_mem _ hx)
    obtain ⟨h1, h2⟩ := ih has
    simp [List.takeWhile, List.dropWhile, ha, h1, h2]

theorem takeWhile_digits_self (ip : Str) (hd : ∀ x ∈ ip, isDigit x = true) :
    ip.takeWhile isDigit = ip ∧ ip.dropWhile isDigit = [] := by
  induction ip with
  | nil => simp
  | cons a as ih =>
    have ha : isDigit a = true := hd a (by simp)
    have has : ∀ x ∈ as, isDigit x = true := fun x hx => hd x (List.mem_cons_of_mem _ hx)
    obtain ⟨h1, h2⟩ := ih has
    simp [List.takeWhile, List.dropWhile, ha, h1, h2]

theorem plainDecimal_int (ip : Str) (hd : isDigits ip = true) :
    plainDecimal ip = some (natOfDigits ip, 0) := by
  obtain ⟨hne, hall⟩ := (isDigits_iff ip).1 hd
  obtain ⟨h1, h2⟩ := takeWhile_digits_self ip hall
  unfold plainDecimal
  simp only [h1, h2]
  rw [if_neg hne]

theorem plainDecimal_frac (ip fp : Str) (hd : isDigits ip = true) (hf : isDigits fp = true) :
    plainDecimal (ip ++ '.' :: fp) = some (natOfDigits (ip ++ fp), fp.length) := by
  obtain ⟨hne, hall⟩ := (isDigits_iff ip).1 hd
  obtain ⟨hnf, hallf⟩ := (isDigits_iff fp).1 hf
  obtain ⟨h1, h2⟩ := takeWhile_digits_append ip fp '.' hall (by decide)
  unfold plainDecimal
  simp only [h1, h2]
  rw [if_pos]
  refine ⟨trivial, ?_, Or.inl hne⟩
  simpa [List.all_eq_true] using hallf

/-! ## Facts about binary64 rounding -/

theorem log2Fuel_spec (fuel n : Nat) (hf : n ≤ fuel) (hn : 1 ≤ n) :
    2 ^ log2Fuel fuel n ≤ n ∧ n < 2 ^ (log2Fuel fuel n + 1) := by
  induction fuel generalizing n with
  | zero => omega
  | succ f ih =>
    unfold log2Fuel
    by_cases h2 : n < 2
    · rw [if_pos h2]
      have : n = 1 := by omega
      subst this
      simp
    · rw [if_neg h2]
      obtain ⟨h1, h3⟩ := ih (n / 2) (by omega) (by omega)
      have e1 : 2 ^ (log2Fuel f (n / 2) + 1) = 2 * 2 ^ log2Fuel f (n / 2) := by
        rw [pow_succ]; ring
      have e2 : 2 ^ (log2Fuel f (n / 2) + 1 + 1) = 2 * 2 ^ (log2Fuel f (n / 2) + 1) := by
        rw [pow_succ]; ring
      rw [e2]
      constructor
      · rw [e1]; omega
      · omega

theorem log2_spec (n : Nat) (hn : 1 ≤ n) : 2 ^ log2 n ≤ n ∧ n < 2 ^ (log2 n + 1) :=
  log2Fuel_spec n n le_rfl hn

theorem scalePow2_spec (p d : Nat) (u : Int) (hd : 0 < d) :
    0 < (scalePow2 p d u).2 ∧
      ((scalePow2 p d u).1 : ℚ) / ((scalePow2 p d u).2 : ℚ) = (p : ℚ) / (d : ℚ) / (2 : ℚ) ^ u := by
  have hdq : (d : ℚ) ≠ 0 := by positivity
  unfold scalePow2
  by_cases hu : 0 ≤ u
  · rw [if_pos hu]
    obtain ⟨n, rfl⟩ := Int.eq_ofNat_of_zero_le hu
    refine ⟨by positivity, ?_⟩
    simp only [Int.toNat_ofNat, zpow_natCast]
    push_cast
    rw [div_div]
  · rw [if_neg hu]
    obtain ⟨n, hn⟩ := Int.eq_ofNat_of_zero_le (show 0 ≤ -u by omega)
    have hu2 : u = -(n : Int) := by omega
    refine ⟨hd, ?_⟩
    rw [hn, hu2]
    simp only [Int.toNat_ofNat, zpow_neg, zpow_natCast]
    push_cast
    field_simp

theorem floorLog2_spec (p d : Nat) (hp : 0 < p) (hd : 0 < d) :
    (2 : ℚ) ^ floorLog2 p d ≤ (p : ℚ) / (d : ℚ)
      ∧ (p : ℚ) / (d : ℚ) < (2 : ℚ) ^ (floorLog2 p d + 1) := by
  obtain ⟨hp1, hp2⟩ := log2_spec p hp
  obtain ⟨hd1, hd2⟩ := log2_spec d hd
  have hdq : (0 : ℚ) < (d : ℚ) := by exact_mod_cast hd
  have hpq : (0 : ℚ) < (p : ℚ) := by exact_mod_cast hp
  have two : (2 : ℚ) ≠ 0 := by norm_num
  have hp1q : (2 : ℚ) ^ (log2 p : Int) ≤ (p : ℚ) := by
    rw [zpow_natCast]; exact_mod_cast hp1
  have hp2q : (p : ℚ) < (2 : ℚ) ^ ((log2 p : Int) + 1) := by
    have : (p : ℚ) < (2 : ℚ) ^ (log2 p + 1) := by exact_mod_cast hp2
    rw [show ((log2 p : Int) + 1) = ((log2 p + 1 : Nat) : Int) by push_cast; rfl, zpow_natCast]
    exact this
  have hd1q : (2 : ℚ) ^ (log2 d : Int) ≤ (d : ℚ) := by
    rw [zpow_natCast]; exact_mod_cast hd1
  have hd2q : (d : ℚ) < (2 : ℚ) ^ ((log2 d : Int) + 1) := by
    have : (d : ℚ) < (2 : ℚ) ^ (log2 d + 1) := by exact_mod_cast hd2
    rw [show ((log2 d : Int) + 1) = ((log2 d + 1 : Nat) : Int) by push_cast; rfl, zpow_natCast]
    exact this
  have hpowd : (0 : ℚ) < (2 : ℚ) ^ (log2 d : Int) := zpow_pos (by norm_num) _
  -- the coarse bracket 2^(e-1) < p/d < 2^(e+1)
  have hlow : (2 : ℚ) ^ ((log2 p : Int) - (log2 d : Int) - 1) ≤ (p : ℚ) / (d : ℚ) := by
    rw [le_div_iff₀ hdq]
    have e : (2 : ℚ) ^ ((log2 p : Int) - (log2 d : Int) - 1) * (2 : ℚ) ^ ((log2 d : Int) + 1)
        = (2 : ℚ) ^ (log2 p : Int) := by
      rw [← zpow_add₀ two]; congr 1; ring
    calc (2 : ℚ) ^ ((log2 p : Int) - (log2 d : Int) - 1) * (d : ℚ)
        ≤ (2 : ℚ) ^ ((log2 p : Int) - (log2 d : Int) - 1) * (2 : ℚ) ^ ((log2 d : Int) + 1) :=
          mul_le_mul_of_nonneg_left hd2q.le (zpow_pos (by norm_num) _).le
      _ = (2 : ℚ) ^ (log2 p : Int) := e
      _ ≤ (p : ℚ) := hp1q
  have hhigh : (p : ℚ) / (d : ℚ) < (2 : ℚ) ^ ((log2 p : Int) - (log2 d : Int) + 1) := by
    rw [div_lt_iff₀ hdq]
    have e : (2 : ℚ) ^ ((log2 p : Int) - (log2 d : Int) + 1) * (2 : ℚ) ^ (log2 d : Int)
        = (2 : ℚ) ^ ((log2 p : Int) + 1) := by
      rw [← zpow_add₀ two]; congr 1; ring
    calc (p : ℚ) < (2 : ℚ) ^ ((log2 p : Int) + 1) := hp2q
      _ = (2 : ℚ) ^ ((log2 p : Int) - (log2 d : Int) + 1) * (2 : ℚ) ^ (log2 d : Int) := e.symm
      _ ≤ (2 : ℚ) ^ ((log2 p : Int) - (log2 d : Int) + 1) * (d : ℚ) :=
          mul_le_mul_of_nonneg_left hd1q (zpow_pos (by norm_num) _).le
  obtain ⟨hs2, hsq⟩ := scalePow2_spec p d ((log2 p : Int) - (log2 d : Int)) hd
  have hpow : (0 : ℚ) < (2 : ℚ) ^ ((log2 p : Int) - (log2 d : Int)) := zpow_pos (by norm_num) _
  have hs2q : (0 : ℚ) < ((scalePow2 p d ((log2 p : Int) - (log2 d : Int))).2 : ℚ) := by
    exact_mod_cast hs2
  unfold floorLog2
  simp only
  by_cases hc : (scalePow2 p d ((log2 p : Int) - (log2 d : Int))).2
      ≤ (scalePow2 p d ((log2 p : Int) - (log2 d : Int))).1
  · rw [if_pos hc]
    refine ⟨?_, hhigh⟩
    have h1 : (1 : ℚ) ≤ ((scalePow2 p d ((log2 p : Int) - (log2 d : Int))).1 : ℚ)
        / ((scalePow2 p d ((log2 p : Int) - (log2 d : Int))).2 : ℚ) := by
      rw [le_div_iff₀ hs2q, one_mul]; exact_mod_cast hc
    rw [hsq, le_div_iff₀ hpow, one_mul] at h1
    exact h1
  · rw [if_neg hc]
    refine ⟨hlow, ?_⟩
    have h1 : ((scalePow2 p d ((log2 p : Int) - (log2 d : Int))).1 : ℚ)
        / ((scalePow2 p d ((log2 p : Int) - (log2 d : Int))).2 : ℚ) < 1 := by
      rw [div_lt_iff₀ hs2q, one_mul]; exact_mod_cast not_le.1 hc
    rw [hsq, div_lt_iff₀ hpow, one_mul] at h1
    rw [show (log2 p : Int) - (log2 d : Int) - 1 + 1 = (log2 p : Int) - (log2 d : Int) by ring]
    exact h1

theorem roundHalfEven_spec (num den : Nat) (hden : 0 < den) :
    |(roundHalfEven num den : ℚ) - (num : ℚ) / (den : ℚ)| ≤ 1 / 2 := by
  have hdq : (0 : ℚ) < (den : ℚ) := by exact_mod_cast hden
  have hnum : (num : ℚ) = (den : ℚ) * ((num / den : Nat) : ℚ) + ((num % den : Nat) : ℚ) := by
    exact_mod_cast (Nat.div_add_mod num den).symm
  have hx : (num : ℚ) / (den : ℚ)
      = ((num / den : Nat) : ℚ) + ((num % den : Nat) : ℚ) / (den : ℚ) := by
    rw [hnum]; field_simp; ring
  have hr0 : (0 : ℚ) ≤ ((num % den : Nat) : ℚ) / (den : ℚ) := by positivity
  have hrlt : num % den < den := Nat.mod_lt _ hden
  unfold roundHalfEven
  simp only
  rw [hx, abs_le]
  by_cases h1 : 2 * (num % den) < den
  · rw [if_pos h1]
    have : ((num % den : Nat) : ℚ) / (den : ℚ) ≤ 1 / 2 := by
      rw [div_le_iff₀ hdq]
      have : (2 : ℚ) * ((num % den : Nat) : ℚ) < (den : ℚ) := by exact_mod_cast h1
      linarith
    constructor <;> linarith
  · rw [if_neg h1]
    have hge : (1 : ℚ) / 2 ≤ ((num % den : Nat) : ℚ) / (den : ℚ) := by
      rw [le_div_iff₀ hdq]
      have : (den : ℚ) ≤ (2 : ℚ) * ((num % den : Nat) : ℚ) := by exact_mod_cast not_lt.1 h1
      linarith
    have hle : ((num % den : Nat) : ℚ) / (den : ℚ) ≤ 1 := by
      rw [div_le_iff₀ hdq]
      have : ((num % den : Nat) : ℚ) < (den : ℚ) := by exact_mod_cast hrlt
      linarith
    by_cases h2 : den < 2 * (num % den)
    · rw [if_pos h2]
      push_cast
      constructor <;> linarith
    · rw [if_neg h2]
      have heq : ((num % den : Nat) : ℚ) / (den : ℚ) = 1 / 2 := by
        rw [div_eq_iff hdq.ne.symm]
        have : (den : ℚ) = (2 : ℚ) * ((num % den : Nat) : ℚ) := by
          exact_mod_cast (show den = 2 * (num % den) by omega)
        linarith
      split_ifs
      · constructor <;> linarith
      · push_cast
        constructor <;> linarith

theorem ofRat_err (x : ℚ) (k : Int) (hx : 0 ≤ x) (hxk : x ≤ (2 : ℚ) ^ k)
    (hk1 : -1022 ≤ k) (hk2 : k ≤ 1022) :
    ∃ v : ℚ, F64.ofRat x = .fin v ∧ 0 ≤ v ∧ |v - x| ≤ (2 : ℚ) ^ (k - 53) := by
  have two : (2 : ℚ) ≠ 0 := by norm_num
  by_cases hx0 : x = 0
  · refine ⟨0, ?_, le_rfl, ?_⟩
    · simp [F64.ofRat, hx0]
    · rw [hx0]; simp only [sub_zero, abs_zero]
      exact (zpow_pos (by norm_num) _).le
  · have hxpos : 0 < x := lt_of_le_of_ne hx (Ne.symm hx0)
    have hnum : 0 < x.num := Rat.num_pos.2 hxpos
    have hd : 0 < x.den := x.den_pos
    have hp : 0 < x.num.natAbs := Int.natAbs_pos.2 hnum.ne.symm
    have hcast : ((x.num.natAbs : Nat) : ℚ) = (x.num : ℚ) := by
      have h1 : ((x.num.natAbs : Nat) : Int) = x.num := Int.natAbs_of_nonneg hnum.le
      calc ((x.num.natAbs : Nat) : ℚ) = (((x.num.natAbs : Nat) : Int) : ℚ) :=
            (Int.cast_natCast _).symm
        _ = (x.num : ℚ) := by rw [h1]
    have hxpd : ((x.num.natAbs : Nat) : ℚ) / (x.den : ℚ) = x := by
      rw [hcast]; exact Rat.num_div_den x
    obtain ⟨he1, _⟩ := floorLog2_spec x.num.natAbs x.den hp hd
    rw [hxpd] at he1
    have hek : floorLog2 x.num.natAbs x.den ≤ k :=
      (zpow_le_zpow_iff_right₀ (by norm_num : (1 : ℚ) < 2)).1 (le_trans he1 hxk)
    have huk : ulpExp x.num.natAbs x.den ≤ k - 52 := by
      unfold ulpExp
      have : max (floorLog2 x.num.natAbs x.den) (-1022) ≤ k := max_le hek hk1
      omega
    obtain ⟨hs2, hsq⟩ := scalePow2_spec x.num.natAbs x.den (ulpExp x.num.natAbs x.den) hd
    have hr := roundHalfEven_spec (scalePow2 x.num.natAbs x.den (ulpExp x.num.natAbs x.den)).1
      (scalePow2 x.num.natAbs x.den (ulpExp x.num.natAbs x.den)).2 hs2
    rw [hsq, hxpd] at hr
    have hpu : (0 : ℚ) < (2 : ℚ) ^ ulpExp x.num.natAbs x.den := zpow_pos (by norm_num) _
    have hn : (roundSig x.num.natAbs x.den : ℚ)
        = ((roundHalfEven (scalePow2 x.num.natAbs x.den (ulpExp x.num.natAbs x.den)).1
            (scalePow2 x.num.natAbs x.den (ulpExp x.num.natAbs x.den)).2 : Nat) : ℚ) := rfl
    rw [← hn] at hr
    have herr : |(roundSig x.num.natAbs x.den : ℚ) * (2 : ℚ) ^ ulpExp x.num.natAbs x.den - x|
        ≤ (2 : ℚ) ^ (k - 53) := by
      have e1 : (roundSig x.num.natAbs x.den : ℚ) * (2 : ℚ) ^ ulpExp x.num.natAbs x.den - x
          = ((roundSig x.num.natAbs x.den : ℚ) - x / (2 : ℚ) ^ ulpExp x.num.natAbs x.den)
            * (2 : ℚ) ^ ulpExp x.num.natAbs x.den := by
        field_simp
      rw [e1, abs_mul, abs_of_pos hpu]
      have e2 : (2 : ℚ) ^ (k - 53) = (1 / 2) * (2 : ℚ) ^ (k - 52) := by
        rw [show k - 53 = (k - 52) - 1 by ring, zpow_sub_one₀ two]; ring
      rw [e2]
      have hmono : (2 : ℚ) ^ ulpExp x.num.natAbs x.den ≤ (2 : ℚ) ^ (k - 52) :=
        zpow_le_zpow_right₀ (by norm_num) huk
      exact mul_le_mul hr hmono hpu.le (by norm_num)
    have hv0 : (0 : ℚ) ≤ (roundSig x.num.natAbs x.den : ℚ) * (2 : ℚ) ^ ulpExp x.num.natAbs x.den :=
      mul_nonneg (by positivity) hpu.le
    have hlt : (roundSig x.num.natAbs x.den : ℚ) * (2 : ℚ) ^ ulpExp x.num.natAbs x.den
        < (2 : ℚ) ^ (1024 : Nat) := by
      have h1 := (abs_le.1 herr).2
      have h2 : (2 : ℚ) ^ (k - 53) ≤ (2 : ℚ) ^ k := zpow_le_zpow_right₀ (by norm_num) (by omega)
      have h3 : (2 : ℚ) ^ k + (2 : ℚ) ^ k = (2 : ℚ) ^ (k + 1) := by
        rw [zpow_add_one₀ two]; ring
      have h4 : (2 : ℚ) ^ (k + 1) ≤ (2 : ℚ) ^ (1023 : Int) :=
        zpow_le_zpow_right₀ (by norm_num) (by omega)
      have h5 : (2 : ℚ) ^ (1023 : Int) < (2 : ℚ) ^ (1024 : Int) :=
        zpow_lt_zpow_right₀ (by norm_num) (by norm_num)
      have h6 : (2 : ℚ) ^ (1024 : Int) = (2 : ℚ) ^ (1024 : Nat) := by
        rw [← zpow_natCast]; rfl
      linarith
    refine ⟨(roundSig x.num.natAbs x.den : ℚ) * (2 : ℚ) ^ ulpExp x.num.natAbs x.den, ?_, hv0, herr⟩
    unfold F64.ofRat
    rw [if_neg hx0]
    simp only
    rw [if_neg (not_le.2 hlt), if_neg (not_lt.2 hx)]

/-! ## `timeToSeconds` on well-formed timestamps -/

theorem wrap64_of_range (x : Int) (h1 : -9223372036854775808 ≤ x)
    (h2 : x < 9223372036854775808) : wrap64 x = x := by
  unfold wrap64
  omega

theorem colon_not_mem_digits (s : Str) (h : isDigits s = true) : ':' ∉ s := by
  intro hm
  have := ((isDigits_iff s).1 h).2 ':' hm
  exact absurd this (by decide)

theorem Stamp.colon_not_mem_secText (t : Stamp) (h : t.wf = true) : ':' ∉ t.secText := by
  unfold Stamp.wf at h
  simp only [Bool.and_eq_true] at h
  obtain ⟨⟨⟨_, _⟩, hs⟩, hf⟩ := h
  unfold Stamp.secText
  cases hfr : t.secFrac with
  | none => simpa using colon_not_mem_digits _ hs
  | some f =>
    rw [hfr] at hf
    simp only [List.mem_append, List.mem_cons, not_or]
    exact ⟨colon_not_mem_digits _ hs, by decide, colon_not_mem_digits _ hf⟩

theorem Stamp.parseFloat_secText (ext : Str → F64) (t : Stamp) (h : t.wf = true) :
    parseFloat ext t.secText = F64.ofRat t.seconds := by
  unfold Stamp.wf at h
  simp only [Bool.and_eq_true] at h
  obtain ⟨⟨⟨_, _⟩, hs⟩, hf⟩ := h
  unfold Stamp.secText Stamp.seconds parseFloat
  cases hfr : t.secFrac with
  | none =>
    simp only [plainDecimal_int _ hs]
    congr 1
    simp
  | some f =>
    rw [hfr] at hf
    simp only [plainDecimal_frac _ _ hs hf]
    congr 1
    rw [natOfDigits_append]
    push_cast
    field_simp

theorem Stamp.split_render (t : Stamp) (h : t.wf = true) :
    split ':' t.render =
      match t.hour with
      | none => [t.minute, t.secText]
      | some hr => [hr, t.minute, t.secText] := by
  have hsec := t.colon_not_mem_secText h
  unfold Stamp.wf at h
  simp only [Bool.and_eq_true] at h
  obtain ⟨⟨⟨hh, hm⟩, _⟩, _⟩ := h
  unfold Stamp.render
  cases hhr : t.hour with
  | none =>
    simp only
    rw [split_append_sep _ _ _ (colon_not_mem_digits _ hm), split_no_sep _ _ hsec]
  | some hr =>
    rw [hhr] at hh
    simp only
    rw [split_append_sep _ _ _ (colon_not_mem_digits _ hh),
      split_append_sep _ _ _ (colon_not_mem_digits _ hm), split_no_sep _ _ hsec]

theorem parseInt_zero : parseInt "0".toList = 0 := by decide

theorem Stamp.timeToSeconds_render (ext : Str → F64) (t : Stamp) (h : t.wf = true)
    (hb : t.hours * 3600 + t.minutes * 60 < 9223372036854775808) :
    timeToSeconds ext t.render
      = .ok (F64.add (F64.ofRat ((t.hours * 3600 + t.minutes * 60 : Nat) : ℚ))
          (F64.ofRat t.seconds)) := by
  have hsplit := t.split_render h
  have hpf := t.parseFloat_secText ext h
  unfold Stamp.wf at h
  simp only [Bool.and_eq_true] at h
  obtain ⟨⟨⟨hh, hm⟩, _⟩, _⟩ := h
  have hmin : parseInt t.minute = (t.minutes : Int) :=
    parseInt_digits _ hm (by unfold Stamp.minutes at hb; omega)
  unfold timeToSeconds
  cases hhr : t.hour with
  | none =>
    rw [hhr] at hsplit
    simp only [hsplit, hpf, hmin, parseInt_zero]
    have hH : t.hours = 0 := by unfold Stamp.hours; rw [hhr]
    rw [hH] at hb ⊢
    have w1 : wrap64 (0 * 3600) = 0 := by decide
    have w2 : wrap64 ((t.minutes : Int) * 60) = (t.minutes : Int) * 60 :=
      wrap64_of_range _ (by omega) (by omega)
    have w3 : wrap64 (0 + (t.minutes : Int) * 60) = (t.minutes : Int) * 60 := by
      rw [zero_add]; exact w2
    rw [w1, w2, w3]
    unfold F64.ofInt
    have e : (((t.minutes : Int) * 60 : Int) : ℚ) = ((0 * 3600 + t.minutes * 60 : Nat) : ℚ) := by
      push_cast; ring
    rw [e]
  | some hr =>
    rw [hhr] at hsplit hh
    have hH : t.hours = natOfDigits hr := by unfold Stamp.hours; rw [hhr]
    have hhour : parseInt hr = (t.hours : Int) := by
      rw [hH]; exact parseInt_digits _ hh (by rw [hH] at hb; omega)
    simp only [hsplit, hpf, hmin, hhour]
    have w1 : wrap64 ((t.hours : Int) * 3600) = (t.hours : Int) * 3600 :=
      wrap64_of_range _ (by omega) (by omega)
    have w2 : wrap64 ((t.minutes : Int) * 60) = (t.minutes : Int) * 60 :=
      wrap64_of_range _ (by omega) (by omega)
    have w3 : wrap64 ((t.hours : Int) * 3600 + (t.minutes : Int) * 60)
        = (t.hours : Int) * 3600 + (t.minutes : Int) * 60 :=
      wrap64_of_range _ (by omega) (by omega)
    rw [w1, w2, w3]
    unfold F64.ofInt
    have e : (((t.hours : Int) * 3600 + (t.minutes : Int) * 60 : Int) : ℚ)
        = ((t.hours * 3600 + t.minutes * 60 : Nat) : ℚ) := by
      push_cast; ring
    rw [e]

theorem Stamp.seconds_nonneg (t : Stamp) : 0 ≤ t.seconds := by
  unfold Stamp.seconds
  cases t.secFrac with
  | none => positivity
  | some f => positivity

theorem Stamp.timeToSeconds_bound (ext : Str → F64) (t : Stamp) (k : Nat)
    (hwf : t.wf = true) (hk : k ≤ 62) (hval : t.value ≤ (2 : ℚ) ^ k) :
    ∃ v : ℚ, timeToSeconds ext t.render = .ok (.fin v)
      ∧ |v - t.value| ≤ (2 : ℚ) ^ k / (2 : ℚ) ^ 51 := by
  have two : (2 : ℚ) ≠ 0 := by norm_num
  have hs0 := t.seconds_nonneg
  have hT0 : (0 : ℚ) ≤ ((t.hours * 3600 + t.minutes * 60 : Nat) : ℚ) := by positivity
  have hvalue : t.value = ((t.hours * 3600 + t.minutes * 60 : Nat) : ℚ) + t.seconds := by
    unfold Stamp.value; push_cast; ring
  have hkz : (2 : ℚ) ^ k = (2 : ℚ) ^ (k : Int) := (zpow_natCast _ _).symm
  have hTle : ((t.hours * 3600 + t.minutes * 60 : Nat) : ℚ) ≤ (2 : ℚ) ^ (k : Int) := by
    rw [← hkz]; linarith
  have hsle : t.seconds ≤ (2 : ℚ) ^ (k : Int) := by
    rw [← hkz]; linarith
  have hTnat : t.hours * 3600 + t.minutes * 60 < 9223372036854775808 := by
    have h1 : ((t.hours * 3600 + t.minutes * 60 : Nat) : ℚ) ≤ (2 : ℚ) ^ k := by linarith
    have h2 : (2 : ℚ) ^ k ≤ (2 : ℚ) ^ 62 := pow_le_pow_right₀ (by norm_num) hk
    have h3 : ((t.hours * 3600 + t.minutes * 60 : Nat) : ℚ) ≤ ((2 ^ 62 : Nat) : ℚ) := by
      push_cast; push_cast at h1; linarith
    have h4 : t.hours * 3600 + t.minutes * 60 ≤ 2 ^ 62 := by exact_mod_cast h3
    have h5 : (2 : Nat) ^ 62 < 9223372036854775808 := by norm_num
    omega
  obtain ⟨v1, hv1, hv1n, hv1e⟩ := ofRat_err _ (k : Int) hT0 hTle (by omega) (by omega)
  obtain ⟨v2, hv2, hv2n, hv2e⟩ := ofRat_err _ (k : Int) hs0 hsle (by omega) (by omega)
  have e53 : (2 : ℚ) ^ ((k : Int) - 53) + (2 : ℚ) ^ ((k : Int) - 53) = (2 : ℚ) ^ ((k : Int) - 52) := by
    rw [show (k : Int) - 52 = ((k : Int) - 53) + 1 by ring, zpow_add_one₀ two]; ring
  have e52 : (2 : ℚ) ^ ((k : Int) - 52) + (2 : ℚ) ^ ((k : Int) - 52) = (2 : ℚ) ^ ((k : Int) - 51) := by
    rw [show (k : Int) - 51 = ((k : Int) - 52) + 1 by ring, zpow_add_one₀ two]; ring
  have ek1 : (2 : ℚ) ^ (k : Int) + (2 : ℚ) ^ (k : Int) = (2 : ℚ) ^ ((k : Int) + 1) := by
    rw [zpow_add_one₀ two]; ring
  have hmono : (2 : ℚ) ^ ((k : Int) - 52) ≤ (2 : ℚ) ^ (k : Int) :=
    zpow_le_zpow_right₀ (by norm_num) (by omega)
  have a1 := abs_le.1 hv1e
  have a2 := abs_le.1 hv2e
  have hsum : v1 + v2 ≤ (2 : ℚ) ^ ((k : Int) + 1) := by
    rw [← hkz] at ek1 hmono
    rw [← ek1]
    linarith [a1.2, a2.2]
  obtain ⟨v, hv, _, hve⟩ := ofRat_err (v1 + v2) ((k : Int) + 1) (by linarith) hsum
    (by omega) (by omega)
  rw [show (k : Int) + 1 - 53 = (k : Int) - 52 by ring] at hve
  have a3 := abs_le.1 hve
  refine ⟨v, ?_, ?_⟩
  · rw [t.timeToSeconds_render ext hwf hTnat, hv1, hv2]
    simp only [F64.add]
    rw [hv]
  · have e51 : (2 : ℚ) ^ k / (2 : ℚ) ^ 51 = (2 : ℚ) ^ ((k : Int) - 51) := by
      rw [zpow_sub₀ two, zpow_natCast, show (51 : Int) = ((51 : Nat) : Int) from rfl,
        zpow_natCast]
    rw [e51, hvalue, abs_le]
    constructor <;> linarith [a1.1, a1.2, a2.1, a2.2, a3.1, a3.2]

/-- C1 (amended): for every timestamp `H:MM:SS.cc` or `MM:SS.cc` whose
components are non-empty decimal digit strings and whose exact value
`hours*3600 + minutes*60 + seconds` is at most `2^k` seconds for some
`k ≤ 62`, `timeToSeconds` returns no error and a finite `float64` within
`2^k / 2^51` of the exact value (hours taken as `0` when absent); and
`"1:02:03.500"` gives exactly `3723.5`, `"02:03.5"` exactly `123.5`. -/
theorem timeToSeconds_valid (ext : Str → F64) (t : Stamp) (k : Nat)
    (hwf : t.wf = true) (hk : k ≤ 62) (hval : t.value ≤ (2 : ℚ) ^ k) :
    (∃ v : ℚ, timeToSeconds ext t.render = .ok (.fin v)
      ∧ |v - t.value| ≤ (2 : ℚ) ^ k / (2 : ℚ) ^ 51)
    ∧ timeToSeconds ext "1:02:03.500".toList = .ok (.fin (7447 / 2))
    ∧ timeToSeconds ext "02:03.5".toList = .ok (.fin (247 / 2)) := by
  refine ⟨t.timeToSeconds_bound ext k hwf hk hval, ?_, ?_⟩
  · have h := Stamp.timeToSeconds_render ext
      ⟨some "1".toList, "02".toList, "03".toList, some "500".toList⟩ (by decide) (by decide)
    have hr : Stamp.render ⟨some "1".toList, "02".toList, "03".toList, some "500".toList⟩
        = "1:02:03.500".toList := by decide
    rw [hr] at h
    rw [h]
    decide!
  · have h := Stamp.timeToSeconds_render ext
      ⟨none, "02".toList, "03".toList, some "5".toList⟩ (by decide) (by decide)
    have hr : Stamp.render ⟨none, "02".toList, "03".toList, some "5".toList⟩
        = "02:03.5".toList := by decide
    rw [hr] at h
    rw [h]
    decide!

/-- C1 witness: the amended statement applied to `1:02:03.500` with `k = 12`. -/
theorem timeToSeconds_valid_witness :
    (∃ v : ℚ, timeToSeconds extZero
        (Stamp.render ⟨some "1".toList, "02".toList, "03".toList, some "500".toList⟩)
          = .ok (.fin v)
      ∧ |v - Stamp.value ⟨some "1".toList, "02".toList, "03".toList, some "500".toList⟩|
          ≤ (2 : ℚ) ^ 12 / (2 : ℚ) ^ 51)
    ∧ timeToSeconds extZero "1:02:03.500".toList = .ok (.fin (7447 / 2))
    ∧ timeToSeconds extZero "02:03.5".toList = .ok (.fin (247 / 2)) :=
  timeToSeconds_valid extZero
    ⟨some "1".toList, "02".toList, "03".toList, some "500".toList⟩ 12
    (by decide) (by decide) (by decide!)

/-- C1 counterexample: `2562047788015216:00:00.00` is a timestamp of digit
components with exact value `9223372036854777600`; the 64-bit product
`hour*3600` wraps, and `timeToSeconds` returns `-9223372036854773760`. -/
theorem timeToSeconds_overflow_counterexample :
    Stamp.wf ⟨some "2562047788015216".toList, "00".toList, "00".toList, some "00".toList⟩ = true
    ∧ Stamp.render ⟨some "2562047788015216".toList, "00".toList, "00".toList, some "00".toList⟩
        = "2562047788015216:00:00.00".toList
    ∧ Stamp.value ⟨some "2562047788015216".toList, "00".toList, "00".toList, some "00".toList⟩
        = 9223372036854777600
    ∧ timeToSeconds extZero "2562047788015216:00:00.00".toList
        = .ok (.fin (-9223372036854773760)) := by
  refine ⟨by decide, by decide, by decide!, by decide!⟩

/-! ## `extractPlainText` -/

theorem stripScan_snd (s : Str) : (stripScan s).2 = (afterClose s).map removeTags := by
  induction s with
  | nil => rfl
  | cons c cs ih =>
    unfold stripScan afterClose
    by_cases h : c = '}'
    · simp [h, removeTags]
    · simp [h, ih]

theorem removeTags_nil : removeTags [] = [] := rfl

theorem removeTags_cons (c : Char) (cs : Str) :
    removeTags (c :: cs)
      = if c = '{' ∧ cs.head? = some '\\' then
          ((afterClose cs).map removeTags).getD (c :: removeTags cs)
        else c :: removeTags cs := by
  rw [← stripScan_snd]
  rfl

theorem removeTags_cons_ne (c : Char) (cs : Str) (h : c ≠ '{') :
    removeTags (c :: cs) = c :: removeTags cs := by
  rw [removeTags_cons, if_neg (fun e => h e.1)]

theorem removeTags_open_close (cs r : Str) (h : afterClose cs = some r) :
    removeTags ('{' :: '\\' :: cs) = removeTags r := by
  have h2 : afterClose ('\\' :: cs) = some r := by
    unfold afterClose
    rw [if_neg (by decide), h]
  rw [removeTags_cons, if_pos ⟨rfl, rfl⟩, h2]
  rfl

theorem removeTags_open_noclose (cs : Str) (h : afterClose cs = none) :
    removeTags ('{' :: cs) = '{' :: removeTags cs := by
  rw [removeTags_cons, h]
  split_ifs <;> rfl

theorem removeTags_open_other (cs : Str) (h : cs.head? ≠ some '\\') :
    removeTags ('{' :: cs) = '{' :: removeTags cs := by
  rw [removeTags_cons, if_neg (fun e => h e.2)]

theorem afterClose_none_iff (s : Str) : afterClose s = none ↔ '}' ∉ s := by
  induction s with
  | nil => simp [afterClose]
  | cons c cs ih =>
    unfold afterClose
    by_cases h : c = '}'
    · simp [h]
    · rw [if_neg h, ih]
      simp [Ne.symm h]

theorem afterClose_length (s r : Str) (h : afterClose s = some r) : r.length < s.length := by
  induction s with
  | nil => simp [afterClose] at h
  | cons c cs ih =>
    unfold afterClose at h
    by_cases hc : c = '}'
    · rw [if_pos hc] at h
      cases h
      simp
    · rw [if_neg hc] at h
      have := ih h
      simp only [List.length_cons]
      omega

theorem afterClose_append (s w : Str) (hw : '}' ∉ w) :
    afterClose (s ++ w) = (afterClose s).map (· ++ w) := by
  induction s with
  | nil =>
    simp only [List.nil_append, afterClose, Option.map_none']
    exact (afterClose_none_iff w).2 hw
  | cons c cs ih =>
    rw [List.cons_append]
    unfold afterClose
    by_cases hc : c = '}'
    · simp [hc]
    · rw [if_neg hc, if_neg hc, ih]

theorem removeTags_of_noclose (s : Str) (h : '}' ∉ s) : removeTags s = s := by
  induction s with
  | nil => rfl
  | cons c cs ih =>
    have hcs : '}' ∉ cs := fun e => h (List.mem_cons_of_mem _ e)
    by_cases hc : c = '{'
    · subst hc
      rw [removeTags_open_noclose cs ((afterClose_none_iff cs).2 hcs), ih hcs]
    · rw [removeTags_cons_ne c cs hc, ih hcs]

theorem bracesOpenTags_afterClose (s r : Str) (h : afterClose s = some r)
    (hs : bracesOpenTags s = true) : bracesOpenTags r = true := by
  induction s with
  | nil => simp [afterClose] at h
  | cons c cs ih =>
    unfold bracesOpenTags at hs
    simp only [Bool.and_eq_true] at hs
    unfold afterClose at h
    by_cases hc : c = '}'
    · rw [if_pos hc] at h
      cases h
      exact hs.2
    · rw [if_neg hc] at h
      exact ih h hs.2

theorem removeTags_idem_aux (n : Nat) (s : Str) (hn : s.length ≤ n)
    (hs : bracesOpenTags s = true) : removeTags (removeTags s) = removeTags s := by
  induction n generalizing s with
  | zero =>
    have : s = [] := List.length_eq_zero.1 (by omega)
    subst this
    rfl
  | succ n ih =>
    cases s with
    | nil => rfl
    | cons c cs =>
      have hs' := hs
      unfold bracesOpenTags at hs'
      simp only [Bool.and_eq_true] at hs'
      have hlen : cs.length ≤ n := by simp only [List.length_cons] at hn; omega
      by_cases hc : c = '{'
      · subst hc
        cases hcl : afterClose cs with
        | none =>
          have hno : '}' ∉ cs := (afterClose_none_iff cs).1 hcl
          rw [removeTags_open_noclose cs hcl, removeTags_of_noclose cs hno,
            removeTags_open_noclose cs hcl, removeTags_of_noclose cs hno]
        | some r =>
          cases cs with
          | nil => simp [afterClose] at hcl
          | cons d ds =>
            have hd : d = '\\' := by simpa using hs'.1
            subst hd
            have hcl2 : afterClose ds = some r := by
              unfold afterClose at hcl
              rw [if_neg (by decide)] at hcl
              exact hcl
            have hr : bracesOpenTags r = true := by
              refine bracesOpenTags_afterClose ds r hcl2 ?_
              have h2 := hs'.2
              unfold bracesOpenTags at h2
              simp only [Bool.and_eq_true] at h2
              exact h2.2
            have hrl := afterClose_length ds r hcl2
            rw [removeTags_open_close ds r hcl2]
            exact ih r (by simp only [List.length_cons] at hlen; omega) hr
      · rw [removeTags_cons_ne c cs hc, removeTags_cons_ne c _ hc, ih cs hlen hs'.2]

theorem removeTags_idem (s : Str) (hs : bracesOpenTags s = true) :
    removeTags (removeTags s) = removeTags s :=
  removeTags_idem_aux s.length s le_rfl hs

theorem isSpace_ne_brace (c : Char) (h : isSpace c = true) :
    c ≠ '{' ∧ c ≠ '}' ∧ c ≠ '\\' := by
  refine ⟨?_, ?_, ?_⟩ <;> (intro e; subst e; revert h; decide)

theorem dropWhileEnd_append_self (p : Char → Bool) (s : Str) :
    dropWhileEnd p s ++ (s.reverse.takeWhile p).reverse = s := by
  unfold dropWhileEnd
  rw [← List.reverse_append, List.takeWhile_append_dropWhile, List.reverse_reverse]

theorem removeTags_dropWhile_space (t : Str) :
    removeTags t = t.takeWhile isSpace ++ removeTags (t.dropWhile isSpace) := by
  induction t with
  | nil => rfl
  | cons c cs ih =>
    by_cases hc : isSpace c = true
    · rw [removeTags_cons_ne c cs (isSpace_ne_brace c hc).1]
      simp only [List.takeWhile_cons, List.dropWhile_cons, hc, if_true, List.cons_append]
      rw [← ih]
    · simp only [List.takeWhile_cons, List.dropWhile_cons, hc, List.nil_append]
      rfl

theorem removeTags_append_space_aux (n : Nat) (v w : Str) (hn : v.length ≤ n)
    (hw : ∀ c ∈ w, isSpace c = true) : removeTags (v ++ w) = removeTags v ++ w := by
  have hwc : '}' ∉ w := fun e => (isSpace_ne_brace _ (hw _ e)).2.1 rfl
  induction n generalizing v with
  | zero =>
    have : v = [] := List.length_eq_zero.1 (by omega)
    subst this
    simpa [removeTags_nil] using removeTags_of_noclose w hwc
  | succ n ih =>
    cases v with
    | nil => simpa [removeTags_nil] using removeTags_of_noclose w hwc
    | cons c cs =>
      have hlen : cs.length ≤ n := by simp only [List.length_cons] at hn; omega
      by_cases hc : c = '{'
      · subst hc
        by_cases hh : cs.head? = some '\\'
        · cases cs with
          | nil => simp at hh
          | cons d ds =>
            have hd : d = '\\' := by simpa using hh
            subst hd
            cases hcl : afterClose ds with
            | none =>
              have h1 : afterClose ('\\' :: ds) = none := by
                unfold afterClose; rw [if_neg (by decide), hcl]
              have h2 : afterClose ('\\' :: ds ++ w) = none := by
                rw [afterClose_append _ _ hwc, h1]; rfl
              rw [List.cons_append, removeTags_open_noclose _ h2, removeTags_open_noclose _ h1,
                ih _ hlen]
              rfl
            | some r =>
              have h2 : afterClose (ds ++ w) = some (r ++ w) := by
                rw [afterClose_append _ _ hwc, hcl]; rfl
              have hrl := afterClose_length ds r hcl
              rw [List.cons_append, List.cons_append, removeTags_open_close _ _ h2,
                removeTags_open_close _ _ hcl]
              exact ih r (by simp only [List.length_cons] at hlen; omega)
        · have hh2 : (cs ++ w).head? ≠ some '\\' := by
            cases cs with
            | nil =>
              cases w with
              | nil => simp
              | cons x xs =>
                have := (isSpace_ne_brace x (hw x (by simp))).2.2
                simpa using this
            | cons d ds => simpa using hh
          rw [List.cons_append, removeTags_open_other _ hh2, removeTags_open_other _ hh,
            ih _ hlen]
          rfl
      · rw [List.cons_append, removeTags_cons_ne c _ hc, removeTags_cons_ne c _ hc, ih _ hlen]
        rfl

theorem removeTags_trimSpace_fixed (t : Str) (h : removeTags t = t) :
    removeTags (trimSpace t) = trimSpace t := by
  have h1 : removeTags (t.dropWhile isSpace) = t.dropWhile isSpace := by
    have e := removeTags_dropWhile_space t
    rw [h] at e
    have e2 : t.takeWhile isSpace ++ t.dropWhile isSpace
        = t.takeWhile isSpace ++ removeTags (t.dropWhile isSpace) := by
      rw [List.takeWhile_append_dropWhile]; exact e
    exact (List.append_cancel_left e2).symm
  have hsplit := dropWhileEnd_append_self isSpace (t.dropWhile isSpace)
  have hw : ∀ c ∈ ((t.dropWhile isSpace).reverse.takeWhile isSpace).reverse,
      isSpace c = true := by
    intro c hc
    rw [List.mem_reverse] at hc
    exact (List.mem_takeWhile_imp hc)
  have h2 := removeTags_append_space_aux _ (dropWhileEnd isSpace (t.dropWhile isSpace)) _
    le_rfl hw
  rw [hsplit, h1] at h2
  have h3 : dropWhileEnd isSpace (t.dropWhile isSpace)
        ++ ((t.dropWhile isSpace).reverse.takeWhile isSpace).reverse
      = removeTags (dropWhileEnd isSpace (t.dropWhile isSpace))
        ++ ((t.dropWhile isSpace).reverse.takeWhile isSpace).reverse := by
    rw [hsplit]; exact h2
  exact (List.append_cancel_right h3).symm

theorem dropWhile_idem (p : Char → Bool) (s : Str) :
    (s.dropWhile p).dropWhile p = s.dropWhile p := by
  induction s with
  | nil => rfl
  | cons c cs ih =>
    by_cases hc : p c = true
    · simp only [List.dropWhile_cons, hc, if_true]; exact ih
    · simp only [List.dropWhile_cons, hc]
      simp [List.dropWhile_cons, hc]

theorem dropWhile_dropWhileEnd (p : Char → Bool) (s : Str) :
    (dropWhileEnd p (s.dropWhile p)).dropWhile p = dropWhileEnd p (s.dropWhile p) := by
  have hsplit := dropWhileEnd_append_self p (s.dropWhile p)
  cases hv : dropWhileEnd p (s.dropWhile p) with
  | nil => rfl
  | cons a as =>
    rw [hv] at hsplit
    have hy : (s.dropWhile p).dropWhile p = s.dropWhile p := dropWhile_idem p s
    rw [← hsplit] at hy
    simp only [List.cons_append, List.dropWhile_cons] at hy
    by_cases ha : p a = true
    · rw [if_pos ha] at hy
      have hl := congrArg List.length hy
      have hle := List.Sublist.length_le
        (List.dropWhile_sublist p (l := as ++ ((s.dropWhile p).reverse.takeWhile p).reverse))
      simp only [List.length_cons] at hl
      omega
    · simp [List.dropWhile_cons, ha]

theorem trimSpace_idem (s : Str) : trimSpace (trimSpace s) = trimSpace s := by
  unfold trimSpace
  rw [dropWhile_dropWhileEnd]
  unfold dropWhileEnd
  rw [List.reverse_reverse, dropWhile_idem]

/-- C9 (amended): text cleanup is idempotent on every string in which each
`{` is directly followed by a backslash (braces only open override tags):
there `extractPlainText (extractPlainText s) = extractPlainText s`; and
`"{\b1}hello{\b0} world"` is cleaned to `"hello world"`. -/
theorem extractPlainText_idempotent (s : Str) (h : bracesOpenTags s = true) :
    extractPlainText (extractPlainText s) = extractPlainText s
      ∧ extractPlainText "\x7b\\b1\x7dhello\x7b\\b0\x7d world".toList = "hello world".toList := by
  refine ⟨?_, by decide⟩
  unfold extractPlainText
  rw [removeTags_trimSpace_fixed _ (removeTags_idem s h), trimSpace_idem]

/-- C9 witness: the amended statement at `"{\b1}hello{\b0} world"`. -/
theorem extractPlainText_idempotent_witness :
    extractPlainText (extractPlainText "\x7b\\b1\x7dhello\x7b\\b0\x7d world".toList)
        = extractPlainText "\x7b\\b1\x7dhello\x7b\\b0\x7d world".toList
      ∧ extractPlainText "\x7b\\b1\x7dhello\x7b\\b0\x7d world".toList = "hello world".toList :=
  extractPlainText_idempotent "\x7b\\b1\x7dhello\x7b\\b0\x7d world".toList (by decide)

/-- C9 counterexample: on `"{{\a}\b}"` one cleanup leaves `"{\b}"`, which is
itself an override tag, so a second cleanup gives the empty string. -/
theorem extractPlainText_not_idempotent :
    extractPlainText "\x7b\x7b\\a\x7d\\b\x7d".toList = "\x7b\\b\x7d".toList
      ∧ extractPlainText (extractPlainText "\x7b\x7b\\a\x7d\\b\x7d".toList) = [] := by
  decide

/-! ## `parseUserInfo` -/

theorem isReSpace_isSpace (c : Char) (h : isReSpace c = true) : isSpace c = true := by
  simp only [isReSpace, Bool.or_eq_true, decide_eq_true_eq] at h
  simp only [isSpace, Bool.or_eq_true, decide_eq_true_eq, Bool.and_eq_true]
  tauto

theorem dropWhile_append_of_all (p : Char → Bool) (a b : Str) (h : ∀ c ∈ a, p c = true) :
    (a ++ b).dropWhile p = b.dropWhile p := by
  induction a with
  | nil => rfl
  | cons c cs ih =>
    have hc : p c = true := h c (by simp)
    simp only [List.cons_append, List.dropWhile_cons, hc, if_true]
    exact ih (fun x hx => h x (List.mem_cons_of_mem _ hx))

theorem dropWhile_of_all (p : Char → Bool) (a : Str) (h : ∀ c ∈ a, p c = true) :
    a.dropWhile p = [] := by
  have := dropWhile_append_of_all p a [] h
  simpa using this

theorem dropWhile_append_of_exists (p : Char → Bool) (a b : Str)
    (h : ∃ c ∈ a, p c = false) : (a ++ b).dropWhile p = a.dropWhile p ++ b := by
  induction a with
  | nil => simp at h
  | cons c cs ih =>
    by_cases hc : p c = true
    · simp only [List.cons_append, List.dropWhile_cons, hc, if_true]
      apply ih
      obtain ⟨x, hx, hpx⟩ := h
      rcases List.mem_cons.1 hx with rfl | hx'
      · rw [hc] at hpx; exact absurd hpx (by simp)
      · exact ⟨x, hx', hpx⟩
    · simp [List.dropWhile_cons, hc]

theorem dropWhileEnd_append_of_all (p : Char → Bool) (a w : Str)
    (h : ∀ c ∈ w, p c = true) : dropWhileEnd p (a ++ w) = dropWhileEnd p a := by
  unfold dropWhileEnd
  rw [List.reverse_append, dropWhile_append_of_all p w.reverse a.reverse]
  intro c hc
  exact h c (List.mem_reverse.1 hc)

theorem trimSpace_append_space (a w : Str) (h : ∀ c ∈ w, isSpace c = true) :
    trimSpace (a ++ w) = trimSpace a := by
  unfold trimSpace
  by_cases ha : ∃ c ∈ a, isSpace c = false
  · rw [dropWhile_append_of_exists _ _ _ ha, dropWhileEnd_append_of_all _ _ _ h]
  · have hall : ∀ c ∈ a, isSpace c = true := by
      intro c hc
      by_contra hn
      exact ha ⟨c, hc, by simpa using hn⟩
    rw [dropWhile_append_of_all _ _ _ hall, dropWhile_of_all _ _ h, dropWhile_of_all _ _ hall]

theorem suffix_unique (a b ds D : Str) (hds : ∀ c ∈ ds, isDigit c = true)
    (hD : ∀ c ∈ D, isDigit c = true)
    (h : a ++ '(' :: ds ++ [')'] = b ++ '(' :: D ++ [')']) : a = b ∧ ds = D := by
  have r1 : (a ++ '(' :: ds ++ [')']).reverse = ')' :: (ds.reverse ++ '(' :: a.reverse) := by
    simp
  have r2 : (b ++ '(' :: D ++ [')']).reverse = ')' :: (D.reverse ++ '(' :: b.reverse) := by
    simp
  have h1 := congrArg List.reverse h
  rw [r1, r2] at h1
  simp only [List.cons.injEq, true_and] at h1
  have hdsr : ∀ c ∈ ds.reverse, isDigit c = true := fun c hc => hds c (List.mem_reverse.1 hc)
  have hDr : ∀ c ∈ D.reverse, isDigit c = true := fun c hc => hD c (List.mem_reverse.1 hc)
  have t1 := takeWhile_digits_append ds.reverse a.reverse '(' hdsr (by decide)
  have t2 := takeWhile_digits_append D.reverse b.reverse '(' hDr (by decide)
  have e1 := congrArg (List.takeWhile isDigit) h1
  have e2 := congrArg (List.dropWhile isDigit) h1
  rw [t1.1, t2.1] at e1
  rw [t1.2, t2.2] at e2
  simp only [List.cons.injEq, true_and] at e2
  exact ⟨List.reverse_injective e2, List.reverse_injective e1⟩

theorem matchUserTail_sound (s ds : Str) (h : matchUserTail s = some ds) :
    ∃ w, s = w ++ '(' :: ds ++ [')'] ∧ (∀ c ∈ w, isReSpace c = true) ∧ isDigits ds = true := by
  unfold matchUserTail at h
  have hs := (List.takeWhile_append_dropWhile isReSpace s).symm
  cases hd : s.dropWhile isReSpace with
  | nil => rw [hd] at h; simp at h
  | cons c rest =>
    rw [hd] at h hs
    simp only at h
    split_ifs at h with hc
    obtain ⟨hc1, hc2, hc3⟩ := hc
    cases h
    have hr := (List.takeWhile_append_dropWhile isDigit rest).symm
    rw [hc3] at hr
    have hs2 : s = s.takeWhile isReSpace ++ '(' :: (rest.takeWhile isDigit ++ [')']) := by
      rw [← hr, ← hc1]; exact hs
    refine ⟨s.takeWhile isReSpace, hs2.trans (by simp), fun c hc => List.mem_takeWhile_imp hc, ?_⟩
    rw [isDigits_iff]
    exact ⟨hc2, fun c hc => List.mem_takeWhile_imp hc⟩

theorem matchUserTail_complete (w ds : Str) (hw : ∀ c ∈ w, isReSpace c = true)
    (hds : isDigits ds = true) : matchUserTail (w ++ '(' :: ds ++ [')']) = some ds := by
  obtain ⟨hne, hall⟩ := (isDigits_iff ds).1 hds
  have h1 : (w ++ '(' :: ds ++ [')']).dropWhile isReSpace = '(' :: ds ++ [')'] := by
    rw [List.append_assoc, dropWhile_append_of_all _ _ _ hw]
    simp [List.dropWhile_cons, isReSpace]
  obtain ⟨t1, t2⟩ := takeWhile_digits_append ds [] ')' hall (by decide)
  unfold matchUserTail
  rw [h1]
  simp only [List.cons_append]
  rw [if_pos ⟨trivial, by rw [t1]; exact hne, t2⟩, t1]

theorem matchUserFrom_complete (X D : Str) (hD : isDigits D = true) (hX : '\n' ∉ X)
    (acc : Str) (hne : X ≠ []) :
    ∃ i, matchUserFrom acc (X ++ '(' :: D ++ [')']) = some (acc.reverse ++ X.take i, D)
      ∧ ∀ c ∈ X.drop i, isReSpace c = true := by
  induction X generalizing acc with
  | nil => exact absurd rfl hne
  | cons c cs ih =>
    have hc : c ≠ '\n' := fun e => hX (by simp [e])
    have hcs : '\n' ∉ cs := fun e => hX (List.mem_cons_of_mem _ e)
    cases ht : matchUserTail (c :: cs ++ '(' :: D ++ [')']) with
    | some ds =>
      obtain ⟨w, hw, hwsp, hdd⟩ := matchUserTail_sound _ _ ht
      have hu := suffix_unique (c :: cs) w D ds ((isDigits_iff D).1 hD).2
        ((isDigits_iff ds).1 hdd).2 hw
      refine ⟨0, ?_, ?_⟩
      · simp only [List.cons_append] at ht ⊢
        unfold matchUserFrom
        rw [ht, hu.2]
        simp
      · rw [List.drop_zero, hu.1]; exact hwsp
    | none =>
      by_cases hcs0 : cs = []
      · subst hcs0
        refine ⟨1, ?_, by simp⟩
        simp only [List.cons_append, List.nil_append] at ht ⊢
        unfold matchUserFrom
        rw [ht]
        simp only [if_neg hc]
        have hD2 := matchUserTail_complete [] D (by simp) hD
        simp only [List.nil_append, List.cons_append] at hD2
        unfold matchUserFrom
        rw [hD2]
        simp
      · obtain ⟨i, hi, hsp⟩ := ih hcs (c :: acc) hcs0
        refine ⟨i + 1, ?_, ?_⟩
        · simp only [List.cons_append] at ht hi ⊢
          unfold matchUserFrom
          rw [ht]
          simp only [if_neg hc]
          rw [hi]
          simp
        · simpa using hsp

theorem matchUserFrom_sound (s acc g ds : Str) (h : matchUserFrom acc s = some (g, ds)) :
    ∃ pre w, g = acc.reverse ++ pre ∧ s = pre ++ w ++ '(' :: ds ++ [')']
      ∧ isDigits ds = true := by
  induction s generalizing acc with
  | nil => simp [matchUserFrom] at h
  | cons c cs ih =>
    unfold matchUserFrom at h
    cases ht : matchUserTail (c :: cs) with
    | some d =>
      rw [ht] at h
      simp only [Option.some.injEq, Prod.mk.injEq] at h
      obtain ⟨w, hw, _, hdd⟩ := matchUserTail_sound _ _ ht
      refine ⟨[], w, by simp [h.1.symm], ?_, by rw [← h.2]; exact hdd⟩
      rw [← h.2]; simpa using hw
    | none =>
      rw [ht] at h
      simp only at h
      split_ifs at h with hc
      obtain ⟨pre, w, hg, hs, hdd⟩ := ih (c :: acc) h
      refine ⟨c :: pre, w, by simp [hg], by simp [hs], hdd⟩

theorem matchUser_sound (t g ds : Str) (h : matchUser t = some (g, ds)) :
    ∃ w, t = g ++ w ++ '(' :: ds ++ [')'] ∧ g ≠ [] ∧ isDigits ds = true := by
  cases t with
  | nil => simp [matchUser] at h
  | cons c cs =>
    simp only [matchUser] at h
    split_ifs at h with hc
    obtain ⟨pre, w, hg, hs, hdd⟩ := matchUserFrom_sound _ _ _ _ h
    refine ⟨w, by simp [hg, hs], by simp [hg], hdd⟩

theorem parseUintLoop_range (ds : Str) (n : Nat)
    (hd : ∀ c ∈ ds, isDigit c = true) (hn : n ≤ 18446744073709551615)
    (hb : 18446744073709551615 < n * 10 ^ ds.length + natOfDigits ds) :
    parseUintLoop n ds = .rangeErr := by
  induction ds generalizing n with
  | nil => simp [natOfDigits] at hb; omega
  | cons c cs ih =>
    have hc : isDigit c = true := hd c (by simp)
    have hcs : ∀ x ∈ cs, isDigit x = true := fun x hx => hd x (List.mem_cons_of_mem _ hx)
    have key : n * 10 ^ (c :: cs).length + natOfDigits (c :: cs)
        = (n * 10 + digitVal c) * 10 ^ cs.length + natOfDigits cs := by
      have h1 := foldl_digits_eq (c :: cs) n
      have h2 := foldl_digits_eq cs (n * 10 + digitVal c)
      rw [List.foldl_cons] at h1
      omega
    rw [key] at hb
    unfold parseUintLoop
    rw [if_pos hc]
    split_ifs with h1 h2
    · rfl
    · rfl
    · exact ih _ hcs (by omega) hb

theorem parseInt_digits_sat (ds : Str) (hd : isDigits ds = true) :
    parseInt ds = min (natOfDigits ds : Int) 9223372036854775807 := by
  obtain ⟨hne, hall⟩ := (isDigits_iff ds).1 hd
  cases ds with
  | nil => exact absurd rfl hne
  | cons c cs =>
    have hc : isDigit c = true := hall c (by simp)
    have h1 : c ≠ '+' := isDigit_ne_of c '+' hc (by decide)
    have h2 : c ≠ '-' := isDigit_ne_of c '-' hc (by decide)
    by_cases hb : natOfDigits (c :: cs) ≤ 18446744073709551615
    · have hp : parseUint (c :: cs) = .val (natOfDigits (c :: cs)) := by
        unfold parseUint
        rw [if_neg (by simp)]
        have := parseUintLoop_digits (c :: cs) 0 hall (by omega)
        simpa using this
      unfold parseInt
      simp only [h1, h2, or_self, if_false, decide_False, hp]
      simp only [Bool.not_false, Bool.true_and, Bool.false_and, decide_eq_true_eq]
      by_cases h3 : natOfDigits (c :: cs) ≥ 9223372036854775808
      · rw [min_eq_right (by omega)]; simp [h3]
      · rw [min_eq_left (by omega)]; simp [h3]
    · have hp : parseUint (c :: cs) = .rangeErr := by
        unfold parseUint
        rw [if_neg (by simp)]
        exact parseUintLoop_range (c :: cs) 0 hall (by omega) (by omega)
      unfold parseInt
      simp only [h1, h2, or_self, if_false, decide_False, hp]
      simp only [Bool.false_eq_true, if_false]
      rw [min_eq_right (by omega)]

/-- C2 (amended): with `t` the trimmed raw string, (1) if `t` is
`X(digits)` with `X` non-empty and free of line feeds, the identity is the
numeric value of the digits (saturated at `2^63 - 1`) and the name is `X`
trimmed; (2) if `t` does not end with a suffix `(digits)`, the identity is `0`
and the name is `t`; (3) if `t` is the suffix `(digits)` alone, the identity
is `0` and the name is `t`.  `"Alice (12345)"` gives `("Alice", 12345)` and
`"Bob"` gives `("Bob", 0)`. -/
theorem parseUserInfo_spec (rawUser : Str) :
    (∀ X D : Str, trimSpace rawUser = X ++ '(' :: D ++ [')'] → isDigits D = true →
        X ≠ [] → '\n' ∉ X →
        parseUserInfo rawUser
          = (trimSpace X, min (natOfDigits D : Int) 9223372036854775807))
    ∧ ((∀ X D : Str, isDigits D = true → trimSpace rawUser ≠ X ++ '(' :: D ++ [')']) →
        parseUserInfo rawUser = (trimSpace rawUser, 0))
    ∧ (∀ D : Str, trimSpace rawUser = '(' :: D ++ [')'] → isDigits D = true →
        parseUserInfo rawUser = (trimSpace rawUser, 0))
    ∧ parseUserInfo "Alice (12345)".toList = ("Alice".toList, 12345)
    ∧ parseUserInfo "Bob".toList = ("Bob".toList, 0) := by
  refine ⟨?_, ?_, ?_, by decide, by decide⟩
  · intro X D ht hD hX hnl
    cases X with
    | nil => exact absurd rfl hX
    | cons c cs =>
      have hc : c ≠ '\n' := fun e => hnl (by simp [e])
      have hcs : '\n' ∉ cs := fun e => hnl (List.mem_cons_of_mem _ e)
      have hm : ∃ i, matchUser (c :: cs ++ '(' :: D ++ [')']) = some (c :: cs.take i, D)
          ∧ ∀ x ∈ cs.drop i, isReSpace x = true := by
        by_cases hcs0 : cs = []
        · subst hcs0
          refine ⟨0, ?_, by simp⟩
          have h0 := matchUserTail_complete [] D (by simp) hD
          simp only [List.nil_append, List.cons_append] at h0 ⊢
          simp only [matchUser, if_neg hc]
          unfold matchUserFrom
          rw [h0]
          simp
        · obtain ⟨i, hi, hsp⟩ := matchUserFrom_complete cs D hD hcs [c] hcs0
          refine ⟨i, ?_, hsp⟩
          simp only [List.cons_append] at hi ⊢
          simp only [matchUser, if_neg hc]
          rw [hi]
          simp
      obtain ⟨i, hi, hsp⟩ := hm
      unfold parseUserInfo
      rw [ht, hi]
      simp only
      rw [parseInt_digits_sat D hD]
      have hx : c :: cs = (c :: cs.take i) ++ cs.drop i := by
        simp [List.take_append_drop]
      have ht2 : trimSpace (c :: cs) = trimSpace (c :: cs.take i) := by
        conv_lhs => rw [hx]
        exact trimSpace_append_space _ _ (fun x hx => isReSpace_isSpace x (hsp x hx))
      rw [ht2]
  · intro hno
    cases hm : matchUser (trimSpace rawUser) with
    | none => unfold parseUserInfo; rw [hm]
    | some gd =>
      obtain ⟨g, ds⟩ := gd
      obtain ⟨w, hw, _, hdd⟩ := matchUser_sound _ _ _ hm
      exact absurd hw (hno (g ++ w) ds hdd)
  · intro D ht hD
    cases hm : matchUser (trimSpace rawUser) with
    | none => unfold parseUserInfo; rw [hm]
    | some gd =>
      obtain ⟨g, ds⟩ := gd
      obtain ⟨w, hw, hg, hdd⟩ := matchUser_sound _ _ _ hm
      rw [ht] at hw
      have hu := suffix_unique [] (g ++ w) D ds ((isDigits_iff D).1 hD).2
        ((isDigits_iff ds).1 hdd).2 (by simpa using hw)
      have : g = [] := (List.append_eq_nil.1 hu.1.symm).1
      exact absurd this hg

/-- C2 witness: the amended statement applied to `"Alice (12345)"`. -/
theorem parseUserInfo_spec_witness :
    parseUserInfo "Alice (12345)".toList
      = (trimSpace "Alice ".toList,
          min ((natOfDigits "12345".toList : Nat) : Int) 9223372036854775807) :=
  (parseUserInfo_spec "Alice (12345)".toList).1 "Alice ".toList "12345".toList
    (by decide) (by decide) (by decide) (by decide)

/-- C2 counterexample: the trimmed string `"(123)"` ends with the suffix
`(123)`, yet the identity returned is `0` and the name is the whole string
(the expression requires at least one character before the suffix). -/
theorem parseUserInfo_suffix_only :
    parseUserInfo "(123)".toList = ("(123)".toList, 0) := by
  decide

/-! ## `timeToSeconds`: the error case -/

theorem timeToSeconds_error_iff (ext : Str → F64) (s : Str) :
    (∃ e, timeToSeconds ext s = .error e) ↔ (s.count ':' ≠ 1 ∧ s.count ':' ≠ 2) := by
  have hlen := split_length ':' s
  unfold timeToSeconds
  rcases hsp : split ':' s with _ | ⟨p0, _ | ⟨p1, _ | ⟨p2, _ | ⟨p3, ps⟩⟩⟩⟩
  · rw [hsp] at hlen; simp at hlen
  · rw [hsp] at hlen
    simp only [List.length_cons, List.length_nil] at hlen
    exact ⟨fun _ => ⟨by omega, by omega⟩, fun _ => ⟨_, rfl⟩⟩
  · rw [hsp] at hlen
    simp only [List.length_cons, List.length_nil] at hlen
    refine ⟨fun h => ?_, fun h => absurd (show s.count ':' = 1 by omega) h.1⟩
    obtain ⟨e, he⟩ := h
    cases he
  · rw [hsp] at hlen
    simp only [List.length_cons, List.length_nil] at hlen
    refine ⟨fun h => ?_, fun h => absurd (show s.count ':' = 2 by omega) h.2⟩
    obtain ⟨e, he⟩ := h
    cases he
  · rw [hsp] at hlen
    simp only [List.length_cons] at hlen
    exact ⟨fun _ => ⟨by omega, by omega⟩, fun _ => ⟨_, rfl⟩⟩

/-! ## `parseASSEvents` -/

theorem afterNth_nil (sep : Char) (n : Nat) : afterNth sep n [] = [] := by
  cases n <;> rfl

theorem splitN_short (sep : Char) (n : Nat) (s : Str) (h : (split sep s).length ≤ n) :
    splitN sep (n + 1) s = split sep s := by
  induction s generalizing n with
  | nil =>
    cases n with
    | zero => simp [split] at h
    | succ m => simp [splitN, split]
  | cons c cs ih =>
    cases n with
    | zero =>
      have := split_ne_nil sep (c :: cs)
      exact absurd (List.length_eq_zero.1 (Nat.le_zero.1 h)) this
    | succ m =>
      by_cases hc : c = sep
      · subst hc
        have h2 : (split c cs).length ≤ m := by
          simp only [split, if_true, List.length_cons] at h; omega
        simp only [splitN, split, if_true]
        rw [ih m h2]
      · rw [split_cons_ne sep c cs hc] at h ⊢
        have hne := split_ne_nil sep cs
        have h2 : (split sep cs).length ≤ m + 1 := by
          cases hs : split sep cs with
          | nil => exact absurd hs hne
          | cons p ps => rw [hs] at h; simpa using h
        simp only [splitN, if_neg hc]
        rw [ih (m + 1) h2]
        cases hs : split sep cs with
        | nil => exact absurd hs hne
        | cons p ps => simp

theorem splitN_long (sep : Char) (n : Nat) (s : Str) (h : n + 1 ≤ (split sep s).length) :
    splitN sep (n + 1) s = (split sep s).take n ++ [afterNth sep n s] := by
  induction s generalizing n with
  | nil =>
    cases n with
    | zero => simp [splitN, afterNth]
    | succ m => simp [split] at h
  | cons c cs ih =>
    cases n with
    | zero => simp [splitN, afterNth]
    | succ m =>
      by_cases hc : c = sep
      · subst hc
        have h2 : m + 1 ≤ (split c cs).length := by
          simp only [split, if_true, List.length_cons] at h; omega
        simp only [splitN, split, if_true, afterNth]
        rw [ih m h2]
        simp
      · rw [split_cons_ne sep c cs hc] at h ⊢
        have hne := split_ne_nil sep cs
        have h2 : m + 1 + 1 ≤ (split sep cs).length := by
          cases hs : split sep cs with
          | nil => exact absurd hs hne
          | cons p ps => rw [hs] at h; simpa using h
        simp only [splitN, if_neg hc, afterNth]
        rw [ih (m + 1) h2]
        cases hs : split sep cs with
        | nil => exact absurd hs hne
        | cons p ps => simp

theorem splitN_ten_short (line : Str) (h : ¬ 10 ≤ (split ',' line).length) :
    (splitN ',' 10 line).length < 10 := by
  rw [splitN_short ',' 9 line (by omega)]
  omega

theorem splitN_ten_long (line : Str) (h : 10 ≤ (split ',' line).length) :
    (splitN ',' 10 line).length = 10
      ∧ (splitN ',' 10 line).getD 1 [] = (split ',' line).getD 1 []
      ∧ (splitN ',' 10 line).getD 4 [] = (split ',' line).getD 4 []
      ∧ (splitN ',' 10 line).getD 9 [] = afterNth ',' 9 line := by
  rw [splitN_long ',' 9 line h]
  rcases hs : split ',' line with
    _ | ⟨a0, _ | ⟨a1, _ | ⟨a2, _ | ⟨a3, _ | ⟨a4, _ | ⟨a5, _ | ⟨a6, _ | ⟨a7, _ | ⟨a8, _ | ⟨a9, r⟩⟩⟩⟩⟩⟩⟩⟩⟩⟩
  all_goals rw [hs] at h
  all_goals first
    | (simp only [List.length_cons, List.length_nil] at h; omega)
    | simp

theorem lineRecord_of_not_dialogue (ext : Str → F64) (line : Str)
    (h : hasPrefix line "Dialogue:".toList = false) : lineRecord ext line = none := by
  unfold lineRecord
  rw [if_neg]
  intro hh
  rw [h] at hh
  exact Bool.noConfusion hh.1

theorem parseLoop_true_cons (ext : Str → F64) (raw : Str) (rest : List Str) :
    parseLoop ext true (raw :: rest)
      = if trimSpace raw = "[Events]".toList then parseLoop ext true rest
        else if hasPrefix (trimSpace raw) "[".toList = true then []
        else (lineRecord ext (trimSpace raw)).toList ++ parseLoop ext true rest := by
  conv_lhs => unfold parseLoop
  simp only [Bool.not_true, Bool.false_eq_true, if_false]
  by_cases hE : trimSpace raw = "[Events]".toList
  · rw [if_pos hE, if_pos hE]
  · rw [if_neg hE, if_neg hE]
    by_cases hB : hasPrefix (trimSpace raw) "[".toList = true
    · rw [if_pos hB, if_pos hB]
    · rw [if_neg hB, if_neg hB]
      by_cases hD : hasPrefix (trimSpace raw) "Dialogue:".toList = true
      · rw [if_pos hD]
        by_cases hL : 10 ≤ (split ',' (trimSpace raw)).length
        · obtain ⟨h10, h1, h4, h9⟩ := splitN_ten_long _ hL
          rw [if_neg (by omega), h1, h4, h9]
          unfold lineRecord
          rw [if_pos ⟨hD, hL⟩]
          cases timeToSeconds ext ((split ',' (trimSpace raw)).getD 1 []) with
          | error e => rfl
          | ok st => rfl
        · rw [if_pos (splitN_ten_short _ hL)]
          unfold lineRecord
          rw [if_neg (fun hh => hL hh.2)]
          rfl
      · rw [if_neg hD, lineRecord_of_not_dialogue ext _ (by simpa using hD)]
        rfl

theorem parseLoop_true_eq (ext : Str → F64) (lines : List Str) :
    parseLoop ext true lines
      = ((lines.map trimSpace).takeWhile inSection).filterMap (lineRecord ext) := by
  induction lines with
  | nil => rfl
  | cons raw rest ih =>
    rw [parseLoop_true_cons, ih, List.map_cons]
    by_cases hE : trimSpace raw = "[Events]".toList
    · rw [if_pos hE]
      have hrec : lineRecord ext (trimSpace raw) = none := by
        rw [hE]; exact lineRecord_of_not_dialogue ext _ (by decide)
      have hq : inSection (trimSpace raw) = true := by
        unfold inSection
        rw [decide_eq_true hE]; rfl
      rw [List.takeWhile_cons_of_pos hq, List.filterMap_cons_none hrec]
    · rw [if_neg hE]
      by_cases hB : hasPrefix (trimSpace raw) "[".toList = true
      · rw [if_pos hB]
        have hq : ¬ inSection (trimSpace raw) = true := by
          unfold inSection
          rw [decide_eq_false hE, hB]; decide
        rw [List.takeWhile_cons_of_neg hq]
        rfl
      · rw [if_neg hB]
        have hq : inSection (trimSpace raw) = true := by
          unfold inSection
          rw [Bool.not_eq_true] at hB
          rw [hB]; simp
        rw [List.takeWhile_cons_of_pos hq]
        cases hrec : lineRecord ext (trimSpace raw) with
        | none => rw [List.filterMap_cons_none hrec]; rfl
        | some d => rw [List.filterMap_cons_some hrec]; rfl

theorem parseASSEvents_eq (ext : Str → F64) (lines : List Str) :
    parseASSEvents ext lines = (sectionLines lines).filterMap (lineRecord ext) := by
  unfold parseASSEvents sectionLines afterHeader
  induction lines with
  | nil => rfl
  | cons raw rest ih =>
    conv_lhs => unfold parseLoop
    rw [List.map_cons]
    by_cases hE : trimSpace raw = "[Events]".toList
    · have hq : ¬ notHeader (trimSpace raw) = true := by
        unfold notHeader
        simp only [decide_eq_true_eq]
        exact fun h => h hE
      rw [List.dropWhile_cons_of_neg hq]
      simp only [hE, if_true, List.drop_succ_cons, List.drop_zero]
      exact parseLoop_true_eq ext rest
    · have hq : notHeader (trimSpace raw) = true := by
        unfold notHeader
        exact decide_eq_true hE
      rw [List.dropWhile_cons_of_pos hq]
      simp only [hE, if_false, Bool.not_false, if_true]
      exact ih

theorem hasPrefix_dialogue (line : Str) (h : hasPrefix line "Dialogue:".toList = true) :
    line ≠ "[Events]".toList ∧ hasPrefix line "[".toList = false := by
  cases line with
  | nil => exact absurd h (by decide)
  | cons c cs =>
    have hc : c = 'D' := by
      simp [hasPrefix, List.isPrefixOf] at h
      exact h.1.symm
    subst hc
    constructor
    · intro e
      have := congrArg List.head? e
      simp at this
    · simp [hasPrefix, List.isPrefixOf]

theorem parseLoop_skip_bad (ext : Str → F64) (b : Bool) (raw : Str) (rest : List Str)
    (h : badStartLine raw = true) :
    parseLoop ext b (raw :: rest) = parseLoop ext b rest := by
  unfold badStartLine at h
  simp only [Bool.and_eq_true, decide_eq_true_eq] at h
  obtain ⟨⟨hD, h1⟩, h2⟩ := h
  obtain ⟨hE, hB⟩ := hasPrefix_dialogue _ hD
  obtain ⟨e, he⟩ := (timeToSeconds_error_iff ext _).2 ⟨h1, h2⟩
  conv_lhs => unfold parseLoop
  simp only [if_neg hE, hB, hD, if_true, he, Bool.false_eq_true, if_false]
  split_ifs <;> rfl

theorem parseLoop_filter_bad (ext : Str → F64) (b : Bool) (lines : List Str) :
    parseLoop ext b (lines.filter (fun l => !badStartLine l)) = parseLoop ext b lines := by
  induction lines generalizing b with
  | nil => rfl
  | cons raw rest ih =>
    by_cases hbad : badStartLine raw = true
    · rw [List.filter_cons_of_neg (by simp [hbad]), ih b, parseLoop_skip_bad ext b raw rest hbad]
    · rw [List.filter_cons_of_pos (by simpa using hbad)]
      conv_lhs => unfold parseLoop
      conv_rhs => unfold parseLoop
      simp only [ih]

/-- C3 (amended): for every sequence of input lines, `parseASSEvents`
returns, in file order, exactly one record for each whitespace-trimmed line
that lies after the first `[Events]` header and before the next line that
begins with `[` and is not a repeated `[Events]` header, starts with
`Dialogue:`, splits on `,` into at least 10 fields, and whose field 1 is
accepted by `timeToSeconds`; the record has `StartTime = timeToSeconds(field 1)`,
`(Username, UID) = parseUserInfo(field 4)` and
`Content = extractPlainText(everything after the 9th comma)`.  Every other
line, including a `Dialogue:` line with fewer than 10 fields, contributes no
record. -/
theorem parseASSEvents_spec (ext : Str → F64) (lines : List Str) :
    parseASSEvents ext lines = (sectionLines lines).filterMap (lineRecord ext)
      ∧ ∀ line : Str, (split ',' line).length < 10 → lineRecord ext line = none := by
  refine ⟨parseASSEvents_eq ext lines, ?_⟩
  intro line h
  unfold lineRecord
  rw [if_neg (fun hh => by omega)]

/-- C3 witness: the amended statement on a file with one event line; the
commas inside the message text are kept. -/
theorem parseASSEvents_spec_witness :
    parseASSEvents extZero
        ["[Events]".toList,
          "Dialogue: 0,0:00:01.00,0:00:05.00,Default,Bob (5),0,0,0,,hi, there".toList]
      = [⟨.fin 1, "Bob".toList, 5, "hi, there".toList⟩] := by
  rw [(parseASSEvents_spec extZero _).1]
  decide!

/-- C3 counterexample: with a repeated `[Events]` header the `Dialogue:` line
lies after the next line beginning with `[`, so the event section as the
specification words it is empty; the source skips the repeated header and
returns a record for the line. -/
theorem parseASSEvents_repeated_header :
    specEvents extZero
        ["[Events]".toList, "[Events]".toList,
          "Dialogue: 0,0:00:01.00,0:00:05.00,Default,Bob (5),0,0,0,,hi".toList] = []
      ∧ parseASSEvents extZero
        ["[Events]".toList, "[Events]".toList,
          "Dialogue: 0,0:00:01.00,0:00:05.00,Default,Bob (5),0,0,0,,hi".toList]
        = [⟨.fin 1, "Bob".toList, 5, "hi".toList⟩] := by
  constructor <;> decide!

/-- C10 (amended): `timeToSeconds` returns an error exactly when the input
does not have 2 or 3 colon-separated components (the three numeric
conversions never fail it), so `"1:2:3:4"` is rejected; and `parseASSEvents`
emits no record for a `Dialogue:` line whose start-time field does not have
2 or 3 colon-separated components: removing such lines from the input
leaves the result unchanged. -/
theorem timeToSeconds_error_spec (ext : Str → F64) (s : Str) (lines : List Str) :
    ((∃ e, timeToSeconds ext s = .error e) ↔ (s.count ':' ≠ 1 ∧ s.count ':' ≠ 2))
      ∧ (∃ e, timeToSeconds ext "1:2:3:4".toList = .error e)
      ∧ parseASSEvents ext (lines.filter (fun l => !badStartLine l))
          = parseASSEvents ext lines :=
  ⟨timeToSeconds_error_iff ext s,
    (timeToSeconds_error_iff ext _).2 (by decide),
    parseLoop_filter_bad ext false lines⟩

/-- C10 counterexample: `"ab:cd"` and `"1::2"` are not of the shape
`H:MM:SS.cc` or `MM:SS.cc`, and `timeToSeconds` returns no error for them
but the values `0` and `3602`. -/
theorem timeToSeconds_accepts_malformed :
    timeToSeconds extZero "ab:cd".toList = .ok (.fin 0)
      ∧ timeToSeconds extZero "1::2".toList = .ok (.fin 3602) := by
  constructor <;> decide!

/-! ## The message table: replace semantics -/

theorem insertRows_eq {τ : Type} (mk : DanmuItem → DanmakuRow τ)
    (table : List (DanmakuRow τ)) (l : List DanmuItem) :
    insertRows mk table l = table ++ (l.filter (fun d => decide (d.UID ≠ 0))).map mk := by
  induction l generalizing table with
  | nil => simp [insertRows]
  | cons d rest ih =>
    unfold insertRows
    by_cases h : d.UID = 0
    · rw [if_pos h, ih, List.filter_cons_of_neg (by simp [h])]
    · rw [if_neg h, ih, List.filter_cons_of_pos (by simp [h])]
      simp

theorem reconcileUser_danmaku (now : Time) (db : MySQLDB) (uid : Int) (name : Str) :
    (reconcileUser now db uid name).danmaku = db.danmaku := by
  unfold reconcileUser
  split
  · rfl
  · split_ifs <;> rfl

theorem foldl_reconcileUser_danmaku (now : Time) (iter : List (Int × Str)) (db : MySQLDB) :
    (iter.foldl (fun st e => reconcileUser now st e.1 e.2) db).danmaku = db.danmaku := by
  induction iter generalizing db with
  | nil => rfl
  | cons e rest ih => rw [List.foldl_cons, ih, reconcileUser_danmaku]

theorem reconcileStreamer_danmaku (db : SQLiteDB) (uid : Int) (name : Str) :
    (reconcileStreamer db uid name).danmaku = db.danmaku := by
  unfold reconcileStreamer
  split
  · rfl
  · split_ifs <;> rfl

theorem foldl_reconcileStreamer_danmaku (iter : List (Int × Str)) (db : SQLiteDB) :
    (iter.foldl (fun st e => reconcileStreamer st e.1 e.2) db).danmaku = db.danmaku := by
  induction iter generalizing db with
  | nil => rfl
  | cons e rest ih => rw [List.foldl_cons, ih, reconcileStreamer_danmaku]

theorem insertDanmuToMySQL_danmaku (undef : F64 → Int)
    (order : List (Int × Str) → List (Int × Str)) (now : Time) (db : MySQLDB)
    (liveID : Str) (l : List DanmuItem) (baseTime : Time) :
    (insertDanmuToMySQL undef order now db liveID l baseTime).danmaku
      = db.danmaku.filter (fun r => decide (r.liveId ≠ liveID))
        ++ (l.filter (fun d => decide (d.UID ≠ 0))).map (mysqlRow undef liveID baseTime) := by
  unfold insertDanmuToMySQL
  simp only
  rw [insertRows_eq, foldl_reconcileUser_danmaku]

theorem insertDanmuToSQLite_danmaku (undef : F64 → Int)
    (order : List (Int × Str) → List (Int × Str)) (db : SQLiteDB)
    (liveID : Str) (l : List DanmuItem) (baseTime : Time) :
    (insertDanmuToSQLite undef order db liveID l baseTime).danmaku
      = db.danmaku.filter (fun r => decide (r.liveId ≠ liveID))
        ++ (l.filter (fun d => decide (d.UID ≠ 0))).map (sqliteRow undef liveID baseTime) := by
  unfold insertDanmuToSQLite
  simp only
  rw [insertRows_eq, foldl_reconcileStreamer_danmaku]

theorem rows_of_recording {τ : Type} (liveID : Str) (old : List (DanmakuRow τ))
    (mk : DanmuItem → DanmakuRow τ) (hmk : ∀ d, (mk d).liveId = liveID)
    (l : List DanmuItem) :
    (old.filter (fun r => decide (r.liveId ≠ liveID)) ++ l.map mk).filter
        (fun r => decide (r.liveId = liveID)) = l.map mk
      ∧ (old.filter (fun r => decide (r.liveId ≠ liveID)) ++ l.map mk).filter
        (fun r => decide (r.liveId ≠ liveID))
          = old.filter (fun r => decide (r.liveId ≠ liveID)) := by
  have h1 : (old.filter (fun r => decide (r.liveId ≠ liveID))).filter
      (fun r => decide (r.liveId = liveID)) = [] := by
    rw [List.filter_eq_nil_iff]
    intro r hr
    have := (List.mem_filter.1 hr).2
    simpa using this
  have h2 : (l.map mk).filter (fun r => decide (r.liveId = liveID)) = l.map mk := by
    rw [List.filter_eq_self]
    intro r hr
    obtain ⟨d, _, rfl⟩ := List.mem_map.1 hr
    simp [hmk d]
  have h3 : (l.map mk).filter (fun r => decide (r.liveId ≠ liveID)) = [] := by
    rw [List.filter_eq_nil_iff]
    intro r hr
    obtain ⟨d, _, rfl⟩ := List.mem_map.1 hr
    simp [hmk d]
  have h4 : (old.filter (fun r => decide (r.liveId ≠ liveID))).filter
      (fun r => decide (r.liveId ≠ liveID))
        = old.filter (fun r => decide (r.liveId ≠ liveID)) := by
    rw [List.filter_filter]
    simp
  constructor
  · rw [List.filter_append, h1, h2, List.nil_append]
  · rw [List.filter_append, h3, h4, List.append_nil]

/-! ## The civil calendar -/

set_option maxHeartbeats 40000000 in
theorem yearOfEra_facts (doe b : Int) (h1 : 0 ≤ doe) (h2 : doe ≤ 146096)
    (hb : b = (doe - doe / 1460 + doe / 36524 - doe / 146096) / 365) :
    0 ≤ b ∧ b ≤ 399 ∧ 0 ≤ doe - (365 * b + b / 4 - b / 100)
      ∧ doe - (365 * b + b / 4 - b / 100) ≤ 365
      ∧ (doe - (365 * b + b / 4 - b / 100) = 365 →
          (b + 1) % 4 = 0 ∧ ((b + 1) % 100 ≠ 0 ∨ (b + 1) % 400 = 0)) := by
  have hb0 : 0 ≤ b := by omega
  have hb1 : b ≤ 399 := by omega
  refine ⟨hb0, hb1, ?_⟩
  interval_cases b <;> omega

theorem monthDay_facts (doy mp y : Int) (h0 : 0 ≤ doy) (h1 : doy ≤ 365)
    (hmp : mp = (5 * doy + 2) / 153)
    (hleap : doy = 365 → y % 4 = 0 ∧ (y % 100 ≠ 0 ∨ y % 400 = 0)) :
    0 ≤ mp ∧ mp ≤ 11 ∧ 1 ≤ doy - (153 * mp + 2) / 5 + 1
      ∧ (mp < 10 →
          (doy - (153 * mp + 2) / 5 + 1).toNat ≤ daysIn (mp + 3).toNat y)
      ∧ (¬ mp < 10 →
          (doy - (153 * mp + 2) / 5 + 1).toNat ≤ daysIn (mp - 9).toNat (y)) := by
  have hm0 : 0 ≤ mp := by omega
  have hm1 : mp ≤ 11 := by omega
  refine ⟨hm0, hm1, by omega, ?_, ?_⟩
  · intro hlt
    interval_cases mp <;> simp [daysIn] <;> omega
  · intro hge
    have h10 : mp = 10 ∨ mp = 11 := by omega
    rcases h10 with h | h
    · subst h
      simp [daysIn]
      omega
    · subst h
      have hd : doy - (153 * 11 + 2) / 5 + 1 = doy - 336 := by omega
      rw [hd]
      by_cases h365 : doy = 365
      · obtain ⟨l1, l2⟩ := hleap h365
        have hl : isLeap y = true := by
          unfold isLeap
          simp only [Bool.and_eq_true, Bool.or_eq_true, decide_eq_true_eq, bne_iff_ne, ne_eq]
          exact ⟨l1, l2⟩
        simp [daysIn, hl]
        omega
      · have : (doy - 336).toNat ≤ 28 := by omega
        simp only [daysIn]
        norm_num
        split_ifs <;> omega

theorem civilFromDays_spec (z : Int) (h1 : -719528 ≤ z) (h2 : z ≤ 2932896) :
    ∃ y m d : Nat, civilFromDays z = ((y : Int), m, d) ∧ y ≤ 9999 ∧ 1 ≤ m ∧ m ≤ 12
      ∧ 1 ≤ d ∧ d ≤ daysIn m (y : Int) ∧ daysFromCivil (y : Int) m d = z := by
  obtain ⟨era, hera⟩ : ∃ era, era = (z + 719468) / 146097 := ⟨_, rfl⟩
  obtain ⟨doe, hdoe⟩ : ∃ doe, doe = z + 719468 - era * 146097 := ⟨_, rfl⟩
  have hd0 : 0 ≤ doe := by omega
  have hd1 : doe ≤ 146096 := by omega
  obtain ⟨b, hb⟩ : ∃ b, b = (doe - doe / 1460 + doe / 36524 - doe / 146096) / 365 := ⟨_, rfl⟩
  obtain ⟨hb0, hb1, hy0, hy1, hleap⟩ := yearOfEra_facts doe b hd0 hd1 hb
  obtain ⟨doy, hdoy⟩ : ∃ doy, doy = doe - (365 * b + b / 4 - b / 100) := ⟨_, rfl⟩
  rw [← hdoy] at hy0 hy1 hleap
  obtain ⟨mp, hmp⟩ : ∃ mp, mp = (5 * doy + 2) / 153 := ⟨_, rfl⟩
  have hciv : civilFromDays z
      = (b + era * 400 + (if (if mp < 10 then mp + 3 else mp - 9) ≤ 2 then 1 else 0),
          (if mp < 10 then mp + 3 else mp - 9).toNat,
          (doy - (153 * mp + 2) / 5 + 1).toNat) := by
    unfold civilFromDays
    simp only
    rw [← hera, ← hdoe, ← hb, ← hdoy, ← hmp]
  clear hb
  have hera0 : -1 ≤ era := by omega
  have hera1 : era ≤ 24 := by omega
  have hz : z = era * 146097 + doe - 719468 := by omega
  clear hera hdoe
  obtain ⟨q4, hq4⟩ : ∃ q4, q4 = b / 4 := ⟨_, rfl⟩
  obtain ⟨q100, hq100⟩ : ∃ q100, q100 = b / 100 := ⟨_, rfl⟩
  rw [← hq4, ← hq100] at hdoy
  have hq4a : 4 * q4 ≤ b ∧ b ≤ 4 * q4 + 3 := by omega
  have hq100a : 100 * q100 ≤ b ∧ b ≤ 100 * q100 + 99 := by omega
  have hmpa : 153 * mp ≤ 5 * doy + 2 ∧ 5 * doy + 2 ≤ 153 * mp + 152 := by omega
  obtain ⟨md, hmd⟩ : ∃ md, md = (153 * mp + 2) / 5 := ⟨_, rfl⟩
  have hmda : 5 * md ≤ 153 * mp + 2 ∧ 153 * mp + 2 ≤ 5 * md + 4 := by omega
  have hq : (b + era * 400) / 400 = era := by omega
  have hqq4 : (b + era * 400 - era * 400) / 4 = q4 := by
    rw [show b + era * 400 - era * 400 = b by ring]; exact hq4.symm
  have hqq100 : (b + era * 400 - era * 400) / 100 = q100 := by
    rw [show b + era * 400 - era * 400 = b by ring]; exact hq100.symm
  by_cases hlt : mp < 10
  · -- March to December: the year of the era is the calendar year
    have hleap2 : doy = 365 → (b + era * 400) % 4 = 0
        ∧ ((b + era * 400) % 100 ≠ 0 ∨ (b + era * 400) % 400 = 0) := by
      intro h; omega
    obtain ⟨hm0, hm1, hday1, hday, _⟩ :=
      monthDay_facts doy mp (b + era * 400) hy0 hy1 hmp hleap2
    rw [← hmd] at hday1
    have hyear : 0 ≤ b + era * 400 := by
      by_contra hneg
      have he : era = -1 := by omega
      have hb399 : b = 399 := by omega
      have h4 : q4 = 99 := by omega
      have h100 : q100 = 3 := by omega
      omega
    have hyear2 : b + era * 400 ≤ 9999 := by omega
    refine ⟨(b + era * 400).toNat, (mp + 3).toNat, (doy - (153 * mp + 2) / 5 + 1).toNat,
      ?_, ?_, ?_, ?_, ?_, ?_, ?_⟩
    · rw [hciv]
      simp only [hlt, if_true]
      rw [if_neg (by omega), Int.toNat_of_nonneg hyear]
      simp
    · omega
    · omega
    · omega
    · rw [← hmd]; omega
    · rw [Int.toNat_of_nonneg hyear]; exact hday hlt
    · rw [Int.toNat_of_nonneg hyear]
      unfold daysFromCivil
      simp only
      have e1 : (((mp + 3).toNat : Nat) : Int) = mp + 3 := Int.toNat_of_nonneg (by omega)
      have e2 : (((doy - (153 * mp + 2) / 5 + 1).toNat : Nat) : Int)
          = doy - md + 1 := by
        rw [← hmd]; exact Int.toNat_of_nonneg (by omega)
      rw [if_neg (by omega), if_pos (by omega), e1, e2, hq, hqq4, hqq100,
        show mp + 3 - 3 = mp by ring, ← hmd]
      omega
  · -- January and February belong to the next calendar year
    have hleap2 : doy = 365 → (b + era * 400 + 1) % 4 = 0
        ∧ ((b + era * 400 + 1) % 100 ≠ 0 ∨ (b + era * 400 + 1) % 400 = 0) := by
      intro h; omega
    obtain ⟨hm0, hm1, hday1, _, hday⟩ :=
      monthDay_facts doy mp (b + era * 400 + 1) hy0 hy1 hmp hleap2
    rw [← hmd] at hday1
    have hyear : 0 ≤ b + era * 400 + 1 := by omega
    have hyear2 : b + era * 400 + 1 ≤ 9999 := by omega
    refine ⟨(b + era * 400 + 1).toNat, (mp - 9).toNat,
      (doy - (153 * mp + 2) / 5 + 1).toNat, ?_, ?_, ?_, ?_, ?_, ?_, ?_⟩
    · rw [hciv]
      simp only [hlt, if_false]
      rw [if_pos (by omega), Int.toNat_of_nonneg hyear]
    · omega
    · omega
    · omega
    · rw [← hmd]; omega
    · rw [Int.toNat_of_nonneg hyear]; exact hday hlt
    · rw [Int.toNat_of_nonneg hyear]
      unfold daysFromCivil
      simp only
      have e1 : (((mp - 9).toNat : Nat) : Int) = mp - 9 := Int.toNat_of_nonneg (by omega)
      have e2 : (((doy - (153 * mp + 2) / 5 + 1).toNat : Nat) : Int)
          = doy - md + 1 := by
        rw [← hmd]; exact Int.toNat_of_nonneg (by omega)
      rw [if_pos (by omega), if_neg (by omega), e1, e2,
        show b + era * 400 + 1 - 1 = b + era * 400 by ring, hq, hqq4, hqq100,
        show mp - 9 + 9 = mp by ring, ← hmd]
      omega

/-! ## The stored text of the send time -/

theorem digitChar_facts : ∀ k, k < 10 →
    isDigit (Nat.digitChar k) = true ∧ digitVal (Nat.digitChar k) = k := by
  decide

theorem toDigitsCore_small (fuel n : Nat) (acc : List Char) (hf : 0 < fuel) (h : n < 10) :
    Nat.toDigitsCore 10 fuel n acc = Nat.digitChar n :: acc := by
  obtain ⟨f, rfl⟩ : ∃ f, fuel = f + 1 := ⟨fuel - 1, by omega⟩
  have h1 : n / 10 = 0 := by omega
  have h2 : n % 10 = n := by omega
  simp [Nat.toDigitsCore, h1, h2]

theorem toDigitsCore_step (fuel n : Nat) (acc : List Char) (hf : 0 < fuel) (h : 10 ≤ n) :
    Nat.toDigitsCore 10 fuel n acc
      = Nat.toDigitsCore 10 (fuel - 1) (n / 10) (Nat.digitChar (n % 10) :: acc) := by
  obtain ⟨f, rfl⟩ : ∃ f, fuel = f + 1 := ⟨fuel - 1, by omega⟩
  have h1 : n / 10 ≠ 0 := by omega
  simp [Nat.toDigitsCore, h1]

theorem toDigits_two (n : Nat) (h : n < 100) :
    padNat 2 n = [Nat.digitChar (n / 10), Nat.digitChar (n % 10)] := by
  unfold padNat Nat.toDigits
  by_cases h10 : n < 10
  · rw [toDigitsCore_small _ _ _ (by omega) h10]
    have h1 : n / 10 = 0 := by omega
    have h2 : n % 10 = n := by omega
    rw [h1, h2]
    rfl
  · rw [toDigitsCore_step _ _ _ (by omega) (by omega),
      toDigitsCore_small _ _ _ (by omega) (by omega)]
    rfl

theorem toDigits_four (n : Nat) (h : n < 10000) :
    padNat 4 n = [Nat.digitChar (n / 1000), Nat.digitChar (n / 100 % 10),
      Nat.digitChar (n / 10 % 10), Nat.digitChar (n % 10)] := by
  unfold padNat Nat.toDigits
  by_cases h10 : n < 10
  · rw [toDigitsCore_small _ _ _ (by omega) h10]
    have h1 : n / 1000 = 0 := by omega
    have h2 : n / 100 % 10 = 0 := by omega
    have h3 : n / 10 % 10 = 0 := by omega
    have h4 : n % 10 = n := by omega
    rw [h1, h2, h3, h4]
    rfl
  · by_cases h100 : n < 100
    · rw [toDigitsCore_step _ _ _ (by omega) (by omega),
        toDigitsCore_small _ _ _ (by omega) (by omega)]
      have h1 : n / 1000 = 0 := by omega
      have h2 : n / 100 % 10 = 0 := by omega
      have h3 : n / 10 % 10 = n / 10 := by omega
      rw [h1, h2, h3]
      rfl
    · by_cases h1000 : n < 1000
      · rw [toDigitsCore_step _ _ _ (by omega) (by omega),
          toDigitsCore_step _ _ _ (by omega) (by omega),
          toDigitsCore_small _ _ _ (by omega) (by omega)]
        have h1 : n / 1000 = 0 := by omega
        have h2 : n / 100 % 10 = n / 10 / 10 := by omega
        rw [h1, h2]
        rfl
      · rw [toDigitsCore_step _ _ _ (by omega) (by omega),
          toDigitsCore_step _ _ _ (by omega) (by omega),
          toDigitsCore_step _ _ _ (by omega) (by omega),
          toDigitsCore_small _ _ _ (by omega) (by omega)]
        have h1 : n / 1000 = n / 10 / 10 / 10 := by omega
        have h2 : n / 100 % 10 = n / 10 / 10 % 10 := by omega
        rw [h1, h2]
        rfl

theorem padNat_two (n : Nat) (h : n < 100) :
    (padNat 2 n).length = 2 ∧ (padNat 2 n).all isDigit = true
      ∧ natOfDigits (padNat 2 n) = n := by
  obtain ⟨a1, a2⟩ := digitChar_facts (n / 10) (by omega)
  obtain ⟨b1, b2⟩ := digitChar_facts (n % 10) (by omega)
  rw [toDigits_two n h]
  refine ⟨rfl, by simp [a1, b1], ?_⟩
  simp only [natOfDigits, List.foldl_cons, List.foldl_nil, a2, b2]
  omega

theorem padNat_four (n : Nat) (h : n < 10000) :
    (padNat 4 n).length = 4 ∧ (padNat 4 n).all isDigit = true
      ∧ natOfDigits (padNat 4 n) = n := by
  obtain ⟨a1, a2⟩ := digitChar_facts (n / 1000) (by omega)
  obtain ⟨b1, b2⟩ := digitChar_facts (n / 100 % 10) (by omega)
  obtain ⟨c1, c2⟩ := digitChar_facts (n / 10 % 10) (by omega)
  obtain ⟨d1, d2⟩ := digitChar_facts (n % 10) (by omega)
  rw [toDigits_four n h]
  refine ⟨rfl, by simp [a1, b1, c1, d1], ?_⟩
  simp only [natOfDigits, List.foldl_cons, List.foldl_nil, a2, b2, c2, d2]
  omega

theorem civilShape_of_fields (y4 m2 d2 h2 n2 s2 : Str)
    (hy : y4.length = 4 ∧ y4.all isDigit = true)
    (hm : m2.length = 2 ∧ m2.all isDigit = true)
    (hd : d2.length = 2 ∧ d2.all isDigit = true)
    (hh : h2.length = 2 ∧ h2.all isDigit = true)
    (hn : n2.length = 2 ∧ n2.all isDigit = true)
    (hs : s2.length = 2 ∧ s2.all isDigit = true) :
    civilShape (y4 ++ '-' :: m2 ++ '-' :: d2 ++ ' ' :: h2 ++ ':' :: n2 ++ ':' :: s2)
      = some ⟨natOfDigits y4, natOfDigits m2, natOfDigits d2, natOfDigits h2,
          natOfDigits n2, natOfDigits s2, 0⟩ := by
  obtain ⟨hy1, hy2⟩ := hy
  obtain ⟨hm1, hm2⟩ := hm
  obtain ⟨hd1, hd2⟩ := hd
  obtain ⟨hh1, hh2⟩ := hh
  obtain ⟨hn1, hn2⟩ := hn
  obtain ⟨hs1, hs2⟩ := hs
  obtain ⟨a1, a2, a3, a4, rfl⟩ : ∃ a1 a2 a3 a4, y4 = [a1, a2, a3, a4] := by
    match y4, hy1 with
    | [a1, a2, a3, a4], _ => exact ⟨a1, a2, a3, a4, rfl⟩
  obtain ⟨b1, b2, rfl⟩ := List.length_eq_two.1 hm1
  obtain ⟨c1, c2, rfl⟩ := List.length_eq_two.1 hd1
  obtain ⟨e1, e2, rfl⟩ := List.length_eq_two.1 hh1
  obtain ⟨f1, f2, rfl⟩ := List.length_eq_two.1 hn1
  obtain ⟨g1, g2, rfl⟩ := List.length_eq_two.1 hs1
  simp only [List.all_cons, List.all_nil, Bool.and_true, Bool.and_eq_true] at hy2 hm2 hd2 hh2 hn2 hs2
  simp only [List.cons_append, List.nil_append]
  unfold civilShape
  simp only [List.all_cons, List.all_nil, Bool.and_true, Bool.and_eq_true]
  rw [if_pos]
  exact ⟨trivial, trivial, trivial, trivial, trivial, hy2.1, hy2.2.1, hy2.2.2.1, hy2.2.2.2, hm2.1, hm2.2, hd2.1,
    hd2.2, hh2.1, hh2.2, hn2.1, hn2.2, hs2.1, hs2.2⟩

theorem formatUTC_spec (t : Time) (h1 : -62167219200000000000 ≤ t.nanos)
    (h2 : t.nanos < 253402300800000000000) :
    ∃ c, civilShape (formatUTC t) = some c ∧ c.valid = true
      ∧ c.utcNanos = t.nanos / 1000000000 * 1000000000 := by
  obtain ⟨secs, hsecs⟩ : ∃ secs, secs = t.nanos / 1000000000 := ⟨_, rfl⟩
  have hs1 : -62167219200 ≤ secs := by omega
  have hs2 : secs ≤ 253402300799 := by omega
  obtain ⟨y, m, d, hciv, hy, hm1, hm2, hd1, hd2, hdays⟩ :=
    civilFromDays_spec (secs / 86400) (by omega) (by omega)
  obtain ⟨sod, hsod⟩ : ∃ sod, sod = (secs % 86400).toNat := ⟨_, rfl⟩
  have hsodlt : sod < 86400 := by omega
  have hd31 : d ≤ 31 := by
    refine le_trans hd2 ?_
    unfold daysIn
    split_ifs <;> omega
  have hfmt : formatUTC t
      = padNat 4 y ++ '-' :: padNat 2 m ++ '-' :: padNat 2 d
        ++ ' ' :: padNat 2 (sod / 3600) ++ ':' :: padNat 2 (sod / 60 % 60)
        ++ ':' :: padNat 2 (sod % 60) := by
    unfold formatUTC
    simp only
    rw [← hsecs, hciv, ← hsod]
    simp only
    rw [if_neg (by omega), Int.toNat_ofNat]
  obtain ⟨py1, py2, py3⟩ := padNat_four y (by omega)
  obtain ⟨pm1, pm2, pm3⟩ := padNat_two m (by omega)
  obtain ⟨pd1, pd2, pd3⟩ := padNat_two d (by omega)
  obtain ⟨ph1, ph2, ph3⟩ := padNat_two (sod / 3600) (by omega)
  obtain ⟨pn1, pn2, pn3⟩ := padNat_two (sod / 60 % 60) (by omega)
  obtain ⟨ps1, ps2, ps3⟩ := padNat_two (sod % 60) (by omega)
  refine ⟨⟨y, m, d, sod / 3600, sod / 60 % 60, sod % 60, 0⟩, ?_, ?_, ?_⟩
  · rw [hfmt, civilShape_of_fields _ _ _ _ _ _ ⟨py1, py2⟩ ⟨pm1, pm2⟩ ⟨pd1, pd2⟩ ⟨ph1, ph2⟩
      ⟨pn1, pn2⟩ ⟨ps1, ps2⟩, py3, pm3, pd3, ph3, pn3, ps3]
  · unfold Civil.valid
    simp only [Bool.and_eq_true, decide_eq_true_eq]
    refine ⟨⟨⟨⟨⟨⟨hm1, hm2⟩, hd1⟩, hd2⟩, ?_⟩, ?_⟩, ?_⟩ <;> omega
  · unfold Civil.utcNanos
    simp only
    rw [hdays, ← hsecs]
    push_cast
    omega

/-! ## The offset of the send time -/

theorem ofRat_nat (n : Nat) (h : n < 2 ^ 53) : F64.ofRat (n : ℚ) = .fin (n : ℚ) := by
  by_cases h0 : n = 0
  · subst h0
    simp [F64.ofRat]
  · have hpos : 0 < n := Nat.pos_of_ne_zero h0
    have hq0 : ((n : ℕ) : ℚ) ≠ 0 := by exact_mod_cast h0
    have hnum : ((n : ℕ) : ℚ).num.natAbs = n := by simp
    have hden : ((n : ℕ) : ℚ).den = 1 := by simp
    obtain ⟨f1, f2⟩ := floorLog2_spec n 1 hpos one_pos
    simp only [Nat.cast_one, div_one] at f1 f2
    have hn53 : ((n : ℕ) : ℚ) < (2 : ℚ) ^ (53 : Int) := by
      have : ((n : ℕ) : ℚ) < ((2 ^ 53 : ℕ) : ℚ) := by exact_mod_cast h
      rw [show ((53 : Int)) = ((53 : ℕ) : Int) by rfl, zpow_natCast]
      exact_mod_cast this
    have hn1 : (2 : ℚ) ^ (0 : Int) ≤ ((n : ℕ) : ℚ) := by
      rw [zpow_zero]
      exact_mod_cast hpos
    have hfl1 : floorLog2 n 1 < 53 :=
      (zpow_lt_zpow_iff_right₀ (by norm_num : (1 : ℚ) < 2)).1 (lt_of_le_of_lt f1 hn53)
    have hfl0 : 0 < floorLog2 n 1 + 1 :=
      (zpow_lt_zpow_iff_right₀ (by norm_num : (1 : ℚ) < 2)).1 (lt_of_le_of_lt hn1 f2)
    obtain ⟨e, he⟩ : ∃ e : Nat, floorLog2 n 1 = (e : Int) := ⟨(floorLog2 n 1).toNat, by omega⟩
    have hulp : ulpExp n 1 = -((52 - e : Nat) : Int) := by
      unfold ulpExp
      rw [he]
      omega
    have hsig : roundSig n 1 = n * 2 ^ (52 - e) := by
      unfold roundSig
      rw [hulp]
      unfold scalePow2
      by_cases hz : (0 : Int) ≤ -((52 - e : Nat) : Int)
      · have hze : 52 - e = 0 := by omega
        rw [if_pos hz, hze]
        simp [roundHalfEven, Nat.mod_one]
      · rw [if_neg hz]
        simp [roundHalfEven, Nat.mod_one]
    have hv : (roundSig n 1 : ℚ) * (2 : ℚ) ^ ulpExp n 1 = (n : ℚ) := by
      rw [hsig, hulp, zpow_neg, zpow_natCast]
      push_cast
      field_simp
    unfold F64.ofRat
    rw [if_neg hq0]
    simp only
    rw [hnum, hden, hv]
    have hlt : ¬ ((2 : ℚ) ^ (1024 : Nat) ≤ (n : ℚ)) := by
      rw [not_le]
      have h1 : ((n : ℕ) : ℚ) < (2 : ℚ) ^ (53 : Nat) := by exact_mod_cast h
      have h2 : (2 : ℚ) ^ (53 : Nat) ≤ (2 : ℚ) ^ (1024 : Nat) :=
        pow_le_pow_right₀ (by norm_num : (1 : ℚ) ≤ 2) (by norm_num : 53 ≤ 1024)
      linarith
    have hneg : ¬ (((n : ℕ) : ℚ) < 0) := by
      rw [not_lt]
      positivity
    rw [if_neg hlt, if_neg hneg]

theorem trunc_bounds (v : ℚ) (hv : 0 ≤ v) :
    (((v.num.natAbs / v.den : Nat) : Int) : ℚ) ≤ v
      ∧ v < (((v.num.natAbs / v.den : Nat) : Int) : ℚ) + 1 := by
  have hnum : 0 ≤ v.num := Rat.num_nonneg.2 hv
  have e : ((v.num.natAbs / v.den : Nat) : Int) = ⌊v⌋ := by
    rw [Rat.floor_def]
    push_cast
    rw [abs_of_nonneg hnum]
  rw [e]
  exact ⟨Int.floor_le v, Int.lt_floor_add_one v⟩

theorem toInt64_fin (undef : F64 → Int) (v : ℚ) (hv : 0 ≤ v) (hlt : v < 9223372036854775808) :
    toInt64 undef (.fin v) = ((v.num.natAbs / v.den : Nat) : Int) := by
  obtain ⟨t1, t2⟩ := trunc_bounds v hv
  have h1 : (-9223372036854775808 : Int) ≤ ((v.num.natAbs / v.den : Nat) : Int) := by
    have : (0 : Int) ≤ ((v.num.natAbs / v.den : Nat) : Int) := Int.natCast_nonneg _
    omega
  have h2 : ((v.num.natAbs / v.den : Nat) : Int) < 9223372036854775808 := by
    have : ((((v.num.natAbs / v.den : Nat) : Int)) : ℚ) < ((9223372036854775808 : Int) : ℚ) := by
      push_cast
      push_cast at t1
      linarith
    exact_mod_cast this
  unfold toInt64
  simp only
  rw [if_neg (not_lt.2 hv), if_pos ⟨h1, h2⟩]

theorem secondsToNanos_exact (undef : F64 → Int) (q : ℚ) (n : Nat)
    (hq : q * 1000000000 = (n : ℚ)) (hn : n < 2 ^ 53) :
    secondsToNanos undef (.fin q) = (n : Int) := by
  have hm : F64.mul (.fin q) (.fin 1000000000) = F64.ofRat (q * 1000000000) := rfl
  unfold secondsToNanos
  rw [hm, hq, ofRat_nat n hn]
  have hlt : ((n : ℕ) : ℚ) < 9223372036854775808 := by
    have : ((n : ℕ) : ℚ) < ((2 ^ 53 : ℕ) : ℚ) := by exact_mod_cast hn
    push_cast at this
    linarith
  rw [toInt64_fin undef _ (by positivity) hlt]
  simp

theorem secondsToNanos_bound (undef : F64 → Int) (q : ℚ) (k : Int)
    (hq : 0 ≤ q) (hk : q * 1000000000 ≤ (2 : ℚ) ^ k) (hk0 : 0 ≤ k) (hk1 : k ≤ 62) :
    |((secondsToNanos undef (.fin q) : Int) : ℚ) - q * 1000000000|
      < 1 + (2 : ℚ) ^ (k - 53) := by
  obtain ⟨v, hv, hv0, herr⟩ := ofRat_err (q * 1000000000) k (by positivity) hk
    (by omega) (by omega)
  have hpk : (2 : ℚ) ^ k ≤ (2 : ℚ) ^ (62 : Int) := zpow_le_zpow_right₀ (by norm_num) hk1
  have hpe : (2 : ℚ) ^ (k - 53) ≤ (2 : ℚ) ^ (9 : Int) :=
    zpow_le_zpow_right₀ (by norm_num) (by omega)
  have hpe0 : (0 : ℚ) < (2 : ℚ) ^ (k - 53) := zpow_pos (by norm_num) _
  have e62 : (2 : ℚ) ^ (62 : Int) = 4611686018427387904 := by norm_num
  have e9 : (2 : ℚ) ^ (9 : Int) = 512 := by norm_num
  obtain ⟨a1, a2⟩ := abs_le.1 herr
  have hlt : v < 9223372036854775808 := by linarith
  obtain ⟨t1, t2⟩ := trunc_bounds v hv0
  have hm : F64.mul (.fin q) (.fin 1000000000) = F64.ofRat (q * 1000000000) := rfl
  unfold secondsToNanos
  rw [hm, hv, toInt64_fin undef v hv0 hlt, abs_lt]
  constructor <;> linarith

/-! ## The rows of a recording -/

/-- C4 (amended): with the message table as explicit state and every
statement succeeding: for every prior database, recording ID, record list and
base time, after `insertDanmuToMySQL` the rows whose `liveId` is the given
recording ID are exactly one row
`(liveID, StartTime, sendTime, UID, Content)` per record with `UID != 0`, in
list order, where `sendTime` is the instant
`baseTime + int64(StartTime * 1e9)` nanoseconds in the location of
`baseTime`; after `insertDanmuToSQLite` they are the same rows with `sendTime`
the text `YYYY-MM-DD HH:MM:SS` of that instant in UTC.  The rows of every
other recording ID are those of the prior table.  The offset
`int64(StartTime * 1e9)` of a finite `StartTime = q >= 0` with
`q * 1e9 <= 2^k`, `0 <= k <= 62`, differs from `q * 1e9` by less than
`1 + 2^(k-53)`, and equals `q * 1e9` when that is a whole number below `2^53`.
The text stored by the SQLite writer for an instant of the years 0000 to 9999
is a well-formed, in-range timestamp that reads back, as UTC, as the instant
truncated to whole seconds.  Writing the same list with the same base time a
second time leaves the message table as the first write left it. -/
theorem insert_replaces_recording (undef : F64 → Int)
    (order order2 : List (Int × Str) → List (Int × Str)) (now now2 : Time)
    (my : MySQLDB) (lite : SQLiteDB) (liveID : Str) (l : List DanmuItem) (baseTime : Time)
    (q : ℚ) (k : Int) (n : Nat) (t : Time) :
    (insertDanmuToMySQL undef order now my liveID l baseTime).danmaku.filter
        (fun r => decide (r.liveId = liveID))
      = (l.filter (fun d => decide (d.UID ≠ 0))).map
          (fun d => (⟨liveID, d.StartTime,
            ⟨baseTime.nanos + secondsToNanos undef d.StartTime, baseTime.loc⟩,
            d.UID, d.Content⟩ : DanmakuRow Time))
    ∧ (insertDanmuToMySQL undef order now my liveID l baseTime).danmaku.filter
        (fun r => decide (r.liveId ≠ liveID))
      = my.danmaku.filter (fun r => decide (r.liveId ≠ liveID))
    ∧ (insertDanmuToSQLite undef order lite liveID l baseTime).danmaku.filter
        (fun r => decide (r.liveId = liveID))
      = (l.filter (fun d => decide (d.UID ≠ 0))).map
          (fun d => (⟨liveID, d.StartTime,
            formatUTC ⟨baseTime.nanos + secondsToNanos undef d.StartTime, baseTime.loc⟩,
            d.UID, d.Content⟩ : DanmakuRow Str))
    ∧ (insertDanmuToSQLite undef order lite liveID l baseTime).danmaku.filter
        (fun r => decide (r.liveId ≠ liveID))
      = lite.danmaku.filter (fun r => decide (r.liveId ≠ liveID))
    ∧ (0 ≤ q → q * 1000000000 ≤ (2 : ℚ) ^ k → 0 ≤ k → k ≤ 62 →
        |((secondsToNanos undef (.fin q) : Int) : ℚ) - q * 1000000000|
          < 1 + (2 : ℚ) ^ (k - 53))
    ∧ (q * 1000000000 = (n : ℚ) → n < 2 ^ 53 →
        secondsToNanos undef (.fin q) = (n : Int))
    ∧ (-62167219200000000000 ≤ t.nanos → t.nanos < 253402300800000000000 →
        ∃ c, civilShape (formatUTC t) = some c ∧ c.valid = true
          ∧ c.utcNanos = t.nanos / 1000000000 * 1000000000)
    ∧ (insertDanmuToMySQL undef order2 now2
        (insertDanmuToMySQL undef order now my liveID l baseTime) liveID l baseTime).danmaku
      = (insertDanmuToMySQL undef order now my liveID l baseTime).danmaku
    ∧ (insertDanmuToSQLite undef order2
        (insertDanmuToSQLite undef order lite liveID l baseTime) liveID l baseTime).danmaku
      = (insertDanmuToSQLite undef order lite liveID l baseTime).danmaku := by
  have m := rows_of_recording liveID my.danmaku (mysqlRow undef liveID baseTime)
    (fun _ => rfl) (l.filter (fun d => decide (d.UID ≠ 0)))
  have s := rows_of_recording liveID lite.danmaku (sqliteRow undef liveID baseTime)
    (fun _ => rfl) (l.filter (fun d => decide (d.UID ≠ 0)))
  refine ⟨?_, ?_, ?_, ?_, ?_, ?_, ?_, ?_, ?_⟩
  · rw [insertDanmuToMySQL_danmaku]; exact m.1
  · rw [insertDanmuToMySQL_danmaku]; exact m.2
  · rw [insertDanmuToSQLite_danmaku]; exact s.1
  · rw [insertDanmuToSQLite_danmaku]; exact s.2
  · exact secondsToNanos_bound undef q k
  · exact secondsToNanos_exact undef q n
  · exact formatUTC_spec t
  · rw [insertDanmuToMySQL_danmaku, insertDanmuToMySQL_danmaku, m.2]
  · rw [insertDanmuToSQLite_danmaku, insertDanmuToSQLite_danmaku, s.2]

/-- C4 witness: the recording `L` holds an old row, the recording `M` another;
writing the records `(1.5, A, 7, hi)` and `(1, B, 0, x)` for `L` with the
base time 0 leaves, for `L`, the single row of the record with `UID` 7, sent
at 1500000000 ns (MySQL) or `1970-01-01 00:00:01` (SQLite), and keeps the row
of `M`. -/
theorem insert_replaces_recording_witness :
    ((0 : ℚ) ≤ 3 / 2 ∧ (3 / 2 : ℚ) * 1000000000 ≤ (2 : ℚ) ^ (31 : Int)
        ∧ (0 : Int) ≤ 31 ∧ (31 : Int) ≤ 62
        ∧ (3 / 2 : ℚ) * 1000000000 = ((1500000000 : Nat) : ℚ) ∧ 1500000000 < 2 ^ 53
        ∧ (-62167219200000000000 : Int) ≤ 1500000000
        ∧ (1500000000 : Int) < 253402300800000000000)
      ∧ (insertDanmuToMySQL (fun _ => 0) id ⟨0, .utc⟩
          ⟨[], [], [], [⟨"L".toList, .fin 9, ⟨5, .utc⟩, 3, "old".toList⟩,
            ⟨"M".toList, .fin 9, ⟨5, .utc⟩, 3, "keep".toList⟩]⟩ "L".toList
          [⟨.fin (3 / 2), "A".toList, 7, "hi".toList⟩, ⟨.fin 1, "B".toList, 0, "x".toList⟩]
          ⟨0, .utc⟩).danmaku.filter (fun r => decide (r.liveId = "L".toList))
        = [⟨"L".toList, .fin (3 / 2), ⟨1500000000, .utc⟩, 7, "hi".toList⟩]
      ∧ (insertDanmuToMySQL (fun _ => 0) id ⟨0, .utc⟩
          ⟨[], [], [], [⟨"L".toList, .fin 9, ⟨5, .utc⟩, 3, "old".toList⟩,
            ⟨"M".toList, .fin 9, ⟨5, .utc⟩, 3, "keep".toList⟩]⟩ "L".toList
          [⟨.fin (3 / 2), "A".toList, 7, "hi".toList⟩, ⟨.fin 1, "B".toList, 0, "x".toList⟩]
          ⟨0, .utc⟩).danmaku.filter (fun r => decide (r.liveId ≠ "L".toList))
        = [⟨"M".toList, .fin 9, ⟨5, .utc⟩, 3, "keep".toList⟩]
      ∧ (insertDanmuToSQLite (fun _ => 0) id
          ⟨[], [], [⟨"L".toList, .fin 9, "1970-01-01 00:00:09".toList, 3, "old".toList⟩]⟩
          "L".toList
          [⟨.fin (3 / 2), "A".toList, 7, "hi".toList⟩, ⟨.fin 1, "B".toList, 0, "x".toList⟩]
          ⟨0, .utc⟩).danmaku.filter (fun r => decide (r.liveId = "L".toList))
        = [⟨"L".toList, .fin (3 / 2), "1970-01-01 00:00:01".toList, 7, "hi".toList⟩]
      ∧ |((secondsToNanos (fun _ => 0) (.fin (3 / 2)) : Int) : ℚ) - (3 / 2) * 1000000000|
          < 1 + (2 : ℚ) ^ ((31 : Int) - 53)
      ∧ secondsToNanos (fun _ => 0) (.fin (3 / 2)) = ((1500000000 : Nat) : Int)
      ∧ ∃ c, civilShape (formatUTC ⟨1500000000, .utc⟩) = some c ∧ c.valid = true
          ∧ c.utcNanos = (1500000000 : Int) / 1000000000 * 1000000000 := by
  have h := insert_replaces_recording (fun _ => 0) id id ⟨0, .utc⟩ ⟨0, .utc⟩
    ⟨[], [], [], [⟨"L".toList, .fin 9, ⟨5, .utc⟩, 3, "old".toList⟩,
      ⟨"M".toList, .fin 9, ⟨5, .utc⟩, 3, "keep".toList⟩]⟩
    ⟨[], [], [⟨"L".toList, .fin 9, "1970-01-01 00:00:09".toList, 3, "old".toList⟩]⟩
    "L".toList
    [⟨.fin (3 / 2), "A".toList, 7, "hi".toList⟩, ⟨.fin 1, "B".toList, 0, "x".toList⟩]
    ⟨0, .utc⟩ (3 / 2) 31 1500000000 ⟨1500000000, .utc⟩
  have a1 : (0 : ℚ) ≤ 3 / 2 := by norm_num
  have a2 : (3 / 2 : ℚ) * 1000000000 ≤ (2 : ℚ) ^ (31 : Int) := by norm_num
  have a3 : (3 / 2 : ℚ) * 1000000000 = ((1500000000 : Nat) : ℚ) := by norm_num
  have a4 : 1500000000 < 2 ^ 53 := by norm_num
  exact ⟨⟨a1, a2, by decide, by decide, a3, a4, by decide, by decide⟩,
    h.1.trans (by decide!), h.2.1.trans (by decide!), h.2.2.1.trans (by decide!),
    h.2.2.2.2.1 a1 a2 (by decide) (by decide), h.2.2.2.2.2.1 a3 a4,
    h.2.2.2.2.2.2.1 (by decide) (by decide)⟩

/-- C4 counterexample: the stored send time is not `baseTime + StartTime`.
With the base time 0, `insertDanmuToSQLite` stores the same text
`1970-01-01 00:00:01` for the start times 1.5 s and 1 s.  The start time that
`timeToSeconds` returns for `0:00:02.01` is the binary64 value
`1131529406376837 / 2^49`; `insertDanmuToMySQL` stores for it the instant
2009999999 ns, which is neither that value in nanoseconds nor 2.01 s. -/
theorem send_time_not_base_plus_start :
    (insertDanmuToSQLite (fun _ => 0) id SQLiteDB.empty "L".toList
        [⟨.fin (3 / 2), "A".toList, 7, "x".toList⟩, ⟨.fin 1, "A".toList, 7, "y".toList⟩]
        ⟨0, .utc⟩).danmaku
      = [⟨"L".toList, .fin (3 / 2), "1970-01-01 00:00:01".toList, 7, "x".toList⟩,
          ⟨"L".toList, .fin 1, "1970-01-01 00:00:01".toList, 7, "y".toList⟩]
      ∧ timeToSeconds extZero "0:00:02.01".toList
        = .ok (.fin (1131529406376837 / 562949953421312))
      ∧ (insertDanmuToMySQL (fun _ => 0) id ⟨0, .utc⟩ MySQLDB.empty "L".toList
          [⟨.fin (1131529406376837 / 562949953421312), "A".toList, 7, "x".toList⟩]
          ⟨0, .utc⟩).danmaku
        = [⟨"L".toList, .fin (1131529406376837 / 562949953421312), ⟨2009999999, .utc⟩, 7,
            "x".toList⟩]
      ∧ (1131529406376837 / 562949953421312 : ℚ) * 1000000000 ≠ 2009999999
      ∧ (201 / 100 : ℚ) * 1000000000 ≠ 2009999999 := by
  refine ⟨by decide!, by decide!, by decide!, by norm_num, by norm_num⟩

/-! ## The registry: one uid at a time -/

theorem find?_map_congr {α : Type} (p : α → Bool) (f g : α → α) (l : List α)
    (hp : ∀ r, p (f r) = p r) (hfg : ∀ r, p r = true → f r = g r) :
    (l.map f).find? p = (l.find? p).map g := by
  induction l with
  | nil => rfl
  | cons a as ih =>
    rw [List.map_cons, List.find?_cons, List.find?_cons, hp a]
    cases h : p a with
    | true => simp [hfg a h]
    | false => simpa using ih

theorem filter_map_congr {α : Type} (p : α → Bool) (f g : α → α) (l : List α)
    (hp : ∀ r, p (f r) = p r) (hfg : ∀ r, p r = true → f r = g r) :
    (l.map f).filter p = (l.filter p).map g := by
  induction l with
  | nil => rfl
  | cons a as ih =>
    rw [List.map_cons, List.filter_cons, List.filter_cons, hp a]
    cases h : p a with
    | true => simp [hfg a h, ih]
    | false => simpa using ih

theorem renameRow_uid (uid : Int) (name f : Str) (r : UserRow) :
    (renameRow uid name f r).uid = r.uid := by
  unfold renameRow
  split_ifs <;> rfl

theorem closeRow_uid (now : Time) (uid : Int) (ex : Str) (r : UserOldRow) :
    (closeRow now uid ex r).uid = r.uid := by
  unfold closeRow
  split_ifs <;> rfl

theorem renameRow_other (uid uid2 : Int) (name f : Str) (r : UserRow)
    (h : r.uid = uid2) (hne : uid ≠ uid2) : renameRow uid name f r = r := by
  unfold renameRow
  rw [if_neg (by rw [h]; exact fun e => hne e.symm)]

theorem closeRow_other (now : Time) (uid uid2 : Int) (ex : Str) (r : UserOldRow)
    (h : r.uid = uid2) (hne : uid ≠ uid2) : closeRow now uid ex r = r := by
  unfold closeRow
  rw [if_neg (by rw [h]; exact fun e => hne e.1.symm)]

theorem view_reconcileUser_same (now : Time) (db : MySQLDB) (uid : Int) (name : Str) :
    (userOf (reconcileUser now db uid name) uid, histOf (reconcileUser now db uid name) uid)
      = reconcileView now uid name (userOf db uid, histOf db uid) := by
  unfold reconcileUser reconcileView userOf histOf
  cases h : db.user.find? (fun r => decide (r.uid = uid)) with
  | none =>
    simp only [List.find?_append, h, List.filter_append]
    simp
  | some row =>
    simp only
    by_cases hn : row.name.getD [] ≠ name
    · rw [if_pos hn, if_pos hn]
      simp only [List.filter_append]
      rw [find?_map_congr (fun r => decide (r.uid = uid))
          (renameRow uid name (newFNames row)) (renameRow uid name (newFNames row)) db.user
          (fun r => by simp only [renameRow_uid]) (fun _ _ => rfl),
        filter_map_congr (fun r => decide (r.uid = uid))
          (closeRow now uid (row.name.getD [])) (closeRow now uid (row.name.getD []))
          db.userOld (fun r => by simp only [closeRow_uid]) (fun _ _ => rfl), h]
      simp
    · rw [if_neg hn, if_neg hn, h]

theorem view_reconcileUser_other (now : Time) (db : MySQLDB) (uid uid2 : Int) (name : Str)
    (hne : uid ≠ uid2) :
    userOf (reconcileUser now db uid name) uid2 = userOf db uid2
      ∧ histOf (reconcileUser now db uid name) uid2 = histOf db uid2 := by
  unfold reconcileUser userOf histOf
  cases h : db.user.find? (fun r => decide (r.uid = uid)) with
  | none =>
    simp only [List.find?_append, List.filter_append]
    simp [hne]
  | some row =>
    simp only
    by_cases hn : row.name.getD [] ≠ name
    · rw [if_pos hn]
      simp only [List.filter_append]
      rw [find?_map_congr (fun r => decide (r.uid = uid2))
          (renameRow uid name (newFNames row)) id db.user
          (fun r => by simp only [renameRow_uid])
          (fun r hr => renameRow_other uid uid2 _ _ r (by simpa using hr) hne),
        filter_map_congr (fun r => decide (r.uid = uid2))
          (closeRow now uid (row.name.getD [])) id
          db.userOld (fun r => by simp only [closeRow_uid])
          (fun r hr => closeRow_other now uid uid2 _ r (by simpa using hr) hne)]
      simp [hne]
    · rw [if_neg hn]
      exact ⟨rfl, rfl⟩

theorem view_foldl (now : Time) (uid : Int) (iter : List (Int × Str)) (db : MySQLDB)
    (hnd : (iter.map Prod.fst).Nodup) :
    (userOf (iter.foldl (fun st e => reconcileUser now st e.1 e.2) db) uid,
        histOf (iter.foldl (fun st e => reconcileUser now st e.1 e.2) db) uid)
      = match iter.find? (fun e => decide (e.1 = uid)) with
        | some e => reconcileView now uid e.2 (userOf db uid, histOf db uid)
        | none => (userOf db uid, histOf db uid) := by
  induction iter generalizing db with
  | nil => rfl
  | cons e rest ih =>
    rw [List.map_cons, List.nodup_cons] at hnd
    rw [List.foldl_cons, ih _ hnd.2, List.find?_cons]
    by_cases he : e.1 = uid
    · have hnot : rest.find? (fun e => decide (e.1 = uid)) = none := by
        rw [List.find?_eq_none]
        intro x hx hxu
        apply hnd.1
        rw [he]
        have : x.1 = uid := by simpa using hxu
        rw [← this]
        exact List.mem_map_of_mem _ hx
      rw [hnot]
      simp only [he, decide_True]
      rw [← he, view_reconcileUser_same]
    · have hne : e.1 ≠ uid := he
      obtain ⟨h1, h2⟩ := view_reconcileUser_other now db e.1 uid e.2 hne
      simp only [he, decide_False]
      rw [h1, h2]

theorem viewOk_reconcileView (now : Time) (uid : Int) (name : Str)
    (v : Option UserRow × List UserOldRow) (h : ViewOk uid v) :
    ViewOk uid (reconcileView now uid name v) := by
  obtain ⟨o, l⟩ := v
  obtain ⟨hall, hm⟩ := h
  cases o with
  | none =>
    simp only at hm
    unfold reconcileView ViewOk
    simp only
    refine ⟨?_, trivial, ⟨uid, name, now, none⟩, ?_, rfl⟩
    · intro r hr
      rcases List.mem_append.1 hr with h1 | h1
      · exact hall r h1
      · simp only [List.mem_singleton] at h1; rw [h1]
    · rw [List.filter_append, hm]
      rfl
  | some row =>
    simp only at hm
    obtain ⟨hrow, r0, hr0, hname⟩ := hm
    unfold reconcileView
    simp only
    by_cases hn : row.name.getD [] ≠ name
    · rw [if_pos hn]
      unfold ViewOk
      simp only
      have hclosed : (l.map (closeRow now uid (row.name.getD []))).filter
          (fun r => decide (r.endDate = none)) = [] := by
        rw [List.filter_eq_nil_iff]
        intro x hx
        obtain ⟨r, hr, rfl⟩ := List.mem_map.1 hx
        by_cases hopen : r.endDate = none
        · have hmem : r ∈ l.filter (fun r => decide (r.endDate = none)) :=
            List.mem_filter.2 ⟨hr, by simpa using hopen⟩
          rw [hr0, List.mem_singleton] at hmem
          have h1 : r.oldName = row.name.getD [] := by rw [hmem]; exact hname
          unfold closeRow
          rw [if_pos ⟨hall r hr, h1, hopen⟩]
          simp
        · unfold closeRow
          rw [if_neg (fun e => hopen e.2.2)]
          simpa using hopen
      refine ⟨?_, ?_, ⟨uid, name, now, none⟩, ?_, ?_⟩
      · intro r hr
        rcases List.mem_append.1 hr with h1 | h1
        · obtain ⟨x, hx, rfl⟩ := List.mem_map.1 h1
          rw [closeRow_uid]; exact hall x hx
        · simp only [List.mem_singleton] at h1; rw [h1]
      · rw [renameRow_uid]; exact hrow
      · rw [List.filter_append, hclosed]
        rfl
      · unfold renameRow
        rw [if_pos hrow]
        rfl
    · rw [if_neg hn]
      exact ⟨hall, hrow, r0, hr0, hname⟩

theorem histOf_uid (db : MySQLDB) (uid : Int) : ∀ r ∈ histOf db uid, r.uid = uid := by
  intro r hr
  have := (List.mem_filter.1 hr).2
  simpa using this

theorem userOf_uid (db : MySQLDB) (uid : Int) (row : UserRow) (h : userOf db uid = some row) :
    row.uid = uid := by
  have := List.find?_some h
  simpa using this

theorem viewOk_reconcileUser (now : Time) (db : MySQLDB) (u : Int) (name : Str)
    (h : ∀ uid, ViewOk uid (userOf db uid, histOf db uid)) (uid : Int) :
    ViewOk uid (userOf (reconcileUser now db u name) uid,
      histOf (reconcileUser now db u name) uid) := by
  by_cases hu : u = uid
  · subst hu
    rw [view_reconcileUser_same]
    exact viewOk_reconcileView now u name _ (h u)
  · obtain ⟨h1, h2⟩ := view_reconcileUser_other now db u uid name hu
    rw [h1, h2]
    exact h uid

theorem viewOk_foldl (now : Time) (iter : List (Int × Str)) (db : MySQLDB)
    (h : ∀ uid, ViewOk uid (userOf db uid, histOf db uid)) (uid : Int) :
    ViewOk uid (userOf (iter.foldl (fun st e => reconcileUser now st e.1 e.2) db) uid,
      histOf (iter.foldl (fun st e => reconcileUser now st e.1 e.2) db) uid) := by
  induction iter generalizing db uid with
  | nil => exact h uid
  | cons e rest ih =>
    rw [List.foldl_cons]
    exact ih _ (viewOk_reconcileUser now db e.1 e.2 h) uid

theorem viewOk_of_reachable (db : MySQLDB) (h : Reachable db) (uid : Int) :
    ViewOk uid (userOf db uid, histOf db uid) := by
  induction h generalizing uid with
  | empty => exact ⟨fun r hr => by simp [histOf, MySQLDB.empty] at hr, rfl⟩
  | write undef order now db liveID l baseTime _ _ ih =>
    exact viewOk_foldl now (order (buildUserMap l)) db ih uid

/-- C6: single-current-name invariant.  In every registry state reachable
from the empty registry by any sequence of `insertDanmuToMySQL` writes
(arbitrary record lists, every statement succeeding), each identity has at
most one history interval in `userOld` with `endDate = null`, and that open
interval's name equals the identity's current name in the `user` table. -/
theorem single_current_name (db : MySQLDB) (h : Reachable db) (uid : Int) :
    (openIntervals db uid).length ≤ 1
      ∧ ∀ r ∈ openIntervals db uid, currentName db uid = some r.oldName := by
  have hv := viewOk_of_reachable db h uid
  have hopen : openIntervals db uid
      = (histOf db uid).filter (fun r => decide (r.endDate = none)) := by
    unfold openIntervals histOf
    rw [List.filter_filter]
  obtain ⟨_, hm⟩ := hv
  rw [hopen]
  unfold currentName
  cases hu : userOf db uid with
  | none =>
    rw [hu] at hm
    simp only at hm
    rw [hm]
    simp
  | some row =>
    rw [hu] at hm
    simp only at hm
    obtain ⟨_, r0, hr0, hname⟩ := hm
    unfold userOf at hu
    rw [hr0, hu]
    refine ⟨by simp, ?_⟩
    intro r hr
    rw [List.mem_singleton] at hr
    rw [hr, hname]
    rfl

/-- C6 witness: the invariant at the state reached by one write with the
sender `(42, "Alice")`. -/
theorem single_current_name_witness :
    (openIntervals (insertDanmuToMySQL (fun _ => 0) id ⟨3, .utc⟩ MySQLDB.empty "a".toList
        [⟨.fin 1, "Alice".toList, 42, "hi".toList⟩] ⟨0, .utc⟩) 42).length ≤ 1
      ∧ ∀ r ∈ openIntervals (insertDanmuToMySQL (fun _ => 0) id ⟨3, .utc⟩ MySQLDB.empty
          "a".toList [⟨.fin 1, "Alice".toList, 42, "hi".toList⟩] ⟨0, .utc⟩) 42,
        currentName (insertDanmuToMySQL (fun _ => 0) id ⟨3, .utc⟩ MySQLDB.empty "a".toList
          [⟨.fin 1, "Alice".toList, 42, "hi".toList⟩] ⟨0, .utc⟩) 42 = some r.oldName :=
  single_current_name _
    (Reachable.write (fun _ => 0) id ⟨3, .utc⟩ MySQLDB.empty "a".toList
      [⟨.fin 1, "Alice".toList, 42, "hi".toList⟩] ⟨0, .utc⟩ Reachable.empty
      (fun m => List.Perm.refl m)) 42

/-! ## The registry: a name change -/

theorem userMapSet_keys_nodup (m : List (Int × Str)) (uid : Int) (name : Str)
    (h : (m.map Prod.fst).Nodup) : ((userMapSet m uid name).map Prod.fst).Nodup := by
  unfold userMapSet
  by_cases ha : m.any (fun e => decide (e.1 = uid)) = true
  · rw [if_pos ha]
    have : (m.map (fun e => if e.1 = uid then (uid, name) else e)).map Prod.fst
        = m.map Prod.fst := by
      rw [List.map_map]
      apply List.map_congr_left
      intro e _
      simp only [Function.comp]
      split_ifs with he
      · exact he.symm
      · rfl
    rw [this]
    exact h
  · rw [if_neg ha]
    rw [List.map_append, List.nodup_append]
    refine ⟨h, by simp, ?_⟩
    intro a ha1 ha2
    simp only [List.map_cons, List.map_nil, List.mem_singleton] at ha2
    apply ha
    rw [List.any_eq_true]
    obtain ⟨e, he, hea⟩ := List.mem_map.1 ha1
    exact ⟨e, he, by simp [hea, ha2]⟩

theorem foldl_userMap_keys_nodup (l : List DanmuItem) (m : List (Int × Str))
    (h : (m.map Prod.fst).Nodup) :
    ((l.foldl (fun m d => if d.UID ≠ 0 then userMapSet m d.UID d.Username else m) m).map
      Prod.fst).Nodup := by
  induction l generalizing m with
  | nil => exact h
  | cons d rest ih =>
    rw [List.foldl_cons]
    apply ih
    split_ifs
    · exact userMapSet_keys_nodup m _ _ h
    · exact h

theorem buildUserMap_keys_nodup (l : List DanmuItem) :
    ((buildUserMap l).map Prod.fst).Nodup :=
  foldl_userMap_keys_nodup l [] List.nodup_nil

theorem find?_of_mem_keys_nodup (l : List (Int × Str)) (uid : Int) (n : Str)
    (hnd : (l.map Prod.fst).Nodup) (hm : (uid, n) ∈ l) :
    l.find? (fun e => decide (e.1 = uid)) = some (uid, n) := by
  induction l with
  | nil => simp at hm
  | cons e rest ih =>
    rw [List.map_cons, List.nodup_cons] at hnd
    rw [List.find?_cons]
    rcases List.mem_cons.1 hm with h1 | h1
    · rw [← h1]; simp
    · have hne : e.1 ≠ uid := by
        intro he
        apply hnd.1
        rw [he]
        exact List.mem_map_of_mem Prod.fst h1
      simp only [hne, decide_False]
      exact ih hnd.2 h1

theorem find?_order (order : List (Int × Str) → List (Int × Str))
    (hp : ∀ m, (order m).Perm m) (l : List DanmuItem) (uid : Int) (n : Str)
    (hm : (uid, n) ∈ buildUserMap l) :
    ((order (buildUserMap l)).map Prod.fst).Nodup
      ∧ (order (buildUserMap l)).find? (fun e => decide (e.1 = uid)) = some (uid, n) := by
  have hperm := hp (buildUserMap l)
  have hnd : ((order (buildUserMap l)).map Prod.fst).Nodup :=
    ((hperm.map Prod.fst).nodup_iff).2 (buildUserMap_keys_nodup l)
  exact ⟨hnd, find?_of_mem_keys_nodup _ uid n hnd ((hperm.mem_iff).2 hm)⟩

theorem filter_of_find? {α : Type} (p : α → Bool) (l : List α) :
    (l.find? p = none → l.filter p = [])
      ∧ ∀ a, l.find? p = some a → ∃ t, l.filter p = a :: t := by
  induction l with
  | nil => simp
  | cons x xs ih =>
    rw [List.find?_cons, List.filter_cons]
    cases h : p x with
    | true => simp
    | false => simpa using ih

theorem view_reconcileStreamer_same (db : SQLiteDB) (uid : Int) (name : Str) :
    streamerOf (reconcileStreamer db uid name) uid
      = reconcileStreamerView uid name (streamerOf db uid) := by
  unfold reconcileStreamer streamerOf
  obtain ⟨hnone, hsome⟩ := filter_of_find? (fun r : Int × Str => decide (r.1 = uid)) db.streamer
  cases h : db.streamer.find? (fun r => decide (r.1 = uid)) with
  | none =>
    simp only [List.filter_append, hnone h]
    simp [reconcileStreamerView]
  | some row =>
    obtain ⟨t, ht⟩ := hsome row h
    simp only
    rw [ht]
    unfold reconcileStreamerView
    simp only
    by_cases hn : row.2 ≠ name
    · rw [if_pos hn, if_pos hn]
      simp only
      rw [filter_map_congr (fun r : Int × Str => decide (r.1 = uid))
          (fun r => if r.1 = uid then (r.1, name) else r) (fun r => (r.1, name)) db.streamer
          (fun r => by simp only; split_ifs <;> rfl)
          (fun r hr => by
            have : r.1 = uid := by simpa using hr
            simp only [this, if_true]), ht]
    · rw [if_neg hn, if_neg hn]
      exact ht

theorem view_reconcileStreamer_other (db : SQLiteDB) (uid uid2 : Int) (name : Str)
    (hne : uid ≠ uid2) :
    streamerOf (reconcileStreamer db uid name) uid2 = streamerOf db uid2 := by
  unfold reconcileStreamer streamerOf
  cases h : db.streamer.find? (fun r => decide (r.1 = uid)) with
  | none =>
    simp only [List.filter_append]
    simp [hne]
  | some row =>
    simp only
    by_cases hn : row.2 ≠ name
    · rw [if_pos hn]
      simp only
      rw [filter_map_congr (fun r : Int × Str => decide (r.1 = uid2))
          (fun r => if r.1 = uid then (r.1, name) else r) id db.streamer
          (fun r => by simp only; split_ifs <;> rfl)
          (fun r hr => by
            have h2 : r.1 = uid2 := by simpa using hr
            have h3 : r.1 ≠ uid := by rw [h2]; exact fun e => hne e.symm
            simp only [h3, if_false, id])]
      simp
    · rw [if_neg hn]

theorem streamer_view_foldl (uid : Int) (iter : List (Int × Str)) (db : SQLiteDB)
    (hnd : (iter.map Prod.fst).Nodup) :
    streamerOf (iter.foldl (fun st e => reconcileStreamer st e.1 e.2) db) uid
      = match iter.find? (fun e => decide (e.1 = uid)) with
        | some e => reconcileStreamerView uid e.2 (streamerOf db uid)
        | none => streamerOf db uid := by
  induction iter generalizing db with
  | nil => rfl
  | cons e rest ih =>
    rw [List.map_cons, List.nodup_cons] at hnd
    rw [List.foldl_cons, ih _ hnd.2, List.find?_cons]
    by_cases he : e.1 = uid
    · have hnot : rest.find? (fun e => decide (e.1 = uid)) = none := by
        rw [List.find?_eq_none]
        intro x hx hxu
        apply hnd.1
        rw [he]
        have : x.1 = uid := by simpa using hxu
        rw [← this]
        exact List.mem_map_of_mem _ hx
      rw [hnot]
      simp only [he, decide_True]
      rw [← he, view_reconcileStreamer_same]
    · have hne : e.1 ≠ uid := he
      simp only [he, decide_False]
      rw [view_reconcileStreamer_other db e.1 uid e.2 hne]

theorem mem_userMapSet_self (m : List (Int × Str)) (uid : Int) (n : Str) :
    (uid, n) ∈ userMapSet m uid n := by
  unfold userMapSet
  by_cases ha : m.any (fun e => decide (e.1 = uid)) = true
  · rw [if_pos ha]
    obtain ⟨e, he, heu⟩ := List.any_eq_true.1 ha
    have heu2 : e.1 = uid := by simpa using heu
    exact List.mem_map.2 ⟨e, he, by rw [if_pos heu2]⟩
  · rw [if_neg ha]
    simp

theorem mem_userMapSet_other (m : List (Int × Str)) (uid u : Int) (n nm : Str)
    (hne : u ≠ uid) (h : (uid, n) ∈ m) : (uid, n) ∈ userMapSet m u nm := by
  unfold userMapSet
  split_ifs
  · exact List.mem_map.2 ⟨(uid, n), h, by rw [if_neg (fun e => hne e.symm)]⟩
  · exact List.mem_append_left _ h

theorem mem_foldl_userMap (post : List DanmuItem) (m : List (Int × Str)) (uid : Int)
    (n : Str) (hpost : ∀ x ∈ post, x.UID ≠ uid) (h : (uid, n) ∈ m) :
    (uid, n) ∈ post.foldl
      (fun m d => if d.UID ≠ 0 then userMapSet m d.UID d.Username else m) m := by
  induction post generalizing m with
  | nil => exact h
  | cons d rest ih =>
    rw [List.foldl_cons]
    apply ih _ (fun x hx => hpost x (List.mem_cons_of_mem _ hx))
    split_ifs
    · exact mem_userMapSet_other m uid d.UID n d.Username (hpost d (by simp)) h
    · exact h

theorem mem_buildUserMap_of_givesName (l : List DanmuItem) (uid : Int) (n : Str)
    (h0 : uid ≠ 0) (h : GivesName l uid n) : (uid, n) ∈ buildUserMap l := by
  obtain ⟨pre, d, post, hl, hu, hn, hpost⟩ := h
  unfold buildUserMap
  rw [hl, List.foldl_append, List.foldl_cons]
  apply mem_foldl_userMap post _ uid n hpost
  rw [if_pos (by rw [hu]; exact h0), hu, hn]
  exact mem_userMapSet_self _ uid n

theorem mysql_view_after_write (undef : F64 → Int)
    (order : List (Int × Str) → List (Int × Str)) (hp : ∀ m, (order m).Perm m)
    (now : Time) (db : MySQLDB) (liveID : Str) (l : List DanmuItem) (baseTime : Time)
    (uid : Int) (n : Str) (hm : (uid, n) ∈ buildUserMap l) :
    (userOf (insertDanmuToMySQL undef order now db liveID l baseTime) uid,
        histOf (insertDanmuToMySQL undef order now db liveID l baseTime) uid)
      = reconcileView now uid n (userOf db uid, histOf db uid) := by
  obtain ⟨hnd, hf⟩ := find?_order order hp l uid n hm
  have h := view_foldl now uid (order (buildUserMap l)) db hnd
  rw [hf] at h
  exact h

theorem sqlite_view_after_write (undef : F64 → Int)
    (order : List (Int × Str) → List (Int × Str)) (hp : ∀ m, (order m).Perm m)
    (db : SQLiteDB) (liveID : Str) (l : List DanmuItem) (baseTime : Time)
    (uid : Int) (n : Str) (hm : (uid, n) ∈ buildUserMap l) :
    streamerOf (insertDanmuToSQLite undef order db liveID l baseTime) uid
      = reconcileStreamerView uid n (streamerOf db uid) := by
  obtain ⟨hnd, hf⟩ := find?_order order hp l uid n hm
  have h := streamer_view_foldl uid (order (buildUserMap l)) db hnd
  rw [hf] at h
  exact h

/-- C5 (amended): for every identity `uid != 0` and names `n != n'`, starting from
an empty registry and every statement succeeding, after a first write whose
records give `uid` the name `n` and a second write whose records give `uid`
the name `n'`: with `insertDanmuToMySQL` the registry's current name of `uid`
is `n'` and `userOld` holds the interval of the former name `n`, closed at the
time of the second write; with `insertDanmuToSQLite` the registry's only row
of `uid` carries the name `n'` (this backend keeps no history: the former
name is overwritten). -/
theorem name_change (undef : F64 → Int)
    (order1 order2 : List (Int × Str) → List (Int × Str))
    (now1 now2 : Time) (liveID1 liveID2 : Str) (l1 l2 : List DanmuItem)
    (base1 base2 : Time) (uid : Int) (n n' : Str)
    (hp1 : ∀ m, (order1 m).Perm m) (hp2 : ∀ m, (order2 m).Perm m)
    (h0 : uid ≠ 0) (hn : n ≠ n') (g1 : GivesName l1 uid n) (g2 : GivesName l2 uid n') :
    currentName (insertDanmuToMySQL undef order2 now2
        (insertDanmuToMySQL undef order1 now1 MySQLDB.empty liveID1 l1 base1)
        liveID2 l2 base2) uid = some n'
      ∧ (⟨uid, n, now1, some now2⟩ : UserOldRow) ∈ (insertDanmuToMySQL undef order2 now2
        (insertDanmuToMySQL undef order1 now1 MySQLDB.empty liveID1 l1 base1)
        liveID2 l2 base2).userOld
      ∧ streamerOf (insertDanmuToSQLite undef order2
        (insertDanmuToSQLite undef order1 SQLiteDB.empty liveID1 l1 base1)
        liveID2 l2 base2) uid = [(uid, n')] := by
  have h1 := mem_buildUserMap_of_givesName l1 uid n h0 g1
  have h2 := mem_buildUserMap_of_givesName l2 uid n' h0 g2
  have v1 := mysql_view_after_write undef order1 hp1 now1 MySQLDB.empty liveID1 l1 base1 uid n h1
  have v2 := mysql_view_after_write undef order2 hp2 now2
    (insertDanmuToMySQL undef order1 now1 MySQLDB.empty liveID1 l1 base1) liveID2 l2 base2
    uid n' h2
  rw [v1] at v2
  have e1 : reconcileView now1 uid n (userOf MySQLDB.empty uid, histOf MySQLDB.empty uid)
      = (some ⟨uid, some n, none⟩, [⟨uid, n, now1, none⟩]) := rfl
  rw [e1] at v2
  have e2 : reconcileView now2 uid n' (some ⟨uid, some n, none⟩, [⟨uid, n, now1, none⟩])
      = (some ⟨uid, some n', some n⟩,
          [⟨uid, n, now1, some now2⟩, ⟨uid, n', now2, none⟩]) := by
    unfold reconcileView
    simp only [Option.getD_some]
    rw [if_pos hn]
    simp [renameRow, closeRow, newFNames]
  rw [e2] at v2
  have hu := congrArg Prod.fst v2
  have hh := congrArg Prod.snd v2
  simp only at hu hh
  have s1 := sqlite_view_after_write undef order1 hp1 SQLiteDB.empty liveID1 l1 base1 uid n h1
  have s2 := sqlite_view_after_write undef order2 hp2
    (insertDanmuToSQLite undef order1 SQLiteDB.empty liveID1 l1 base1) liveID2 l2 base2
    uid n' h2
  rw [s1] at s2
  refine ⟨?_, ?_, ?_⟩
  · unfold currentName
    unfold userOf at hu
    rw [hu]
    rfl
  · have hmem : (⟨uid, n, now1, some now2⟩ : UserOldRow) ∈ histOf (insertDanmuToMySQL undef
        order2 now2 (insertDanmuToMySQL undef order1 now1 MySQLDB.empty liveID1 l1 base1)
        liveID2 l2 base2) uid := by
      rw [hh]; simp
    exact (List.mem_filter.1 hmem).1
  · rw [s2]
    have : streamerOf SQLiteDB.empty uid = [] := rfl
    rw [this]
    simp [reconcileStreamerView, hn]

/-- C5 witness: the amended statement for the sender `(42, "Alice")`, then
`(42, "Alice2")`. -/
theorem name_change_witness :
    currentName (insertDanmuToMySQL (fun _ => 0) id ⟨5, .utc⟩
        (insertDanmuToMySQL (fun _ => 0) id ⟨3, .utc⟩ MySQLDB.empty "a".toList
          [⟨.fin 1, "Alice".toList, 42, "hi".toList⟩] ⟨0, .utc⟩)
        "b".toList [⟨.fin 1, "Alice2".toList, 42, "hi".toList⟩] ⟨0, .utc⟩) 42
        = some "Alice2".toList
      ∧ (⟨42, "Alice".toList, ⟨3, .utc⟩, some ⟨5, .utc⟩⟩ : UserOldRow)
        ∈ (insertDanmuToMySQL (fun _ => 0) id ⟨5, .utc⟩
          (insertDanmuToMySQL (fun _ => 0) id ⟨3, .utc⟩ MySQLDB.empty "a".toList
            [⟨.fin 1, "Alice".toList, 42, "hi".toList⟩] ⟨0, .utc⟩)
          "b".toList [⟨.fin 1, "Alice2".toList, 42, "hi".toList⟩] ⟨0, .utc⟩).userOld
      ∧ streamerOf (insertDanmuToSQLite (fun _ => 0) id
          (insertDanmuToSQLite (fun _ => 0) id SQLiteDB.empty "a".toList
            [⟨.fin 1, "Alice".toList, 42, "hi".toList⟩] ⟨0, .utc⟩)
          "b".toList [⟨.fin 1, "Alice2".toList, 42, "hi".toList⟩] ⟨0, .utc⟩) 42
        = [(42, "Alice2".toList)] :=
  name_change (fun _ => 0) id id ⟨3, .utc⟩ ⟨5, .utc⟩ "a".toList "b".toList
    [⟨.fin 1, "Alice".toList, 42, "hi".toList⟩] [⟨.fin 1, "Alice2".toList, 42, "hi".toList⟩]
    ⟨0, .utc⟩ ⟨0, .utc⟩ 42 "Alice".toList "Alice2".toList
    (fun m => List.Perm.refl m) (fun m => List.Perm.refl m) (by decide) (by decide)
    ⟨[], ⟨.fin 1, "Alice".toList, 42, "hi".toList⟩, [], rfl, rfl, rfl, by simp⟩
    ⟨[], ⟨.fin 1, "Alice2".toList, 42, "hi".toList⟩, [], rfl, rfl, rfl, by simp⟩

/-- C5 counterexample: after the writes `(42, "Alice")` then `(42, "Alice2")`
with `insertDanmuToSQLite`, the persisted state is the `streamer` row
`(42, "Alice2")` and the two message rows: no history entry for the former
name `"Alice"` exists. -/
theorem sqlite_keeps_no_history :
    insertDanmuToSQLite (fun _ => 0) id
        (insertDanmuToSQLite (fun _ => 0) id SQLiteDB.empty "a".toList
          [⟨.fin 1, "Alice".toList, 42, "hi".toList⟩] ⟨0, .utc⟩)
        "b".toList [⟨.fin 1, "Alice2".toList, 42, "hi".toList⟩] ⟨0, .utc⟩
      = ⟨[], [(42, "Alice2".toList)],
          [⟨"a".toList, .fin 1, "1970-01-01 00:00:01".toList, 42, "hi".toList⟩,
            ⟨"b".toList, .fin 1, "1970-01-01 00:00:01".toList, 42, "hi".toList⟩]⟩ := by
  decide!

/-! ## Base time -/

theorem scanLiveStart_skip (ext : Str → Option Int) (pre rest : List Str)
    (hpre : ∀ l ∈ pre, hasPrefix l "; LiveStartTime:".toList = false) :
    scanLiveStart ext (pre ++ rest) = scanLiveStart ext rest := by
  induction pre with
  | nil => rfl
  | cons l ls ih =>
    rw [List.cons_append]
    conv_lhs => unfold scanLiveStart
    rw [if_neg (by rw [hpre l (by simp)]; exact Bool.noConfusion)]
    exact ih (fun x hx => hpre x (List.mem_cons_of_mem _ hx))

theorem splitN_liveStart (stampText : Str) :
    splitN ':' 2 ("; LiveStartTime:".toList ++ stampText)
      = ["; LiveStartTime".toList, stampText] := by
  simp [splitN]

/-- C8 (amended): for every input in which the first line beginning with
`; LiveStartTime:` lies among the first 50 lines and carries a timestamp
`YYYY-MM-DD HH:MM:SS` or `YYYY-MM-DD HH:MM:SS.fff` with fields in range,
`extractLiveStartTimeFromASS` returns the instant of the written timestamp
read as UTC, presented in the location Asia/Shanghai: the clocks of UTC+8
show the written value plus 8 hours at that instant (it is 8 hours later
than the instant at which they show the written value). -/
theorem extractLiveStartTime_reads_utc (ext : Str → Option Int) (pre rest : List Str)
    (stampText : Str) (c : Civil)
    (hlen : pre.length < 50)
    (hpre : ∀ l ∈ pre, hasPrefix l "; LiveStartTime:".toList = false)
    (hshape : civilShape (trimSpace stampText) = some c) (hvalid : c.valid = true) :
    extractLiveStartTimeFromASS ext (pre ++ ("; LiveStartTime:".toList ++ stampText) :: rest)
        = .ok ⟨c.utcNanos, .shanghai⟩
      ∧ c.utcNanos = c.shanghaiNanos + 8 * 3600 * 1000000000 := by
  constructor
  · unfold extractLiveStartTimeFromASS
    have htake : (pre ++ ("; LiveStartTime:".toList ++ stampText) :: rest).take 50
        = pre ++ ("; LiveStartTime:".toList ++ stampText) :: rest.take (50 - pre.length - 1) := by
      rw [List.take_append_eq_append_take, List.take_of_length_le (by omega)]
      obtain ⟨k, hk⟩ : ∃ k, 50 - pre.length = k + 1 := ⟨50 - pre.length - 1, by omega⟩
      rw [hk, List.take_succ_cons]
      simp
    rw [htake, scanLiveStart_skip ext pre _ hpre]
    unfold scanLiveStart
    rw [if_pos (by simp [hasPrefix]), splitN_liveStart]
    simp only [List.length_cons, List.length_nil]
    rw [if_neg (by omega)]
    simp only [List.getD_cons_succ, List.getD_cons_zero]
    unfold parseLiveStart
    rw [hshape]
    simp only [hvalid, if_true]
    rfl
  · unfold Civil.shanghaiNanos
    ring

/-- C8 witness: the amended statement on a file whose second line is
`; LiveStartTime: 2025-01-01 00:00:00`. -/
theorem extractLiveStartTime_reads_utc_witness :
    extractLiveStartTimeFromASS (fun _ => none)
        (["[Script Info]".toList]
          ++ ("; LiveStartTime:".toList ++ " 2025-01-01 00:00:00".toList) :: [])
        = .ok ⟨Civil.utcNanos ⟨2025, 1, 1, 0, 0, 0, 0⟩, .shanghai⟩
      ∧ Civil.utcNanos ⟨2025, 1, 1, 0, 0, 0, 0⟩
        = Civil.shanghaiNanos ⟨2025, 1, 1, 0, 0, 0, 0⟩ + 8 * 3600 * 1000000000 :=
  extractLiveStartTime_reads_utc (fun _ => none) ["[Script Info]".toList] []
    " 2025-01-01 00:00:00".toList ⟨2025, 1, 1, 0, 0, 0, 0⟩
    (by decide) (by decide) (by decide) (by decide)

/-- C8 counterexample: for `; LiveStartTime: 2025-01-01 00:00:00` the instant
returned is 1735689600 s after the epoch (2025-01-01 00:00:00 UTC), while the
instant whose civil time in UTC+8 is the written value is 1735660800 s. -/
theorem extractLiveStartTime_not_beijing :
    extractLiveStartTimeFromASS (fun _ => none)
        ["; LiveStartTime: 2025-01-01 00:00:00".toList]
        = .ok ⟨1735689600000000000, .shanghai⟩
      ∧ civilShape "2025-01-01 00:00:00".toList = some ⟨2025, 1, 1, 0, 0, 0, 0⟩
      ∧ Civil.shanghaiNanos ⟨2025, 1, 1, 0, 0, 0, 0⟩ = 1735660800000000000 := by
  refine ⟨by decide!, by decide, by decide⟩

theorem SaveDanmuToDB_of_gates (fext : Str → F64) (text : Str → Option Int)
    (undef : F64 → Int) (order : List (Int × Str) → List (Int × Str)) (now : Time)
    (dbType : Str) (lines : List Str) (my : MySQLDB) (lite : SQLiteDB)
    (hType : dbType = "mysql".toList ∨ dbType = "sqlite".toList)
    (hID : extractLiveID lines ≠ []) (hList : parseASSEvents fext lines ≠ []) :
    SaveDanmuToDB fext text undef order now dbType false lines my lite
      = match resolveBaseTime (getLiveStartTime my lite dbType (extractLiveID lines))
            (extractLiveStartTimeFromASS text lines) with
        | none => (my, lite)
        | some baseTime =>
          runWriter undef order now dbType my lite (extractLiveID lines)
            (parseASSEvents fext lines) baseTime := by
  have h0 : dbType ≠ [] := by
    rcases hType with h | h <;> (rw [h]; decide)
  have h1 : ¬ (dbType ≠ "sqlite".toList ∧ dbType ≠ "mysql".toList) := by
    rcases hType with h | h
    · exact fun e => e.2 h
    · exact fun e => e.1 h
  unfold SaveDanmuToDB
  rw [if_neg h0, if_neg hID, if_neg hList, if_neg h1, if_neg (by decide)]

/-- C7: base-time fallback order in `SaveDanmuToDB` (database type `mysql`
or `sqlite`, a recording ID and at least one record found, the database
opened).  If the store lookup `getLiveStartTime` yields a start time `t`,
the writer of the configured backend is run with the base time `t`, whatever
`LiveStartTime` comment the file has: the result is the database written by
`insertDanmuToMySQL` (or `insertDanmuToSQLite`) for the recording ID and the
records of the file with the base time `t`, and the rows of the recording
carry the send time `t + int64(StartTime * 1e9)` ns.  If the store has no
record, the same holds with the value `t` of `extractLiveStartTimeFromASS`.
If neither yields a value, no writer is invoked and both databases are left
as they were. -/
theorem SaveDanmuToDB_base_time (fext : Str → F64) (text : Str → Option Int)
    (undef : F64 → Int) (order : List (Int × Str) → List (Int × Str)) (now : Time)
    (dbType : Str) (lines : List Str) (my : MySQLDB) (lite : SQLiteDB)
    (hType : dbType = "mysql".toList ∨ dbType = "sqlite".toList)
    (hID : extractLiveID lines ≠ []) (hList : parseASSEvents fext lines ≠ []) :
    (∀ t, getLiveStartTime my lite dbType (extractLiveID lines) = .ok t →
        SaveDanmuToDB fext text undef order now dbType false lines my lite
          = (if dbType = "mysql".toList then
              (insertDanmuToMySQL undef order now my (extractLiveID lines)
                (parseASSEvents fext lines) t, lite)
            else
              (my, insertDanmuToSQLite undef order lite (extractLiveID lines)
                (parseASSEvents fext lines) t))
        ∧ (dbType = "mysql".toList →
            (SaveDanmuToDB fext text undef order now dbType false lines my lite).1.danmaku.filter
                (fun r => decide (r.liveId = extractLiveID lines))
              = ((parseASSEvents fext lines).filter (fun d => decide (d.UID ≠ 0))).map
                  (fun d => (⟨extractLiveID lines, d.StartTime,
                    ⟨t.nanos + secondsToNanos undef d.StartTime, t.loc⟩,
                    d.UID, d.Content⟩ : DanmakuRow Time)))
        ∧ (dbType = "sqlite".toList →
            (SaveDanmuToDB fext text undef order now dbType false lines my lite).2.danmaku.filter
                (fun r => decide (r.liveId = extractLiveID lines))
              = ((parseASSEvents fext lines).filter (fun d => decide (d.UID ≠ 0))).map
                  (fun d => (⟨extractLiveID lines, d.StartTime,
                    formatUTC ⟨t.nanos + secondsToNanos undef d.StartTime, t.loc⟩,
                    d.UID, d.Content⟩ : DanmakuRow Str))))
      ∧ (∀ e t, getLiveStartTime my lite dbType (extractLiveID lines) = .error e →
        extractLiveStartTimeFromASS text lines = .ok t →
        SaveDanmuToDB fext text undef order now dbType false lines my lite
          = (if dbType = "mysql".toList then
              (insertDanmuToMySQL undef order now my (extractLiveID lines)
                (parseASSEvents fext lines) t, lite)
            else
              (my, insertDanmuToSQLite undef order lite (extractLiveID lines)
                (parseASSEvents fext lines) t))
        ∧ (dbType = "mysql".toList →
            (SaveDanmuToDB fext text undef order now dbType false lines my lite).1.danmaku.filter
                (fun r => decide (r.liveId = extractLiveID lines))
              = ((parseASSEvents fext lines).filter (fun d => decide (d.UID ≠ 0))).map
                  (fun d => (⟨extractLiveID lines, d.StartTime,
                    ⟨t.nanos + secondsToNanos undef d.StartTime, t.loc⟩,
                    d.UID, d.Content⟩ : DanmakuRow Time)))
        ∧ (dbType = "sqlite".toList →
            (SaveDanmuToDB fext text undef order now dbType false lines my lite).2.danmaku.filter
                (fun r => decide (r.liveId = extractLiveID lines))
              = ((parseASSEvents fext lines).filter (fun d => decide (d.UID ≠ 0))).map
                  (fun d => (⟨extractLiveID lines, d.StartTime,
                    formatUTC ⟨t.nanos + secondsToNanos undef d.StartTime, t.loc⟩,
                    d.UID, d.Content⟩ : DanmakuRow Str))))
      ∧ (∀ e e', getLiveStartTime my lite dbType (extractLiveID lines) = .error e →
        extractLiveStartTimeFromASS text lines = .error e' →
        SaveDanmuToDB fext text undef order now dbType false lines my lite = (my, lite)) := by
  have h := SaveDanmuToDB_of_gates fext text undef order now dbType lines my lite
    hType hID hList
  have key : ∀ t, resolveBaseTime (getLiveStartTime my lite dbType (extractLiveID lines))
      (extractLiveStartTimeFromASS text lines) = some t →
      SaveDanmuToDB fext text undef order now dbType false lines my lite
          = (if dbType = "mysql".toList then
              (insertDanmuToMySQL undef order now my (extractLiveID lines)
                (parseASSEvents fext lines) t, lite)
            else
              (my, insertDanmuToSQLite undef order lite (extractLiveID lines)
                (parseASSEvents fext lines) t))
        ∧ (dbType = "mysql".toList →
            (SaveDanmuToDB fext text undef order now dbType false lines my lite).1.danmaku.filter
                (fun r => decide (r.liveId = extractLiveID lines))
              = ((parseASSEvents fext lines).filter (fun d => decide (d.UID ≠ 0))).map
                  (fun d => (⟨extractLiveID lines, d.StartTime,
                    ⟨t.nanos + secondsToNanos undef d.StartTime, t.loc⟩,
                    d.UID, d.Content⟩ : DanmakuRow Time)))
        ∧ (dbType = "sqlite".toList →
            (SaveDanmuToDB fext text undef order now dbType false lines my lite).2.danmaku.filter
                (fun r => decide (r.liveId = extractLiveID lines))
              = ((parseASSEvents fext lines).filter (fun d => decide (d.UID ≠ 0))).map
                  (fun d => (⟨extractLiveID lines, d.StartTime,
                    formatUTC ⟨t.nanos + secondsToNanos undef d.StartTime, t.loc⟩,
                    d.UID, d.Content⟩ : DanmakuRow Str))) := by
    intro t ht
    have hrun : SaveDanmuToDB fext text undef order now dbType false lines my lite
        = runWriter undef order now dbType my lite (extractLiveID lines)
            (parseASSEvents fext lines) t := by
      rw [h, ht]
    refine ⟨?_, ?_, ?_⟩
    · rw [hrun]
      unfold runWriter
      rcases hType with hm | hs
      · rw [if_pos hm, if_pos hm]
      · have hne : dbType ≠ "mysql".toList := by rw [hs]; decide
        rw [if_neg hne, if_pos hs, if_neg hne]
    · intro hm
      rw [hrun]
      unfold runWriter
      rw [if_pos hm]
      simp only
      rw [insertDanmuToMySQL_danmaku]
      exact (rows_of_recording (extractLiveID lines) my.danmaku
        (mysqlRow undef (extractLiveID lines) t) (fun _ => rfl)
        ((parseASSEvents fext lines).filter (fun d => decide (d.UID ≠ 0)))).1
    · intro hs
      have hne : dbType ≠ "mysql".toList := by rw [hs]; decide
      rw [hrun]
      unfold runWriter
      rw [if_neg hne, if_pos hs]
      simp only
      rw [insertDanmuToSQLite_danmaku]
      exact (rows_of_recording (extractLiveID lines) lite.danmaku
        (sqliteRow undef (extractLiveID lines) t) (fun _ => rfl)
        ((parseASSEvents fext lines).filter (fun d => decide (d.UID ≠ 0)))).1
  refine ⟨?_, ?_, ?_⟩
  · intro t ht
    exact key t (by rw [ht]; rfl)
  · intro e t he ht
    exact key t (by rw [he, ht]; rfl)
  · intro e e' he he'
    rw [h, he, he']
    rfl

/-- C7 witness: a file with the comment `LiveStartTime: 2025-01-01 00:00:00`
and a SQLite store that records the start 1735700000000 ms (02:53:20 UTC of
that day) for the recording `abc123`: the writer runs with the store's
value, and the row of the record at 1 s is sent at `2025-01-01 02:53:21`. -/
theorem SaveDanmuToDB_base_time_witness :
    SaveDanmuToDB extZero (fun _ => none) (fun _ => 0) id ⟨7, .utc⟩ "sqlite".toList false
        ["[Script Info]".toList, "; LiveID: abc123".toList,
          "; LiveStartTime: 2025-01-01 00:00:00".toList, "[Events]".toList,
          "Dialogue: 0,0:00:01.00,0:00:05.00,Default,Bob (5),0,0,0,,hi".toList]
        MySQLDB.empty ⟨[("abc123".toList, 1735700000000)], [], []⟩
      = (MySQLDB.empty, ⟨[("abc123".toList, 1735700000000)], [(5, "Bob".toList)],
          [⟨"abc123".toList, .fin 1, "2025-01-01 02:53:21".toList, 5, "hi".toList⟩]⟩) :=
  (((SaveDanmuToDB_base_time extZero (fun _ => none) (fun _ => 0) id ⟨7, .utc⟩
    "sqlite".toList
    ["[Script Info]".toList, "; LiveID: abc123".toList,
      "; LiveStartTime: 2025-01-01 00:00:00".toList, "[Events]".toList,
      "Dialogue: 0,0:00:01.00,0:00:05.00,Default,Bob (5),0,0,0,,hi".toList]
    MySQLDB.empty ⟨[("abc123".toList, 1735700000000)], [], []⟩
    (Or.inr rfl) (by decide) (by decide!)).1 ⟨1735700000000000000, .shanghai⟩
      (by decide)).1).trans (by decide!)

end Danmu
